import Mathlib

/-!
Verification of the GTS (Global Type System) registry core against its
TypeScript source.  Strings are modelled as `List Char`; JSON documents as
the inductive type `J`; thrown JS exceptions as the `Except.error`
constructor; JS `Map`/object key order as insertion-ordered association
lists.  Each definition carries a note pointing at the source function it
embeds.
-/

set_option maxRecDepth 4000

/-- Strings are lists of characters so that offset/concatenation reasoning
is structural. -/
abbrev Str := List Char

/-- Coerce a Lean string literal to the `Str` model. -/
def cs (s : String) : Str := s.data

/-- The apostrophe character, used when rebuilding source error messages. -/
def qc : Char := Char.ofNat 39

/-- Singleton apostrophe string. -/
def qs : Str := [qc]

/-- Whitespace predicate modelling the characters JS `String.prototype.trim`
removes (ASCII subset; the repository only ever encounters these). -/
def isWs (c : Char) : Bool :=
  c == ' ' || c == '\t' || c == '\n' || c == '\r' || c == '\x0b' || c == '\x0c'

/-- Left trim: drop leading whitespace. -/
def trimL (s : Str) : Str := s.dropWhile isWs

/-- Right trim: drop trailing whitespace. -/
def trimR (s : Str) : Str := (s.reverse.dropWhile isWs).reverse

/-- Model of JS `String.prototype.trim`. -/
def trim (s : Str) : Str := trimL (trimR s)

/-- Substring test (JS `String.prototype.includes`). -/
def hasSub (needle : Str) : Str → Bool
  | [] => needle.isEmpty
  | c :: rest => needle.isPrefixOf (c :: rest) || hasSub needle rest

/-- The JSON value type used throughout the repository: JS objects are
insertion-ordered association lists with unique keys (the model does not
reproduce the JS quirk that integer-like keys enumerate first, which no
schema in this codebase uses). Numbers are modelled on integers; no claim
in scope involves fractional values. -/
inductive J where
  | null : J
  | bool : Bool → J
  | num : Int → J
  | str : Str → J
  | arr : List J → J
  | obj : List (Str × J) → J

mutual

/-- Structural equality on JSON values, modelling the value-equality JS
`Set`/`===` semantics the source applies to primitive schema members. -/
def jeq : J → J → Bool
  | .null, .null => true
  | .bool a, .bool b => a == b
  | .num a, .num b => a == b
  | .str a, .str b => a == b
  | .arr a, .arr b => jeqL a b
  | .obj a, .obj b => jeqKV a b
  | _, _ => false

/-- Elementwise `jeq` on arrays. -/
def jeqL : List J → List J → Bool
  | [], [] => true
  | x :: xs, y :: ys => jeq x y && jeqL xs ys
  | _, _ => false

/-- Entrywise `jeq` on objects. -/
def jeqKV : List (Str × J) → List (Str × J) → Bool
  | [], [] => true
  | (k1, v1) :: xs, (k2, v2) :: ys => k1 == k2 && jeq v1 v2 && jeqKV xs ys
  | _, _ => false

end

/-- `GTS_PREFIX` from types.ts. -/
def gtsPfx : Str := cs "gts."

/-- `GTS_URI_PREFIX` from types.ts. -/
def uriPfx : Str := cs "gts://"

/-- Errors thrown by `Gts.parseGtsID` / `Gts.parseSegment`
(`InvalidGtsIDError` and `InvalidSegmentError` in types.ts). -/
inductive PErr where
  | invalidId : Str → Str → PErr
  | invalidSeg : Nat → Nat → Str → Str → PErr

/-- One parsed chain segment (`GtsIDSegment` in types.ts).  The source
field `namespace` is a Lean keyword and is rendered `nspace`. -/
structure Seg where
  num : Nat
  offset : Nat
  segment : Str
  vendor : Str
  package : Str
  nspace : Str
  type : Str
  verMajor : Nat
  verMinor : Option Nat
  isType : Bool
  isWildcard : Bool
deriving DecidableEq

/-- A parsed identifier (`GtsID` in types.ts). -/
structure GtsID where
  id : Str
  segments : List Seg
deriving DecidableEq

/-- `SEGMENT_TOKEN_REGEX = /^[a-z_][a-z0-9_]*$/` from gts.ts. -/
def tokOk : Str → Bool
  | [] => false
  | c :: rest =>
      (('a' ≤ c && c ≤ 'z') || c == '_') &&
        rest.all (fun d => ('a' ≤ d && d ≤ 'z') || ('0' ≤ d && d ≤ '9') || d == '_')

/-- Value of a digit string. -/
def digitsVal (s : Str) : Nat := s.foldl (fun a c => a * 10 + (c.toNat - 48)) 0

/-- Canonical non-negative decimal parse.  This is the composite of the
source checks `parseInt(s,10)`, `isNaN`, `< 0` and
`n.toString() !== s`: exactly the canonical decimal representations of
naturals survive all four. -/
def decNat (s : Str) : Option Nat :=
  if s = [] then none
  else if ¬ (s.all Char.isDigit) then none
  else if s.head? = some '0' ∧ s ≠ ['0'] then none
  else some (digitsVal s)

/-- Token-assignment cascade from `Gts.parseSegment` (gts.ts lines
168-251): fields are filled in order and a `*` token short-circuits with
`isWildcard` set. -/
def assignToks (num offset : Nat) (part : Str) (seg : Seg) (tokens : List Str) :
    Except PErr Seg :=
  match tokens[0]? with
  | none => .ok seg
  | some t0 =>
    if t0 = ['*'] then .ok { seg with isWildcard := true }
    else
      let s0 := { seg with vendor := t0 }
      match tokens[1]? with
      | none => .ok s0
      | some t1 =>
        if t1 = ['*'] then .ok { s0 with isWildcard := true }
        else
          let s1 := { s0 with package := t1 }
          match tokens[2]? with
          | none => .ok s1
          | some t2 =>
            if t2 = ['*'] then .ok { s1 with isWildcard := true }
            else
              let s2 := { s1 with nspace := t2 }
              match tokens[3]? with
              | none => .ok s2
              | some t3 =>
                if t3 = ['*'] then .ok { s2 with isWildcard := true }
                else
                  let s3 := { s2 with type := t3 }
                  match tokens[4]? with
                  | none => .ok s3
                  | some t4 =>
                    if t4 = ['*'] then .ok { s3 with isWildcard := true }
                    else if ¬ (t4.head? = some 'v') then
                      .error (.invalidSeg num offset part
                        (cs "Major version must start with " ++ qs ++ cs "v" ++ qs))
                    else
                      match decNat (t4.drop 1) with
                      | none => .error (.invalidSeg num offset part
                          (cs "Major version must be an integer"))
                      | some major =>
                        let s4 := { s3 with verMajor := major }
                        match tokens[5]? with
                        | none => .ok s4
                        | some t5 =>
                          if t5 = ['*'] then .ok { s4 with isWildcard := true }
                          else
                            match decNat t5 with
                            | none => .error (.invalidSeg num offset part
                                (cs "Minor version must be an integer"))
                            | some minor => .ok { s4 with verMinor := some minor }

/-- Token checks of `Gts.parseSegment` after tilde handling (gts.ts lines
138-166): double-dot and empty-token rejection, token count bounds, and
— only when the segment does not end in `*` — the minimum count and the
shape of the first four tokens. -/
def parseSegTokens (num offset : Nat) (part : Str) (seg : Seg) (working : Str) :
    Except PErr Seg :=
  if hasSub (cs "..") working then
    .error (.invalidSeg num offset part (cs "Empty token (double dots)"))
  else
    let tokens := working.splitOn '.'
    if tokens.any (· = []) then
      .error (.invalidSeg num offset part (cs "Empty token"))
    else if tokens.length > 6 then
      .error (.invalidSeg num offset part (cs "Too many tokens"))
    else if working.getLast? = some '*' then
      assignToks num offset part seg tokens
    else if tokens.length < 5 then
      .error (.invalidSeg num offset part (cs "Too few tokens"))
    else
      match (tokens.take 4).find? (fun t => ¬ tokOk t) with
      | some t => .error (.invalidSeg num offset part (cs "Invalid segment token: " ++ t))
      | none => assignToks num offset part seg tokens

/-- `Gts.parseSegment` (gts.ts lines 103-252). -/
def parseSegment (num offset : Nat) (part : Str) : Except PErr Seg :=
  let segStr := trim part
  let base : Seg :=
    { num, offset, segment := segStr, vendor := [], package := [], nspace := [],
      type := [], verMajor := 0, verMinor := none, isType := false, isWildcard := false }
  if segStr = [] ∨ segStr = ['~'] then
    .error (.invalidSeg num offset part (cs "Empty segment"))
  else
    let tildeCount := segStr.count '~'
    if tildeCount > 0 then
      if tildeCount > 1 then
        .error (.invalidSeg num offset part (cs "Too many ~ characters"))
      else if segStr.getLast? = some '~' then
        parseSegTokens num offset part { base with isType := true } segStr.dropLast
      else
        .error (.invalidSeg num offset part (cs "~ must be at the end"))
    else
      parseSegTokens num offset part base segStr

/-- Accumulating core of `Gts.splitPreservingTilde` (gts.ts lines 81-101):
cut after every `~`, push the trailing remainder if non-empty. -/
def splitTilGo (acc : Str) : Str → List Str
  | [] => if acc = [] then [] else [acc]
  | c :: rest => if c = '~' then (acc ++ ['~']) :: splitTilGo [] rest else splitTilGo (acc ++ [c]) rest

/-- `Gts.splitPreservingTilde`: split keeping each `~` terminator, then
drop standalone `"~"` fragments. -/
def splitTil (s : Str) : List Str := (splitTilGo [] s).filter (· ≠ ['~'])

/-- The parts loop of `Gts.parseGtsID` (gts.ts lines 62-71): empty parts
are skipped, the offset advances by the raw part length. -/
def segLoop : Nat → Nat → List Str → Except PErr (List Seg)
  | _, _, [] => .ok []
  | i, off, p :: ps =>
    if p = [] then segLoop (i + 1) off ps
    else
      match parseSegment (i + 1) off p with
      | .error e => .error e
      | .ok seg =>
        match segLoop (i + 1) (off + p.length) ps with
        | .error e => .error e
        | .ok rest => .ok (seg :: rest)

/-- Body of `Gts.parseGtsID` after the initial `id.trim()` (gts.ts lines
20-79); `id` is carried along only because the thrown errors embed the
original, untrimmed input. -/
def parseGtsIDAux (id raw : Str) : Except PErr GtsID :=
  if raw ≠ raw.map Char.toLower then
    .error (.invalidId id (cs "Must be lower case"))
  else if raw.contains '-' then
    .error (.invalidId id (cs "Must not contain " ++ qs ++ cs "-" ++ qs))
  else if ¬ (gtsPfx.isPrefixOf raw) then
    .error (.invalidId id (cs "Does not start with " ++ qs ++ gtsPfx ++ qs))
  else if raw.length > 1024 then
    .error (.invalidId id (cs "Too long"))
  else if hasSub (cs "..") raw then
    .error (.invalidId id (cs "Double dots not allowed"))
  else if raw.getLast? = some '.' then
    .error (.invalidId id (cs "Cannot end with a dot"))
  else if hasSub (cs "~~") raw then
    .error (.invalidId id (cs "Double tildes not allowed"))
  else if raw = gtsPfx ∨ raw = gtsPfx ++ ['~'] then
    .error (.invalidId id (cs "ID cannot be just the prefix"))
  else
    match segLoop 0 gtsPfx.length (splitTil (raw.drop gtsPfx.length)) with
    | .error e => .error e
    | .ok segs =>
      if segs = [] then .error (.invalidId id (cs "No valid segments found"))
      else .ok ⟨raw, segs⟩

/-- `Gts.parseGtsID` (gts.ts lines 20-79): trim, then parse. -/
def parseGtsID (id : Str) : Except PErr GtsID := parseGtsIDAux id (trim id)

/-- `Gts.isValidGtsID` (gts.ts lines 254-264): a raw prefix check on the
untrimmed input, then a parse attempt. -/
def isValidGtsID (id : Str) : Bool :=
  gtsPfx.isPrefixOf id && (parseGtsID id).toBool

/-- `ValidationResult` from types.ts. -/
structure ValidationResult where
  id : Str
  ok : Bool
  valid : Bool
  error : Str

/-- Rendering of the thrown error messages (types.ts lines 211-235). -/
def renderErr : PErr → Str
  | .invalidId i r => cs "Invalid GTS identifier: " ++ i ++ cs ": " ++ r
  | .invalidSeg n off s r =>
      cs "Invalid GTS segment #" ++ cs (toString n) ++ cs " @ offset " ++ cs (toString off) ++
        cs ": " ++ qs ++ s ++ qs ++ cs ": " ++ r

/-- `Gts.validateGtsID` (gts.ts lines 266-283). -/
def validateGtsID (id : Str) : ValidationResult :=
  match parseGtsID id with
  | .ok _ => { id, ok := true, valid := true, error := [] }
  | .error e => { id, ok := false, valid := false, error := renderErr e }

/-- Wildcard-segment comparison from `Gts.matchSegments` (gts.ts lines
426-453): every populated pattern field must agree, then everything after
matches. -/
def wildSegOk (p c : Seg) : Bool :=
  (p.vendor == [] || p.vendor == c.vendor) &&
  (p.package == [] || p.package == c.package) &&
  (p.nspace == [] || p.nspace == c.nspace) &&
  (p.type == [] || p.type == c.type) &&
  (p.verMajor == 0 || p.verMajor == c.verMajor) &&
  (match p.verMinor with
   | some m => c.verMinor == some m
   | none => true) &&
  (!p.isType || c.isType)

/-- Non-wildcard segment comparison from `Gts.matchSegments` (gts.ts
lines 455-487): exact equality everywhere, except that an absent pattern
minor version accepts any candidate minor. -/
def nonWildSegOk (p c : Seg) : Bool :=
  p.vendor == c.vendor && p.package == c.package && p.nspace == c.nspace &&
  p.type == c.type && p.verMajor == c.verMajor &&
  (match p.verMinor with
   | some m => c.verMinor == some m
   | none => true) &&
  p.isType == c.isType

/-- The indexed loop of `Gts.matchSegments`; the candidate list is never
exhausted first because of the length guard, so that branch is dead. -/
def matchSegsLoop : List Seg → List Seg → Bool
  | [], _ => true
  | _ :: _, [] => false
  | p :: ps, c :: rest => if p.isWildcard then wildSegOk p c else nonWildSegOk p c && matchSegsLoop ps rest

/-- `Gts.matchSegments` (gts.ts lines 415-492). -/
def matchSegments (patternSegs candidateSegs : List Seg) : Bool :=
  if patternSegs.length > candidateSegs.length then false
  else matchSegsLoop patternSegs candidateSegs

/-- `Gts.validateWildcard` (gts.ts lines 371-394). -/
def validateWildcard (pattern : Str) : Except PErr GtsID :=
  let p := trim pattern
  if ¬ (gtsPfx.isPrefixOf p) then
    .error (.invalidId pattern (cs "Does not start with " ++ qs ++ gtsPfx ++ qs))
  else if p.count '*' > 1 then
    .error (.invalidId pattern (cs "The wildcard * token is allowed only once"))
  else if p.count '*' = 1 ∧
      ¬ ((cs ".*").isSuffixOf p ∨ (cs "~*").isSuffixOf p) then
    .error (.invalidId pattern (cs "The wildcard * token is allowed only at the end of the pattern"))
  else parseGtsID p

/-- `Gts.wildcardMatch` (gts.ts lines 396-413). -/
def wildcardMatch (candidate pattern : GtsID) : Bool :=
  if ¬ (pattern.id.contains '*') then
    matchSegments pattern.segments candidate.segments
  else if pattern.id.count '*' > 1 || ¬ (pattern.id.getLast? = some '*') then
    false
  else
    matchSegments pattern.segments candidate.segments

/-- `MatchResult` from types.ts; `match` is a Lean keyword, rendered
`mtch`. -/
structure MatchResult where
  mtch : Bool
  pattern : Str
  candidate : Str
  error : Option Str

/-- `Gts.matchIDPattern` (gts.ts lines 325-369). -/
def matchIDPattern (candidate pattern : Str) : MatchResult :=
  match parseGtsID candidate with
  | .error e => { mtch := false, pattern, candidate, error := some (renderErr e) }
  | .ok candidateId =>
    match validateWildcard pattern with
    | .error e => { mtch := false, pattern, candidate, error := some (renderErr e) }
    | .ok patternId =>
      { mtch := wildcardMatch candidateId patternId, pattern, candidate, error := none }


/-- JS truthiness on JSON values (`NaN` does not occur in the model). -/
def jTruthy : J → Bool
  | .null => false
  | .bool b => b
  | .num n => ¬ (n == 0)
  | .str s => ¬ (s == [])
  | .arr _ => true
  | .obj _ => true

/-- Object property read (`obj[key]`), `none` meaning `undefined`. -/
def jGet {β : Type} (kvs : List (Str × β)) (k : Str) : Option β := List.lookup k kvs

/-- JS property assignment `obj[key] = v` (also `Map.set`): update in
place if the key exists, else append. -/
def setKey {β : Type} : List (Str × β) → Str → β → List (Str × β)
  | [], k, v => [(k, v)]
  | (k0, v0) :: rest, k, v =>
      if k0 == k then (k0, v) :: rest else (k0, v0) :: setKey rest k v

/-- JS `delete obj[key]`. -/
def delKey {β : Type} : List (Str × β) → Str → List (Str × β)
  | [], _ => []
  | (k0, v0) :: rest, k => if k0 == k then rest else (k0, v0) :: delKey rest k

/-- `GtsExtractor.isJsonSchema` (extract.ts lines 71-91, the copy kept by
Issue #25): the field read is the JS expression
`content['$schema'] || content['$$schema']`, so a present-but-truthy
`$schema` shadows `$$schema` even when it does not qualify. -/
def isJsonSchema (content : J) : Bool :=
  match content with
  | .obj kvs =>
      let schemaField : Option J :=
        match jGet kvs (cs "$schema") with
        | some v => if jTruthy v then some v else jGet kvs (cs "$$schema")
        | none => jGet kvs (cs "$$schema")
      match schemaField with
      | some (.str s) =>
          hasSub (cs "json-schema.org") s || uriPfx.isPrefixOf s || gtsPfx.isPrefixOf s
      | _ => false
  | _ => false

/-- The `is_schema` field computed by `GtsExtractor.extractID`
(extract.ts line 99). -/
def extractIsSchema (content : J) : Bool := isJsonSchema content

/-- Does a `$schema`/`$$schema` *value* qualify as a schema marker per the
specification wording. -/
def schemaValQualifies (s : Str) : Bool :=
  hasSub (cs "json-schema.org") s || uriPfx.isPrefixOf s || gtsPfx.isPrefixOf s

/-- The classifier exactly as the claim words it: the document *has* a
`$schema` or `$$schema` string field whose value qualifies.  Kept separate
from `isJsonSchema` so the two can be compared. -/
def claimHasSchemaField (content : J) : Bool :=
  match content with
  | .obj kvs =>
      kvs.any (fun kv =>
        (kv.1 == cs "$schema" || kv.1 == cs "$$schema") &&
        (match kv.2 with | .str s => schemaValQualifies s | _ => false))
  | _ => false

/-- The amended classifier: JS-truthy selection of `$schema` over
`$$schema`, then the qualification test on the selected value. -/
def amendedSelectedField (kvs : List (Str × J)) : Option J :=
  match jGet kvs (cs "$schema") with
  | some v => if jTruthy v then some v else jGet kvs (cs "$$schema")
  | none => jGet kvs (cs "$$schema")

/-- The amended classification predicate. -/
def amendedIsSchema (content : J) : Bool :=
  match content with
  | .obj kvs =>
      match amendedSelectedField kvs with
      | some (.str s) => schemaValQualifies s
      | _ => false
  | _ => false

/-- Key rename of `GtsStore.normalizeSchemaRecursive` (store.ts):
`$$id`→`$id`, `$$schema`→`$schema`, `$$ref`→`$ref`, `$$defs`→`$defs`. -/
def renameKey (k : Str) : Str :=
  if k == cs "$$id" then cs "$id"
  else if k == cs "$$schema" then cs "$schema"
  else if k == cs "$$ref" then cs "$ref"
  else if k == cs "$$defs" then cs "$defs"
  else k

/-- `value && typeof value === 'object'`. -/
def isObjLike : J → Bool
  | .arr _ => true
  | .obj _ => true
  | _ => false

/-- Was the *original* combinator branch exactly a one-key
`x-gts-ref` object (store.ts lines 230-238). -/
def isRefOnly : Option J → Bool
  | some (.obj kvs) => kvs.length == 1 && (jGet kvs (cs "x-gts-ref")).isSome
  | _ => false

/-- `obj[combinator]?.[idx]` on the original object. -/
def origAt (o : List (Str × J)) (c : Str) (i : Nat) : Option J :=
  match jGet o c with
  | some (.arr xs) => xs[i]?
  | _ => none

/-- Index-driven filter used for combinator cleanup. -/
def filterIdxGo (p : Nat → Bool) : Nat → List J → List J
  | _, [] => []
  | i, y :: ys => if p i then y :: filterIdxGo p (i + 1) ys else filterIdxGo p (i + 1) ys

/-- Combinator cleanup of `normalizeSchemaRecursive` (store.ts lines
227-244): drop branches whose original form was ref-only; delete the
combinator when the array empties. -/
def combClean (o n : List (Str × J)) (c : Str) : List (Str × J) :=
  match jGet n c with
  | some (.arr ys) =>
      let filtered := filterIdxGo (fun i => ¬ isRefOnly (origAt o c i)) 0 ys
      if filtered.isEmpty then delKey n c else setKey n c (.arr filtered)
  | _ => n

/-- `$id`/`$ref` `gts://` stripping of `normalizeSchemaRecursive`
(store.ts lines 246-258). -/
def stripUriAt (n : List (Str × J)) (k : Str) : List (Str × J) :=
  match jGet n k with
  | some (.str v) =>
      if v ≠ [] then
        if uriPfx.isPrefixOf v then setKey n k (.str (v.drop uriPfx.length)) else n
      else n
  | _ => n

mutual

/-- `GtsStore.normalizeSchemaRecursive` (store.ts lines 185-261). -/
def normJ : J → J
  | .arr xs => .arr (normList xs)
  | .obj kvs =>
      let n0 := normEntriesGo [] kvs
      let n1 := combClean kvs n0 (cs "oneOf")
      let n2 := combClean kvs n1 (cs "anyOf")
      let n3 := combClean kvs n2 (cs "allOf")
      .obj (stripUriAt (stripUriAt n3 (cs "$id")) (cs "$ref"))
  | .null => .null
  | .bool b => .bool b
  | .num n => .num n
  | .str s => .str s

/-- The array branch `obj.map(item => normalizeSchemaRecursive(item))`. -/
def normList : List J → List J
  | [] => []
  | x :: xs => normJ x :: normList xs

/-- The `for (const [key, value] of Object.entries(obj))` loop building
the normalized object: skip `x-gts-ref`, rename `$$` keys, recursively
normalize object-like values, assign into the accumulator. -/
def normEntriesGo : List (Str × J) → List (Str × J) → List (Str × J)
  | acc, [] => acc
  | acc, (k, v) :: rest =>
      if k == cs "x-gts-ref" then normEntriesGo acc rest
      else normEntriesGo (setKey acc (renameKey k) (if isObjLike v then normJ v else v)) rest

end






/-- Concatenation of the recorded raw segment texts (the reconstruction
of spec §8, "Id round-trip"). -/
def joinSegTexts (segs : List Seg) : Str := (segs.map (fun s => s.segment)).flatten

/-- Do the recorded segment offsets tile the identifier contiguously from
the given start offset. -/
def offsAligned : Nat → List Seg → Bool
  | _, [] => true
  | off, s :: rest => s.offset == off && offsAligned (off + s.segment.length) rest

/-- The segments of a parse outcome (`[]` on error). -/
def segsOf : Except PErr GtsID → List Seg
  | .ok g => g.segments
  | .error _ => []

/-- Per-segment comparison exactly as the claim words it: exact equality
of vendor, package, namespace, type, major version and the type flag; a
pattern segment that supplies a minor version must match it exactly,
while a pattern segment without a minor matches any candidate minor. -/
def claimSegMatch (p c : Seg) : Bool :=
  decide (p.vendor = c.vendor) && decide (p.package = c.package) &&
  decide (p.nspace = c.nspace) && decide (p.type = c.type) &&
  decide (p.verMajor = c.verMajor) && decide (p.isType = c.isType) &&
  (match p.verMinor with
   | some m => decide (c.verMinor = some m)
   | none => true)

/-- Segment-by-segment matching as the claim words it. -/
def claimSegsMatch : List Seg → List Seg → Bool
  | [], _ => true
  | _ :: _, [] => false
  | p :: ps, c :: rest => claimSegMatch p c && claimSegsMatch ps rest

/-- `GtsConfig` from types.ts. -/
structure GtsConfig where
  validateRefs : Bool
  strictMode : Bool

/-- `JsonEntity` from types.ts. -/
structure JsonEntity where
  id : Str
  schemaId : Option Str
  content : J
  isSchema : Bool
  references : List Str

/-- The `GtsStore` state (store.ts lines 7-10): the insertion-ordered
`byId` map and the configuration.  The embedded Ajv engine holds no state
observable by the claims in scope and is left external. -/
structure GtsStore where
  byId : List (Str × JsonEntity)
  config : GtsConfig

/-- `GtsStore.get` (store.ts lines 65-67). -/
def storeGet (st : GtsStore) (id : Str) : Option JsonEntity := jGet st.byId id

/-- `GtsStore.register` (store.ts lines 40-63).  The source `throw new
Error(...)` on an unresolved reference is modelled by `Except.error`
carrying the message: neither `GtsStore.register` nor its caller
`GTS.register` (index.ts lines 47-50) catches it, so the error constructor
represents the exception propagating out of the library.  The
`ajv.addSchema` registration for schemas mutates only the external
JSON-Schema engine. -/
def register (st : GtsStore) (entity : JsonEntity) : Except Str GtsStore :=
  if st.config.validateRefs then
    match entity.references.find? (fun r => (storeGet st r).isNone) with
    | some r => .error (cs "Unresolved reference: " ++ r)
    | none => .ok { st with byId := setKey st.byId entity.id entity }
  else .ok { st with byId := setKey st.byId entity.id entity }

/-- Property access `j[k]` through a possibly non-object value. -/
def getJv (j : J) (k : Str) : Option J :=
  match j with
  | .obj kvs => jGet kvs k
  | _ => none

/-- Is an optional value present and JS-truthy. -/
def truthyOpt : Option J → Bool
  | some v => jTruthy v
  | none => false

/-- `v === 'lit'` for a possibly-absent value. -/
def typeIs (t : Option J) (lit : String) : Bool :=
  match t with
  | some (.str v) => v == cs lit
  | _ => false

mutual

/-- JS `String(v)` coercion as used in template literals and property
keys: strings verbatim, numbers in decimal, arrays joined with `,`
(`null` elements rendering empty), objects as `[object Object]`. -/
def jToStr : J → Str
  | .null => cs "null"
  | .bool b => if b then cs "true" else cs "false"
  | .num n => cs (toString n)
  | .str s => s
  | .arr xs => jToStrArr xs
  | .obj _ => cs "[object Object]"

/-- Array rendering for `jToStr`. -/
def jToStrArr : List J → Str
  | [] => []
  | [x] => (match x with | .null => [] | y => jToStr y)
  | x :: xs => (match x with | .null => [] | y => jToStr y) ++ [','] ++ jToStrArr xs

end

/-- Join with a separator (JS `Array.prototype.join`). -/
def joinSep (sep : Str) : List Str → Str
  | [] => []
  | [x] => x
  | x :: xs => x ++ sep ++ joinSep sep xs

/-- JS `Set` membership (`SameValueZero`), value-structural on the
primitive values the source stores in sets. -/
def jmem (x : J) (l : List J) : Bool := l.any (fun y => jeq y x)

/-- `Array.from(new Set(l))`: deduplicate keeping first occurrences. -/
def dedupJ : List J → List J
  | [] => []
  | x :: rest => x :: dedupJ (rest.filter (fun y => ¬ jeq y x))
termination_by l => l.length
decreasing_by
  simp only [List.length_cons]
  exact Nat.lt_succ_of_le (List.length_filter_le _ _)

/-- JS strict inequality `a !== b` on JSON values: value comparison for
primitives, reference comparison (hence always unequal here) for the
array/object `type` values the compatibility checker compares. -/
def strictNeq : J → J → Bool
  | .null, .null => false
  | .bool a, .bool b => a != b
  | .num a, .num b => a != b
  | .str a, .str b => a != b
  | _, _ => true

/-- JS `>` on two constraint values; the source only reaches this with
numbers. -/
def jGtNum : J → J → Bool
  | .num a, .num b => a > b
  | _, _ => false

/-- JS `<` on two constraint values. -/
def jLtNum : J → J → Bool
  | .num a, .num b => a < b
  | _, _ => false

/-- `GtsStore.flattenSchema` (store.ts lines 653-695): union `properties`
and `required` across the schema's own fields and its `allOf` subschemas;
top-level `additionalProperties` wins.  The result is the JS object
`{properties, required, additionalProperties?}`. -/
def flattenSchema : Nat → J → J
  | 0, _ => .obj [(cs "properties", .obj []), (cs "required", .arr [])]
  | fuel + 1, schema =>
    let r0 : List (Str × J) × List J × Option J := ([], [], none)
    let r1 :=
      match getJv schema (cs "allOf") with
      | some (.arr subs) =>
        subs.foldl (fun acc sub =>
          let f := flattenSchema fuel sub
          let fProps := match getJv f (cs "properties") with | some (.obj p) => p | _ => []
          let fReq := match getJv f (cs "required") with | some (.arr r) => r | _ => []
          (fProps.foldl (fun (a : List (Str × J)) (kv : Str × J) => setKey a kv.1 kv.2) acc.1,
           acc.2.1 ++ fReq,
           match getJv f (cs "additionalProperties") with
           | some v => some v
           | none => acc.2.2)) r0
      | _ => r0
    let props :=
      match getJv schema (cs "properties") with
      | some (.obj pkvs) => pkvs.foldl (fun (a : List (Str × J)) (kv : Str × J) => setKey a kv.1 kv.2) r1.1
      | _ => r1.1
    let req :=
      match getJv schema (cs "required") with
      | some (.arr rs) => r1.2.1 ++ rs
      | _ => r1.2.1
    let ap :=
      match getJv schema (cs "additionalProperties") with
      | some v => some v
      | none => r1.2.2
    .obj ([(cs "properties", .obj props), (cs "required", .arr req)] ++
      (match ap with | some v => [(cs "additionalProperties", v)] | none => []))

/-- `GtsStore.checkMinMaxConstraint` (store.ts lines 601-651). -/
def checkMinMax (prop : Str) (oldS newS : J) (minKey maxKey : Str)
    (checkTightening : Bool) : List Str :=
  let oldMin := getJv oldS minKey
  let newMin := getJv newS minKey
  let oldMax := getJv oldS maxKey
  let newMax := getJv newS maxKey
  let pfx := cs "Property " ++ qs ++ prop ++ qs ++ cs " "
  let minErr :=
    if checkTightening then
      match oldMin, newMin with
      | some om, some nm =>
        if jGtNum nm om then
          [pfx ++ minKey ++ cs " increased from " ++ jToStr om ++ cs " to " ++ jToStr nm]
        else []
      | none, some nm => [pfx ++ cs "added " ++ minKey ++ cs " constraint: " ++ jToStr nm]
      | _, _ => []
    else
      match oldMin, newMin with
      | some om, some nm =>
        if jLtNum nm om then
          [pfx ++ minKey ++ cs " decreased from " ++ jToStr om ++ cs " to " ++ jToStr nm]
        else []
      | some _, none => [pfx ++ cs "removed " ++ minKey ++ cs " constraint"]
      | _, _ => []
  let maxErr :=
    if checkTightening then
      match oldMax, newMax with
      | some om, some nm =>
        if jLtNum nm om then
          [pfx ++ maxKey ++ cs " decreased from " ++ jToStr om ++ cs " to " ++ jToStr nm]
        else []
      | none, some nm => [pfx ++ cs "added " ++ maxKey ++ cs " constraint: " ++ jToStr nm]
      | _, _ => []
    else
      match oldMax, newMax with
      | some om, some nm =>
        if jGtNum nm om then
          [pfx ++ maxKey ++ cs " increased from " ++ jToStr om ++ cs " to " ++ jToStr nm]
        else []
      | some _, none => [pfx ++ cs "removed " ++ maxKey ++ cs " constraint"]
      | _, _ => []
  minErr ++ maxErr

/-- `GtsStore.checkConstraintCompatibility` (store.ts lines 568-599). -/
def checkConstraintCompat (prop : Str) (oldP newP : J) (checkTightening : Bool) : List Str :=
  let propType := getJv oldP (cs "type")
  (if typeIs propType "number" || typeIs propType "integer" then
    checkMinMax prop oldP newP (cs "minimum") (cs "maximum") checkTightening
  else []) ++
  (if typeIs propType "string" then
    checkMinMax prop oldP newP (cs "minLength") (cs "maxLength") checkTightening
  else []) ++
  (if typeIs propType "array" then
    checkMinMax prop oldP newP (cs "minItems") (cs "maxItems") checkTightening
  else [])

/-- `GtsStore.checkSchemaCompatibility` (store.ts lines 478-566),
returning `(errors.isEmpty, errors)`.  The fuel bounds the nested
object/array recursion; every claim quantifies over sufficient fuel. -/
def checkSchemaCompat : Nat → J → J → Bool → Bool × List Str
  | 0, _, _, _ => (true, [])
  | fuel + 1, oldSchema, newSchema, checkBackward =>
    let oldFlat := flattenSchema (fuel + 1) oldSchema
    let newFlat := flattenSchema (fuel + 1) newSchema
    let oldProps := match getJv oldFlat (cs "properties") with | some (.obj p) => p | _ => []
    let newProps := match getJv newFlat (cs "properties") with | some (.obj p) => p | _ => []
    let oldReq := match getJv oldFlat (cs "required") with | some (.arr r) => r | _ => []
    let newReq := match getJv newFlat (cs "required") with | some (.arr r) => r | _ => []
    let reqErrs :=
      if checkBackward then
        let newlyRequired := (dedupJ newReq).filter (fun p => ¬ jmem p oldReq)
        if ¬ newlyRequired.isEmpty then
          [cs "Added required properties: " ++ joinSep (cs ", ") (newlyRequired.map jToStr)]
        else []
      else
        let removedRequired := (dedupJ oldReq).filter (fun p => ¬ jmem p newReq)
        if ¬ removedRequired.isEmpty then
          [cs "Removed required properties: " ++ joinSep (cs ", ") (removedRequired.map jToStr)]
        else []
    let commonProps := (oldProps.map Prod.fst).filter (fun k => (jGet newProps k).isSome)
    let propErrs := commonProps.foldl (fun acc prop =>
      let oldPropSchema := match jGet oldProps prop with
        | some v => if jTruthy v then v else .obj []
        | none => .obj []
      let newPropSchema := match jGet newProps prop with
        | some v => if jTruthy v then v else .obj []
        | none => .obj []
      let oldType := getJv oldPropSchema (cs "type")
      let newType := getJv newPropSchema (cs "type")
      let typeErrs :=
        match oldType, newType with
        | some ot, some nt =>
          if jTruthy ot && jTruthy nt && strictNeq ot nt then
            [cs "Property " ++ qs ++ prop ++ qs ++ cs " type changed from " ++ jToStr ot ++
              cs " to " ++ jToStr nt]
          else []
        | _, _ => []
      let oldEnum := match getJv oldPropSchema (cs "enum") with | some (.arr l) => l | _ => []
      let newEnum := match getJv newPropSchema (cs "enum") with | some (.arr l) => l | _ => []
      let enumErrs :=
        if ¬ oldEnum.isEmpty && ¬ newEnum.isEmpty then
          if checkBackward then
            let added := newEnum.filter (fun v => ¬ jmem v oldEnum)
            if ¬ added.isEmpty then
              [cs "Property " ++ qs ++ prop ++ qs ++ cs " added enum values: " ++
                joinSep (cs ", ") (added.map jToStr)]
            else []
          else
            let removed := oldEnum.filter (fun v => ¬ jmem v newEnum)
            if ¬ removed.isEmpty then
              [cs "Property " ++ qs ++ prop ++ qs ++ cs " removed enum values: " ++
                joinSep (cs ", ") (removed.map jToStr)]
            else []
        else []
      let consErrs := checkConstraintCompat prop oldPropSchema newPropSchema checkBackward
      let nestedErrs :=
        if typeIs oldType "object" && typeIs newType "object" then
          ((checkSchemaCompat fuel oldPropSchema newPropSchema checkBackward).2).map
            (fun e => cs "Property " ++ qs ++ prop ++ qs ++ cs ": " ++ e)
        else []
      let itemErrs :=
        if typeIs oldType "array" && typeIs newType "array" then
          match getJv oldPropSchema (cs "items"), getJv newPropSchema (cs "items") with
          | some oi, some ni =>
            if jTruthy oi && jTruthy ni then
              ((checkSchemaCompat fuel oi ni checkBackward).2).map
                (fun e => cs "Property " ++ qs ++ prop ++ qs ++ cs " array items: " ++ e)
            else []
          | _, _ => []
        else []
      acc ++ typeErrs ++ enumErrs ++ consErrs ++ nestedErrs ++ itemErrs) []
    let errors := reqErrs ++ propErrs
    (errors.isEmpty, errors)

/-- The flattened `required` list (the `oldReq`/`newReq` lets of
`checkSchemaCompatibility`). -/
def flatRequired (fuel : Nat) (s : J) : List J :=
  match getJv (flattenSchema fuel s) (cs "required") with | some (.arr r) => r | _ => []

/-- The `reqErrs` required-property comparison of
`checkSchemaCompatibility` (store.ts lines 492-509), isolated so the
added/removed-required behaviour can be reasoned about on its own. -/
def reqErrsFn (fuel : Nat) (oldS newS : J) (checkBackward : Bool) : List Str :=
  let oldReq := flatRequired fuel oldS
  let newReq := flatRequired fuel newS
  if checkBackward then
    let newlyRequired := (dedupJ newReq).filter (fun p => ¬ jmem p oldReq)
    if ¬ newlyRequired.isEmpty then
      [cs "Added required properties: " ++ joinSep (cs ", ") (newlyRequired.map jToStr)]
    else []
  else
    let removedRequired := (dedupJ oldReq).filter (fun p => ¬ jmem p newReq)
    if ¬ removedRequired.isEmpty then
      [cs "Removed required properties: " ++ joinSep (cs ", ") (removedRequired.map jToStr)]
    else []

/-- `GtsStore.inferDirection` (store.ts lines 439-465): compare the
final-segment minor versions; `up`/`down`/`none`, `unknown` when either
is missing. -/
def inferDirection (fromId toId : Str) : Str :=
  match parseGtsID fromId, parseGtsID toId with
  | .ok f, .ok t =>
    match f.segments.getLast?, t.segments.getLast? with
    | some fs, some ts =>
      (match fs.verMinor, ts.verMinor with
       | some fm, some tm =>
         if tm > fm then cs "up" else if tm < fm then cs "down" else cs "none"
       | _, _ => cs "unknown")
    | _, _ => cs "unknown"
  | _, _ => cs "unknown"

/-- `CompatibilityResult` as built by `GtsStore.checkCompatibility`. -/
structure CompatResult where
  fromId : Str
  toId : Str
  oldId : Str
  newId : Str
  direction : Str
  added_properties : List Str
  removed_properties : List Str
  changed_properties : List Str
  is_fully_compatible : Bool
  is_backward_compatible : Bool
  is_forward_compatible : Bool
  incompatibility_reasons : List Str
  backward_errors : List Str
  forward_errors : List Str

/-- `GtsStore.checkCompatibility` (store.ts lines 369-437). -/
def checkCompatibility (st : GtsStore) (oldSchemaId newSchemaId : Str) (fuel : Nat) :
    CompatResult :=
  match storeGet st oldSchemaId, storeGet st newSchemaId with
  | some oldEntity, some newEntity =>
    if ¬ (jTruthy oldEntity.content && jTruthy newEntity.content) then
      { fromId := oldSchemaId, toId := newSchemaId, oldId := oldSchemaId, newId := newSchemaId,
        direction := cs "unknown", added_properties := [], removed_properties := [],
        changed_properties := [], is_fully_compatible := false,
        is_backward_compatible := false, is_forward_compatible := false,
        incompatibility_reasons := [],
        backward_errors := [cs "Invalid schema content"],
        forward_errors := [cs "Invalid schema content"] }
    else
      let b := checkSchemaCompat fuel oldEntity.content newEntity.content true
      let f := checkSchemaCompat fuel oldEntity.content newEntity.content false
      { fromId := oldSchemaId, toId := newSchemaId, oldId := oldSchemaId, newId := newSchemaId,
        direction := inferDirection oldSchemaId newSchemaId,
        added_properties := [], removed_properties := [], changed_properties := [],
        is_fully_compatible := b.1 && f.1,
        is_backward_compatible := b.1, is_forward_compatible := f.1,
        incompatibility_reasons := [],
        backward_errors := b.2, forward_errors := f.2 }
  | _, _ =>
    { fromId := oldSchemaId, toId := newSchemaId, oldId := oldSchemaId, newId := newSchemaId,
      direction := cs "unknown", added_properties := [], removed_properties := [],
      changed_properties := [], is_fully_compatible := false,
      is_backward_compatible := false, is_forward_compatible := false,
      incompatibility_reasons := [],
      backward_errors := [cs "Schema not found"],
      forward_errors := [cs "Schema not found"] }

/-- `GtsStore.deepCopy` (store.ts lines 1056-1071): a structural copy; in
the pure model copying an immutable value is the value itself. -/
def deepCopy (j : J) : J := j

/-- `GtsStore.buildPath` (store.ts lines 1045-1054). -/
def buildPath (base : Str) (prop : Str) : Str :=
  if base = [] then prop
  else if prop.head? = some '[' then base ++ prop
  else base ++ ['.'] ++ prop

/-- `GtsStore.effectiveObjectSchema` (store.ts lines 996-1016): prefer
direct `properties`/`required`, fall back to the first `allOf` part
carrying them. -/
def effectiveObjectSchema (schema : J) : J :=
  if ¬ jTruthy schema then .obj []
  else if truthyOpt (getJv schema (cs "properties")) || truthyOpt (getJv schema (cs "required")) then
    schema
  else
    match getJv schema (cs "allOf") with
    | some (.arr parts) =>
      match parts.find? (fun part =>
        truthyOpt (getJv part (cs "properties")) || truthyOpt (getJv part (cs "required"))) with
      | some part => part
      | none => schema
    | _ => schema

/-- Result record of `GtsStore.castInstanceToSchema`: `casted` is `J.null`
when the instance was not an object. -/
structure CastOut where
  casted : J
  added : List Str
  removed : List Str
  incompatibilityReasons : List Str

/-- One required-property step of `castInstanceToSchema` step 1: fill the
default or record the incompatibility. -/
def castReqStep (targetProps : List (Str × J)) (basePath : Str)
    (acc : List (Str × J) × List Str × List Str) (reqProp : J) :
    List (Str × J) × List Str × List Str :=
  let key := jToStr reqProp
  if (jGet acc.1 key).isSome then acc
  else
    match jGet targetProps key with
    | some ps =>
      if jTruthy ps then
        match getJv ps (cs "default") with
        | some d =>
          (setKey acc.1 key (deepCopy d), acc.2.1 ++ [buildPath basePath key], acc.2.2)
        | none =>
          (acc.1, acc.2.1,
            acc.2.2 ++ [cs "Missing required property " ++ qs ++ buildPath basePath key ++ qs ++
              cs " and no default is defined"])
      else
        (acc.1, acc.2.1,
          acc.2.2 ++ [cs "Missing required property " ++ qs ++ buildPath basePath key ++ qs ++
            cs " and no default is defined"])
    | none =>
      (acc.1, acc.2.1,
        acc.2.2 ++ [cs "Missing required property " ++ qs ++ buildPath basePath key ++ qs ++
          cs " and no default is defined"])

/-- Step 2 of `castInstanceToSchema`: optional properties with defaults. -/
def castOptStep (required : List J) (basePath : Str)
    (acc : List (Str × J) × List Str) (entry : Str × J) :
    List (Str × J) × List Str :=
  let prop := entry.1
  if jmem (.str prop) required then acc
  else if (jGet acc.1 prop).isSome then acc
  else
    match getJv entry.2 (cs "default") with
    | some d => (setKey acc.1 prop (deepCopy d), acc.2 ++ [buildPath basePath prop])
    | none => acc

/-- Step 2.5 of `castInstanceToSchema`: rewrite GTS-identifier `const`
discriminators. -/
def castConstStep (acc : List (Str × J)) (entry : Str × J) : List (Str × J) :=
  match getJv entry.2 (cs "const") with
  | some (.str constVal) =>
    match jGet acc entry.1 with
    | some (.str existingVal) =>
      if isValidGtsID constVal && isValidGtsID existingVal then
        if existingVal ≠ constVal then setKey acc entry.1 (.str constVal) else acc
      else acc
    | _ => acc
  | _ => acc

/-- Step 3 of `castInstanceToSchema`: drop unknown properties when
`additionalProperties: false`. -/
def castDropStep (targetProps : List (Str × J)) (basePath : Str)
    (acc : List (Str × J) × List Str) (prop : Str) :
    List (Str × J) × List Str :=
  if (jGet targetProps prop).isSome then acc
  else (delKey acc.1 prop, acc.2 ++ [buildPath basePath prop])

mutual

/-- `GtsStore.castInstanceToSchema` (store.ts lines 864-994).  The fuel
bounds the nested-object recursion of step 4; all claims quantify over
sufficient fuel. -/
def castInstanceToSchema : Nat → J → J → Str → CastOut
  | 0, _, _, _ => ⟨.null, [], [], []⟩
  | fuel + 1, inst, schema, basePath =>
    match inst with
    | .obj ikvs =>
      let targetProps := match getJv schema (cs "properties") with
        | some (.obj p) => p
        | _ => []
      let required : List J := match getJv schema (cs "required") with
        | some (.arr r) => r
        | _ => []
      let additional : Bool := match getJv schema (cs "additionalProperties") with
        | some (.bool false) => false
        | _ => true
      -- 1) required properties: fill defaults, or record incompatibilities
      let s1 := (dedupJ required).foldl (castReqStep targetProps basePath) (ikvs, [], [])
      let result1 := s1.1
      let added1 := s1.2.1
      let reasons1 := s1.2.2
      -- 2) optional properties with defaults
      let s2 := targetProps.foldl (castOptStep required basePath) (result1, added1)
      let result2 := s2.1
      let added2 := s2.2
      -- 2.5) const rewriting for GTS-id discriminator fields
      let result25 := targetProps.foldl castConstStep result2
      -- 3) drop unknown properties under additionalProperties: false
      let s3 :=
        if ¬ additional then
          (result25.map Prod.fst).foldl (castDropStep targetProps basePath) (result25, [])
        else (result25, [])
      let result3 := s3.1
      let removed3 := s3.2
      -- 4) recurse into object-typed properties and object arrays
      let s4 := targetProps.foldl (castRecStep fuel basePath) (result3, added2, removed3, reasons1)
      ⟨.obj s4.1, s4.2.1, s4.2.2.1, s4.2.2.2⟩
    | _ => ⟨.null, [], [], [cs "Instance must be an object for casting"]⟩

/-- One step-4 entry of `castInstanceToSchema`: recurse into object-typed
properties and object-typed array items. -/
def castRecStep (fuel : Nat) (basePath : Str)
    (acc : List (Str × J) × List Str × List Str × List Str) (entry : Str × J) :
    List (Str × J) × List Str × List Str × List Str :=
  let prop := entry.1
  let ps := entry.2
  match jGet acc.1 prop with
  | none => acc
  | some val =>
    let propType := getJv ps (cs "type")
    let accA :=
      if typeIs propType "object" then
        match val with
        | .obj _ =>
          let nested := castInstanceToSchema fuel val (effectiveObjectSchema ps)
            (buildPath basePath prop)
          (setKey acc.1 prop nested.casted,
           acc.2.1 ++ nested.added,
           acc.2.2.1 ++ nested.removed,
           acc.2.2.2 ++ nested.incompatibilityReasons)
        | _ => acc
      else acc
    if typeIs propType "array" then
      match jGet accA.1 prop with
      | some (.arr items) =>
        match getJv ps (cs "items") with
        | some itemsSchema =>
          if jTruthy itemsSchema && typeIs (getJv itemsSchema (cs "type")) "object" then
            let folded := (items.enum).foldl
              (castItemStep fuel basePath prop (effectiveObjectSchema itemsSchema))
              (([], [], [], []) : List J × List Str × List Str × List Str)
            (setKey accA.1 prop (.arr folded.1),
             accA.2.1 ++ folded.2.1,
             accA.2.2.1 ++ folded.2.2.1,
             accA.2.2.2 ++ folded.2.2.2)
          else accA
        | none => accA
      | _ => accA
    else accA

/-- One array item of step 4: cast object items against the effective
item schema, pass other items through. -/
def castItemStep (fuel : Nat) (basePath : Str) (prop : Str) (nestedSchema : J)
    (bacc : List J × List Str × List Str × List Str) (pair : Nat × J) :
    List J × List Str × List Str × List Str :=
  match pair.2 with
  | .obj _ =>
    let nested := castInstanceToSchema fuel pair.2 nestedSchema
      (buildPath basePath (prop ++ ['['] ++ cs (toString pair.1) ++ [']']))
    (bacc.1 ++ [nested.casted],
     bacc.2.1 ++ nested.added,
     bacc.2.2.1 ++ nested.removed,
     bacc.2.2.2 ++ nested.incompatibilityReasons)
  | _ => (bacc.1 ++ [pair.2], bacc.2)

end

/-- `XGtsRefValidationError` from x-gts-ref.ts. -/
structure XErr where
  fieldPath : Str
  value : J
  refPattern : Str
  reason : Str

/-- JS `typeof` rendering used in x-gts-ref error messages. -/
def typeofJ : J → Str
  | .null => cs "object"
  | .bool _ => cs "boolean"
  | .num _ => cs "number"
  | .str _ => cs "string"
  | .arr _ => cs "object"
  | .obj _ => cs "object"

/-- `XGtsRefValidator.stripGtsURIPrefix`: drop one leading `gts://`. -/
def stripUriOnce (v : Str) : Str :=
  if uriPfx.isPrefixOf v then v.drop uriPfx.length else v

/-- The pointer walk of `XGtsRefValidator.resolvePointer` (x-gts-ref.ts):
descend through object keys (and canonical array indices, as JS bracket
access does), failing on scalars and absent keys. -/
def ptrWalk : J → List Str → Option J
  | cur, [] => some cur
  | cur, part :: rest =>
    match cur with
    | .obj kvs =>
      match jGet kvs part with
      | some nxt => ptrWalk nxt rest
      | none => none
    | .arr xs =>
      match decNat part with
      | some i => match xs[i]? with
        | some nxt => ptrWalk nxt rest
        | none => none
      | none => none
    | _ => none

/-- `XGtsRefValidator.resolvePointer`: resolve a `/`-pointer against the
root schema, following one `x-gts-ref` indirection; the fuel models the
call stack of the (potentially self-referential) recursion, `""` meaning
failure. -/
def resolvePointer : Nat → J → Str → Str
  | 0, _, _ => []
  | fuel + 1, schema, pointer =>
    let path := if pointer.head? = some '/' then pointer.drop 1 else pointer
    if path = [] then []
    else
      match ptrWalk schema (path.splitOn '/') with
      | some (.str sres) => stripUriOnce sres
      | some (.obj kvs) =>
        (match jGet kvs (cs "x-gts-ref") with
         | some xr =>
           if jTruthy xr then
             match xr with
             | .str xrs =>
               if xrs.head? = some '/' then resolvePointer fuel schema xrs else xrs
             | _ => []
           else []
         | none => [])
      | _ => []

/-- `XGtsRefValidator.validateGtsPattern` (x-gts-ref.ts): the value must
be a valid identifier, satisfy the pattern prefix rule, and resolve in
the registry. -/
def validateGtsPattern (st : GtsStore) (value pattern fieldPath : Str) : Option XErr :=
  if ¬ isValidGtsID value then
    some ⟨fieldPath, .str value, pattern,
      cs "Value " ++ qs ++ value ++ qs ++ cs " is not a valid GTS identifier"⟩
  else
    let mismatch : Option XErr :=
      if pattern = cs "gts.*" then none
      else if pattern.getLast? = some '*' then
        if ¬ (pattern.dropLast).isPrefixOf value then
          some ⟨fieldPath, .str value, pattern,
            cs "Value " ++ qs ++ value ++ qs ++ cs " does not match pattern " ++ qs ++ pattern ++ qs⟩
        else none
      else if ¬ pattern.isPrefixOf value then
        some ⟨fieldPath, .str value, pattern,
          cs "Value " ++ qs ++ value ++ qs ++ cs " does not match pattern " ++ qs ++ pattern ++ qs⟩
      else none
    match mismatch with
    | some e => some e
    | none =>
      if (storeGet st value).isNone then
        some ⟨fieldPath, .str value, pattern,
          cs "Referenced entity " ++ qs ++ value ++ qs ++ cs " not found in registry"⟩
      else none

/-- `XGtsRefValidator.validateRefValue` (x-gts-ref.ts): resolve relative
pointers (one further indirection), then check the value against the
resolved pattern. -/
def validateRefValue (st : GtsStore) (fuel : Nat) (value : Str) (refPattern : J)
    (fieldPath : Str) (schema : J) : Option XErr :=
  match refPattern with
  | .str rp =>
    if rp.head? = some '/' then
      let resolved := resolvePointer fuel schema rp
      if resolved = [] then
        some ⟨fieldPath, .str value, rp,
          cs "Cannot resolve reference path " ++ qs ++ rp ++ qs⟩
      else
        let checked : Str ⊕ XErr :=
          if resolved.head? = some '/' then
            let further := resolvePointer fuel schema resolved
            if further = [] then
              .inr ⟨fieldPath, .str value, rp,
                cs "Cannot resolve nested reference " ++ qs ++ rp ++ qs ++ cs " -> " ++
                  qs ++ resolved ++ qs⟩
            else .inl further
          else .inl resolved
        match checked with
        | .inr e => some e
        | .inl resolvedPattern =>
          if ¬ gtsPfx.isPrefixOf resolvedPattern then
            some ⟨fieldPath, .str value, rp,
              cs "Resolved reference " ++ qs ++ rp ++ qs ++ cs " -> " ++ qs ++ resolvedPattern ++
                qs ++ cs " is not a GTS pattern"⟩
          else validateGtsPattern st value resolvedPattern fieldPath
    else validateGtsPattern st value rp fieldPath
  | other =>
    some ⟨fieldPath, .str value, jToStr other,
      cs "Value must be a string, got " ++ typeofJ other⟩

mutual

/-- `XGtsRefValidator.containsXGtsRef` (x-gts-ref.ts lines 668-679): does
any subtree carry an `x-gts-ref` keyword. -/
def containsXGtsRef : J → Bool
  | .obj kvs => (jGet kvs (cs "x-gts-ref")).isSome || cxgKV kvs
  | .arr xs => cxgL xs
  | _ => false

/-- Elementwise `containsXGtsRef`. -/
def cxgL : List J → Bool
  | [] => false
  | x :: xs => containsXGtsRef x || cxgL xs

/-- Valuewise `containsXGtsRef` over object entries. -/
def cxgKV : List (Str × J) → Bool
  | [] => false
  | (_, v) :: rest => containsXGtsRef v || cxgKV rest

end

/-- `XGtsRefValidator.visitInstance`, combinator-aware version
(x-gts-ref.ts lines 359-449): check an `x-gts-ref` at the node, recurse
into object properties, array items and `allOf`, and enforce
`anyOf`/`oneOf` only when every branch is ref-bearing — `oneOf` requires
exactly one passing branch.  Errors accumulate in source push order; the
fuel bounds the schema recursion. -/
def visitInstance (st : GtsStore) : Nat → J → J → Str → J → List XErr
  | 0, _, _, _, _ => []
  | fuel + 1, inst, schema, path, rootSchema =>
    if ¬ jTruthy schema then []
    else
      let e1 : List XErr :=
        match getJv schema (cs "x-gts-ref") with
        | some rp =>
          match inst with
          | .str v => (validateRefValue st fuel v rp path rootSchema).toList
          | _ => []
        | none => []
      let e2 : List XErr :=
        if typeIs (getJv schema (cs "type")) "object" then
          match getJv schema (cs "properties") with
          | some (.obj props) =>
            (match inst with
             | .obj ikvs =>
               props.foldl (fun acc entry =>
                 match jGet ikvs entry.1 with
                 | some sub =>
                   acc ++ visitInstance st fuel sub entry.2
                     (if path = [] then entry.1 else path ++ ['.'] ++ entry.1) rootSchema
                 | none => acc) []
             | _ => [])
          | _ => []
        else []
      let e3 : List XErr :=
        if typeIs (getJv schema (cs "type")) "array" then
          match getJv schema (cs "items") with
          | some items =>
            if jTruthy items then
              match inst with
              | .arr xs =>
                (xs.enum).foldl (fun acc (pair : Nat × J) =>
                  acc ++ visitInstance st fuel pair.2 items
                    (path ++ ['['] ++ cs (toString pair.1) ++ [']']) rootSchema) []
              | _ => []
            else []
          | none => []
        else []
      let e4 : List XErr :=
        match getJv schema (cs "allOf") with
        | some (.arr subs) =>
          subs.foldl (fun acc sub => acc ++ visitInstance st fuel inst sub path rootSchema) []
        | _ => []
      let e5 : List XErr :=
        match getJv schema (cs "anyOf") with
        | some (.arr branches) =>
          let refBranches := branches.filter containsXGtsRef
          if ¬ refBranches.isEmpty ∧ refBranches.length = branches.length then
            let branchResults := refBranches.map
              (fun sub => visitInstance st fuel inst sub path rootSchema)
            if branchResults.any (fun errs => errs.isEmpty) then []
            else branchResults.flatten
          else []
        | _ => []
      let e6 : List XErr :=
        match getJv schema (cs "oneOf") with
        | some (.arr branches) =>
          let refBranches := branches.filter containsXGtsRef
          if ¬ refBranches.isEmpty ∧ refBranches.length = branches.length then
            let branchResults := refBranches.map
              (fun sub => visitInstance st fuel inst sub path rootSchema)
            let passingCount := (branchResults.filter (fun errs => errs.isEmpty)).length
            if passingCount = 0 then branchResults.flatten
            else if passingCount > 1 then
              [⟨(if path = [] then cs "/" else path), inst, [],
                cs "Value matches " ++ cs (toString passingCount) ++
                  cs " oneOf branches but must match exactly one"⟩]
            else []
          else []
        | _ => []
      e1 ++ e2 ++ e3 ++ e4 ++ e5 ++ e6

/-- `XGtsRefValidator.validateInstance` (x-gts-ref.ts lines 341-345): the
schema itself is the root for pointer resolution. -/
def xrefValidateInstance (st : GtsStore) (fuel : Nat) (inst schema : J) : List XErr :=
  visitInstance st fuel inst schema [] schema

/-- No duplicate keys in an object entry list (JS objects cannot carry
duplicates; parts of the normalization proof track this invariant). -/
def nodupKeys {β : Type} : List (Str × β) → Bool
  | [] => true
  | (k, _) :: rest => ¬ (rest.any (fun kv => kv.1 == k)) && nodupKeys rest

/-- A key the normalizer leaves alone: not `x-gts-ref` and not one of the
four `$$`-renamed keys. -/
def keyOkStr (k : Str) : Bool := ¬ (k == cs "x-gts-ref") && renameKey k == k

/-- Every key of the entry list is normalization-stable. -/
def keysOkKV (kvs : List (Str × J)) : Bool := kvs.all (fun kv => keyOkStr kv.1)

/-- A combinator entry, when it is an array, is non-empty. -/
def combOkAt (kvs : List (Str × J)) (c : Str) : Bool :=
  match jGet kvs c with
  | some (.arr ys) => ¬ ys.isEmpty
  | _ => true

/-- All three combinator entries are clean. -/
def combOk (kvs : List (Str × J)) : Bool :=
  combOkAt kvs (cs "oneOf") && combOkAt kvs (cs "anyOf") && combOkAt kvs (cs "allOf")

/-- A `$id`/`$ref` string entry does not carry the `gts://` prefix. -/
def idOkAt (kvs : List (Str × J)) (k : Str) : Bool :=
  match jGet kvs k with
  | some (.str v) => ¬ uriPfx.isPrefixOf v
  | _ => true

/-- Both URI-bearing entries are already stripped. -/
def idOk (kvs : List (Str × J)) : Bool := idOkAt kvs (cs "$id") && idOkAt kvs (cs "$ref")

mutual

/-- Normalization fixpoints: objects with stable, duplicate-free keys,
non-empty combinator arrays, stripped `$id`/`$ref` values and clean
subvalues.  `normJ` maps into this class and is the identity on it. -/
def cleanJ : J → Bool
  | .arr xs => cleanL xs
  | .obj kvs => nodupKeys kvs && keysOkKV kvs && combOk kvs && idOk kvs && cleanKV kvs
  | _ => true

/-- Elementwise cleanliness. -/
def cleanL : List J → Bool
  | [] => true
  | x :: xs => cleanJ x && cleanL xs

/-- Valuewise cleanliness of object entries. -/
def cleanKV : List (Str × J) → Bool
  | [] => true
  | (_, v) :: rest => cleanJ v && cleanKV rest

end

/-- One entry of the amended-idempotence hypothesis: if the key is one of
the four URI-bearing keys and the value is a string, that string does not
begin with the doubled prefix `gts://gts://`. -/
def ndEntry (k : Str) (v : J) : Bool :=
  (¬ (k == cs "$id" || k == cs "$$id" || k == cs "$ref" || k == cs "$$ref")) ||
    (match v with
     | .str w => ¬ (uriPfx ++ uriPfx).isPrefixOf w
     | _ => true)

/-- Reads the `$id` string of an object (used to separate two normalized
values). -/
def idStrOf : J → Str
  | .obj kvs =>
    (match jGet kvs (cs "$id") with
     | some (.str v) => v
     | _ => [])
  | _ => []

mutual

/-- The hypothesis of the amended idempotence claim: no `$id`, `$$id`,
`$ref` or `$$ref` entry anywhere carries a string value beginning with
the doubled prefix `gts://gts://`. -/
def ndJ : J → Bool
  | .arr xs => ndL xs
  | .obj kvs => ndKV kvs
  | _ => true

/-- Elementwise `ndJ`. -/
def ndL : List J → Bool
  | [] => true
  | x :: xs => ndJ x && ndL xs

/-- Entrywise `ndJ`: the doubled-prefix condition on the four URI-bearing
keys, and recursively on every value. -/
def ndKV : List (Str × J) → Bool
  | [] => true
  | (k, v) :: rest => ndEntry k v && ndJ v && ndKV rest

end

section TrimLemmas

variable {α : Type} (p : α → Bool)

theorem dropWhile_dropWhile (l : List α) : (l.dropWhile p).dropWhile p = l.dropWhile p := by
  induction l with
  | nil => rfl
  | cons a l ih =>
    by_cases h : p a
    · simp [List.dropWhile_cons, h, ih]
    · simp [List.dropWhile_cons, h]

theorem head?_dropWhile {l : List α} {a : α} (h : (l.dropWhile p).head? = some a) :
    p a = false := by
  induction l with
  | nil => simp [List.dropWhile] at h
  | cons b l ih =>
    by_cases hb : p b
    · rw [List.dropWhile_cons, if_pos hb] at h
      exact ih h
    · rw [List.dropWhile_cons, if_neg hb] at h
      simp at h
      subst h
      simpa using hb

theorem dropWhile_eq_self_of_head {l : List α}
    (h : ∀ a, l.head? = some a → p a = false) : l.dropWhile p = l := by
  cases l with
  | nil => rfl
  | cons b l => rw [List.dropWhile_cons, if_neg (by simpa using h b rfl)]

end TrimLemmas

theorem trimL_trimL (s : Str) : trimL (trimL s) = trimL s := dropWhile_dropWhile _ s

theorem trimL_head {s : Str} {a : Char} (h : (trimL s).head? = some a) : isWs a = false :=
  head?_dropWhile _ h

theorem trimL_eq_self {s : Str} (h : ∀ a, s.head? = some a → isWs a = false) : trimL s = s :=
  dropWhile_eq_self_of_head _ h

theorem trimR_getLast {s : Str} {a : Char} (h : (trimR s).getLast? = some a) : isWs a = false := by
  have h2 : ((trimR s).reverse).head? = some a := by rw [List.head?_reverse]; exact h
  rw [trimR, List.reverse_reverse] at h2
  exact head?_dropWhile _ h2

theorem trimR_eq_self {s : Str} (h : ∀ a, s.getLast? = some a → isWs a = false) : trimR s = s := by
  rw [trimR, dropWhile_eq_self_of_head, List.reverse_reverse]
  intro a ha
  rw [List.head?_reverse] at ha
  exact h a ha

theorem getLast?_trimL {s : Str} (h : trimL s ≠ []) : (trimL s).getLast? = s.getLast? := by
  obtain ⟨t, ht⟩ := List.dropWhile_suffix (l := s) isWs
  calc (trimL s).getLast? = (t ++ List.dropWhile isWs s).getLast? :=
        (List.getLast?_append_of_ne_nil _ h).symm
    _ = s.getLast? := by rw [ht]

theorem trim_trim (s : Str) : trim (trim s) = trim s := by
  unfold trim
  by_cases h : trimL (trimR s) = []
  · rw [h]; rfl
  · have hR : trimR (trimL (trimR s)) = trimL (trimR s) := by
      apply trimR_eq_self
      intro a ha
      rw [getLast?_trimL h] at ha
      exact trimR_getLast ha
    rw [hR, trimL_trimL]

set_option maxHeartbeats 1000000 in
theorem auxOk_irrel (a b raw : Str) (g : GtsID) :
    parseGtsIDAux a raw = .ok g ↔ parseGtsIDAux b raw = .ok g := by
  unfold parseGtsIDAux
  split_ifs <;> first
    | (constructor <;> (intro h; exact absurd h (by simp)))
    | (cases h : segLoop 0 gtsPfx.length (splitTil (raw.drop gtsPfx.length)) with
       | error e => simp [h]
       | ok segs =>
         simp only [h]
         split_ifs <;> simp)

theorem validate_ok_iff (s : Str) :
    (validateGtsID s).ok = true ↔ ∃ g, parseGtsID s = .ok g := by
  unfold validateGtsID
  cases h : parseGtsID s <;> simp [h]

/-- C10: identifier validation trims its input first, so `validateGtsID`
accepts a string exactly when it accepts its whitespace-trimmed form; in
particular `" gts.a.b.c.d.v1~ "` is accepted as valid. -/
theorem c10_validate_trims :
    (∀ s : Str, (validateGtsID s).ok = (validateGtsID (trim s)).ok) ∧
    (validateGtsID (cs " gts.a.b.c.d.v1~ ")).ok = true := by
  constructor
  · intro s
    have h : ∀ g, parseGtsID s = .ok g ↔ parseGtsID (trim s) = .ok g := by
      intro g
      show parseGtsIDAux s (trim s) = .ok g ↔ parseGtsIDAux (trim s) (trim (trim s)) = .ok g
      rw [trim_trim]
      exact auxOk_irrel s (trim s) (trim s) g
    unfold validateGtsID
    cases hs : parseGtsID s with
    | ok g =>
      have h2 := (h g).mp hs
      simp [hs, h2]
    | error e =>
      cases hts : parseGtsID (trim s) with
      | ok g2 => exact absurd ((h g2).mpr hts) (by simp [hs])
      | error e2 => simp [hs, hts]
  · decide

/-- C6 (code-bug evidence): `validateGtsID`/`isValidGtsID` accept
identifiers that violate the wildcard rule — a `*` glued to another token
(`a*`), a `*` in a non-final token position, and two `*` tokens — all of
which the specification (and the repository's own OP#12 tests) require to
be rejected. -/
theorem c6_wildcard_accepted_by_code :
    (validateGtsID (cs "gts.vendor.pkg.a*")).ok = true ∧
    (validateGtsID (cs "gts.a.b.c.d.*.x")).ok = true ∧
    (validateGtsID (cs "gts.a.b.*.*")).ok = true ∧
    isValidGtsID (cs "gts.vendor.pkg.a*") = true := by
  refine ⟨by decide, by decide, by decide, by decide⟩

theorem nonWild_eq_claim (p c : Seg) : nonWildSegOk p c = claimSegMatch p c := by
  rw [Bool.eq_iff_iff]
  simp only [nonWildSegOk, claimSegMatch, Bool.and_eq_true, beq_iff_eq, decide_eq_true_eq]
  cases p.verMinor <;> simp <;> tauto

theorem matchSegments_claim (ps : List Seg) (hnw : ∀ s ∈ ps, s.isWildcard = false) :
    ∀ cands : List Seg, matchSegments ps cands = claimSegsMatch ps cands := by
  induction ps with
  | nil => intro cands; simp [matchSegments, matchSegsLoop, claimSegsMatch]
  | cons p ps ih =>
    intro cands
    cases cands with
    | nil => simp [matchSegments, claimSegsMatch]
    | cons c rest =>
      have hw : p.isWildcard = false := hnw p (by simp)
      have hnw2 : ∀ s ∈ ps, s.isWildcard = false := fun s hs => hnw s (by simp [hs])
      by_cases hl : ps.length > rest.length
      · have h1 : matchSegments (p :: ps) (c :: rest) = false := by
          simp only [matchSegments]
          rw [if_pos (by simpa using hl)]
        have h2 : claimSegsMatch ps rest = false := by
          rw [← ih hnw2 rest]
          simp only [matchSegments]
          rw [if_pos hl]
        simp [h1, claimSegsMatch, h2]
      · have h1 : matchSegments (p :: ps) (c :: rest) =
            matchSegsLoop (p :: ps) (c :: rest) := by
          simp only [matchSegments]
          rw [if_neg (by simpa using hl)]
        have h2 : matchSegments ps rest = matchSegsLoop ps rest := by
          simp only [matchSegments]
          rw [if_neg hl]
        rw [h1]
        have h3 : matchSegsLoop (p :: ps) (c :: rest) =
            (nonWildSegOk p c && matchSegsLoop ps rest) := by
          simp [matchSegsLoop, hw]
        rw [h3, ← h2, ih hnw2 rest, nonWild_eq_claim]
        rfl

theorem mem_trim {s : Str} {a : Char} (h : a ∈ trim s) : a ∈ s := by
  have h1 : a ∈ trimR s := (List.dropWhile_suffix isWs).subset h
  have h2 : a ∈ (s.reverse.dropWhile isWs) := by
    rw [← List.mem_reverse, trimR, List.reverse_reverse] at h1
    exact h1
  have := (List.dropWhile_suffix isWs).subset h2
  simpa using this

theorem contains_false_not_mem {s : Str} {a : Char} (h : s.contains a = false) : a ∉ s := by
  intro hm
  rw [List.contains_eq_any_beq] at h
  simp at h
  exact h _ hm rfl

theorem contains_eq_false_of_not_mem {s : Str} {a : Char} (h : a ∉ s) :
    s.contains a = false := by
  by_contra hne
  have ht : s.contains a = true := by revert hne; cases s.contains a <;> simp
  rw [List.contains_eq_any_beq] at ht
  simp only [List.any_eq_true, beq_iff_eq] at ht
  obtain ⟨x, hx, he⟩ := ht
  subst he
  exact h hx

theorem auxOk_pfx {a raw : Str} {g : GtsID} (h : parseGtsIDAux a raw = .ok g) :
    gtsPfx.isPrefixOf raw = true := by
  unfold parseGtsIDAux at h
  split_ifs at h
  all_goals try exact Except.noConfusion h
  assumption

theorem auxOk_id {a raw : Str} {g : GtsID} (h : parseGtsIDAux a raw = .ok g) :
    g.id = raw := by
  unfold parseGtsIDAux at h
  split_ifs at h
  all_goals try exact Except.noConfusion h
  split at h <;>
    first
      | exact Except.noConfusion h
      | ((split_ifs at h with hseg) <;>
          first
            | exact Except.noConfusion h
            | (cases h; rfl))

/-- C2: for a concrete valid candidate and a star-free valid pattern,
`matchIDPattern` is exactly the claim's segment-by-segment comparison
(exact equality of vendor/package/namespace/type/major/type-flag, minor
wildcarded when the pattern omits it); and the spec's concrete example
matches. -/
theorem c2_match_semantics :
    (∀ (c p : Str) (cid pid : GtsID),
      parseGtsID c = .ok cid → parseGtsID p = .ok pid →
      p.contains '*' = false → c.contains '*' = false →
      (∀ s ∈ pid.segments, s.isWildcard = false) →
      (matchIDPattern c p).mtch = claimSegsMatch pid.segments cid.segments) ∧
    (matchIDPattern (cs "gts.v.p.n.t.v1~v.p.n.i.v1.0") (cs "gts.v.p.n.t.v1~v.p.n.i.v1")).mtch
      = true := by
  constructor
  · intro c p cid pid hc hp hpstar _hcstar hnw
    have hstarmem : '*' ∉ p := contains_false_not_mem hpstar
    have hstarTrim : '*' ∉ trim p := fun hm => hstarmem (mem_trim hm)
    have hcount : (trim p).count '*' = 0 := List.count_eq_zero.mpr hstarTrim
    have hpfx : gtsPfx.isPrefixOf (trim p) = true := auxOk_pfx hp
    have hvw : validateWildcard p = .ok pid := by
      unfold validateWildcard
      rw [if_neg (by simp [hpfx]), if_neg (by simp [hcount]), if_neg (by simp [hcount])]
      show parseGtsIDAux (trim p) (trim (trim p)) = .ok pid
      rw [trim_trim]
      exact (auxOk_irrel p (trim p) (trim p) pid).mp hp
    have hpid : pid.id = trim p := auxOk_id hp
    have hpidstar : pid.id.contains '*' = false := by
      rw [hpid]
      exact contains_eq_false_of_not_mem hstarTrim
    unfold matchIDPattern
    rw [hc, hvw]
    simp only []
    unfold wildcardMatch
    rw [if_pos (show ¬ (pid.id.contains '*' = true) by rw [hpidstar]; simp)]
    exact matchSegments_claim pid.segments hnw cid.segments
  · decide

/-- Witness for C2: the claim's own example, with every hypothesis
discharged at the concrete inputs. -/
theorem c2_match_semantics_witness :
    (matchIDPattern (cs "gts.v.p.n.t.v1~v.p.n.i.v1.0") (cs "gts.v.p.n.t.v1~v.p.n.i.v1")).mtch
      = true := by
  cases hc : parseGtsID (cs "gts.v.p.n.t.v1~v.p.n.i.v1.0") with
  | error e =>
    have hb : (parseGtsID (cs "gts.v.p.n.t.v1~v.p.n.i.v1.0")).toBool = true := by decide
    rw [hc] at hb
    exact absurd hb (by simp [Except.toBool])
  | ok cid =>
    cases hp : parseGtsID (cs "gts.v.p.n.t.v1~v.p.n.i.v1") with
    | error e =>
      have hb : (parseGtsID (cs "gts.v.p.n.t.v1~v.p.n.i.v1")).toBool = true := by decide
      rw [hp] at hb
      exact absurd hb (by simp [Except.toBool])
    | ok pid =>
      have hnw : ∀ s ∈ pid.segments, s.isWildcard = false := by
        have hds : ∀ s ∈ segsOf (parseGtsID (cs "gts.v.p.n.t.v1~v.p.n.i.v1")),
            s.isWildcard = false := by decide
        rw [hp] at hds
        simpa [segsOf] using hds
      have hm := c2_match_semantics.1 _ _ cid pid hc hp (by decide) (by decide) hnw
      rw [hm]
      have hcm : claimSegsMatch (segsOf (parseGtsID (cs "gts.v.p.n.t.v1~v.p.n.i.v1")))
          (segsOf (parseGtsID (cs "gts.v.p.n.t.v1~v.p.n.i.v1.0"))) = true := by decide
      rw [hp, hc] at hcm
      simpa [segsOf] using hcm

theorem hasSub_infix_iff (n s : Str) : hasSub n s = true ↔ n <:+: s := by
  induction s with
  | nil =>
    simp [hasSub, List.infix_nil, List.isEmpty_iff]
  | cons c rest ih =>
    simp [hasSub, List.infix_cons_iff, List.isPrefixOf_iff_prefix, ih]

theorem trim_eq_self_of_noWs {s : Str} (h : ∀ c ∈ s, isWs c = false) : trim s = s := by
  unfold trim
  rw [trimR_eq_self (fun a ha => h a (List.mem_of_mem_getLast? (by simp [ha]))),
    trimL_eq_self (fun a ha => h a (List.mem_of_mem_head? (by simp [ha])))]

theorem splitGo_flatten : ∀ (s acc : Str), (splitTilGo acc s).flatten = acc ++ s := by
  intro s
  induction s with
  | nil =>
    intro acc
    by_cases h : acc = []
    · simp [splitTilGo, h]
    · simp [splitTilGo, h]
  | cons c rest ih =>
    intro acc
    by_cases h : c = '~'
    · simp only [splitTilGo, if_pos h, List.flatten_cons, ih []]
      simp [h]
    · simp only [splitTilGo, if_neg h, ih (acc ++ [c])]
      simp

theorem splitGo_pieces : ∀ (s acc : Str),
    (acc = [] → s.head? ≠ some '~') → ('~' ∉ acc) → hasSub (cs "~~") s = false →
    ∀ p ∈ splitTilGo acc s, p ≠ ['~'] ∧ p ≠ [] := by
  intro s
  induction s with
  | nil =>
    intro acc _ hnt _ p hp
    by_cases h : acc = []
    · simp [splitTilGo, h] at hp
    · simp only [splitTilGo, if_neg h, List.mem_singleton] at hp
      subst hp
      exact ⟨fun he => hnt (by simp [he]), h⟩
  | cons c rest ih =>
    intro acc hhd hnt hTT p hp
    have hTTc : ((cs "~~").isPrefixOf (c :: rest) || hasSub (cs "~~") rest) = false := hTT
    rw [Bool.or_eq_false_iff] at hTTc
    by_cases h : c = '~'
    · subst h
      have hacc : acc ≠ [] := fun he => hhd he rfl
      have hresthd : rest.head? ≠ some '~' := by
        intro hh
        obtain ⟨ys, hys⟩ := List.head?_eq_some_iff.mp hh
        have h2 : (cs "~~").isPrefixOf ('~' :: rest) = true := by
          rw [hys]
          show List.isPrefixOf ['~', '~'] ('~' :: '~' :: ys) = true
          simp [List.isPrefixOf]
        rw [hTTc.1] at h2
        exact Bool.false_ne_true h2
      simp only [splitTilGo, if_pos rfl] at hp
      rcases List.mem_cons.mp hp with hp1 | hp2
      · subst hp1
        refine ⟨fun he => hacc ?_, by simp⟩
        have hlen := congrArg List.length he
        simp at hlen
        exact hlen
      · exact ih [] (fun _ => hresthd) (by simp) hTTc.2 p hp2
    · simp only [splitTilGo, if_neg h] at hp
      refine ih (acc ++ [c]) (by simp) ?_ hTTc.2 p hp
      intro hm
      rcases List.mem_append.mp hm with hm1 | hm2
      · exact hnt hm1
      · simp at hm2
        exact h hm2.symm

theorem assignToks_fields {num offset : Nat} {part : Str} {seg : Seg} {toks : List Str}
    {s : Seg} (h : assignToks num offset part seg toks = .ok s) :
    s.segment = seg.segment ∧ s.offset = seg.offset := by
  unfold assignToks at h
  repeat' split at h
  all_goals first
    | exact Except.noConfusion h
    | (cases h; exact ⟨rfl, rfl⟩)

theorem parseSegTokens_fields {num offset : Nat} {part : Str} {seg : Seg} {working : Str}
    {s : Seg} (h : parseSegTokens num offset part seg working = .ok s) :
    s.segment = seg.segment ∧ s.offset = seg.offset := by
  unfold parseSegTokens at h
  dsimp only [] at h
  repeat' split at h
  all_goals first
    | exact Except.noConfusion h
    | exact assignToks_fields h

theorem parseSegment_fields {num offset : Nat} {part : Str} {s : Seg}
    (h : parseSegment num offset part = .ok s) :
    s.segment = trim part ∧ s.offset = offset := by
  unfold parseSegment at h
  dsimp only [] at h
  repeat' split at h
  all_goals first
    | exact Except.noConfusion h
    | exact parseSegTokens_fields h

theorem segLoop_spec : ∀ (parts : List Str) (i off : Nat) (segs : List Seg),
    (∀ p ∈ parts, p ≠ [] ∧ trim p = p) →
    segLoop i off parts = .ok segs →
    segs.map (fun s => s.segment) = parts ∧ offsAligned off segs = true := by
  intro parts
  induction parts with
  | nil =>
    intro i off segs _ h
    cases h
    exact ⟨rfl, rfl⟩
  | cons p ps ih =>
    intro i off segs hparts h
    have hp := hparts p (by simp)
    simp only [segLoop, if_neg hp.1] at h
    cases hseg : parseSegment (i + 1) off p with
    | error e => rw [hseg] at h; exact Except.noConfusion h
    | ok seg =>
      rw [hseg] at h
      cases hrest : segLoop (i + 1) (off + p.length) ps with
      | error e => rw [hrest] at h; exact Except.noConfusion h
      | ok rest =>
        rw [hrest] at h
        cases h
        have hf := parseSegment_fields hseg
        have hsegp : seg.segment = p := by rw [hf.1, hp.2]
        obtain ⟨hmap, hoffs⟩ := ih (i + 1) (off + p.length) rest
          (fun q hq => hparts q (by simp [hq])) hrest
        refine ⟨by simp [hsegp, hmap], ?_⟩
        simp only [offsAligned, hf.2, hsegp, hmap, beq_self_eq_true, Bool.true_and]
        exact hoffs

theorem auxOk_parts {a raw : Str} {g : GtsID} (h : parseGtsIDAux a raw = .ok g) :
    ∃ segs, segLoop 0 gtsPfx.length (splitTil (raw.drop gtsPfx.length)) = .ok segs ∧
      g = ⟨raw, segs⟩ := by
  unfold parseGtsIDAux at h
  split_ifs at h
  all_goals try exact Except.noConfusion h
  cases heq : segLoop 0 gtsPfx.length (splitTil (raw.drop gtsPfx.length)) with
  | error e => rw [heq] at h; exact Except.noConfusion h
  | ok segs =>
    simp only [heq] at h
    split_ifs at h with hseg <;>
      first
        | exact Except.noConfusion h
        | (cases h; exact ⟨segs, rfl, rfl⟩)

theorem auxOk_noTT {a raw : Str} {g : GtsID} (h : parseGtsIDAux a raw = .ok g) :
    hasSub (cs "~~") raw = false := by
  unfold parseGtsIDAux at h
  split_ifs at h with h1 h2 h3 h4 h5 h6 h7 h8
  all_goals try exact Except.noConfusion h
  simpa using h7

/-- C5 (counterexample): `" gts.a.b.c.d.v1~"` is accepted by
`validateGtsID`/`parseID`, yet the segment texts reconstruct the trimmed
string, not the input. -/
theorem c5_roundtrip_counterexample :
    (validateGtsID (cs " gts.a.b.c.d.v1~")).ok = true ∧
    gtsPfx ++ joinSegTexts (segsOf (parseGtsID (cs " gts.a.b.c.d.v1~"))) ≠
      cs " gts.a.b.c.d.v1~" ∧
    (validateGtsID (cs "gts.~a.b.c.d.v1~")).ok = true ∧
    gtsPfx ++ joinSegTexts (segsOf (parseGtsID (cs "gts.~a.b.c.d.v1~"))) ≠
      cs "gts.~a.b.c.d.v1~" := by
  refine ⟨by decide, by decide, by decide, by decide⟩

/-- C5 (amended): for whitespace-free identifiers that do not begin with
`gts.~`, a successful parse reconstructs the input exactly: the `gts.`
prefix followed by the raw segment texts is the input, and the recorded
offsets tile it contiguously. -/
theorem c5_roundtrip_amended : ∀ (x : Str) (g : GtsID),
    (∀ ch ∈ x, isWs ch = false) →
    (cs "gts.~").isPrefixOf x = false →
    parseGtsID x = .ok g →
    gtsPfx ++ joinSegTexts g.segments = x ∧ offsAligned gtsPfx.length g.segments = true := by
  intro x g hws htld h
  have htrim : trim x = x := trim_eq_self_of_noWs hws
  have h' : parseGtsIDAux x x = .ok g := by
    have h2 : parseGtsIDAux x (trim x) = .ok g := h
    rwa [htrim] at h2
  obtain ⟨segs, hsl, hg⟩ := auxOk_parts h'
  have hpfx := auxOk_pfx h'
  have hTT : hasSub (cs "~~") x = false := auxOk_noTT h'
  obtain ⟨t, ht⟩ := List.isPrefixOf_iff_prefix.mp hpfx
  have hrem : x.drop gtsPfx.length = t := by rw [← ht, List.drop_left]
  have hxdec : gtsPfx ++ t = x := ht
  have hhead : t.head? ≠ some '~' := by
    intro hh
    obtain ⟨ys, hys⟩ := List.head?_eq_some_iff.mp hh
    have : (cs "gts.~").isPrefixOf x = true := by
      apply List.isPrefixOf_iff_prefix.mpr
      refine ⟨ys, ?_⟩
      rw [← hxdec, hys]
      rfl
    rw [htld] at this
    exact Bool.false_ne_true this
  have hTTrem : hasSub (cs "~~") t = false := by
    by_cases hc : hasSub (cs "~~") t = true
    · have hinf : (cs "~~") <:+: t := (hasSub_infix_iff _ _).mp hc
      have hinf2 : (cs "~~") <:+: x := hinf.trans ⟨gtsPfx, [], by simp [hxdec]⟩
      have := (hasSub_infix_iff (cs "~~") x).mpr hinf2
      rw [hTT] at this
      exact absurd this (by simp)
    · simpa using hc
  have hpieces := splitGo_pieces t [] (fun _ => hhead) (by simp) hTTrem
  have hsplit : splitTil t = splitTilGo [] t := by
    unfold splitTil
    apply List.filter_eq_self.mpr
    intro p hp
    simpa using (hpieces p hp).1
  have hflat : (splitTil t).flatten = t := by rw [hsplit, splitGo_flatten]; simp
  have hparts : ∀ p ∈ splitTil t, p ≠ [] ∧ trim p = p := by
    intro p hp
    rw [hsplit] at hp
    refine ⟨(hpieces p hp).2, ?_⟩
    apply trim_eq_self_of_noWs
    intro c hcp
    apply hws
    have hflat0 : (splitTilGo [] t).flatten = t := by rw [splitGo_flatten]; simp
    have hct : c ∈ t := by
      rw [← hflat0]
      exact List.mem_flatten.mpr ⟨p, hp, hcp⟩
    rw [← hxdec]
    simp [hct]
  rw [hrem] at hsl
  obtain ⟨hmap, hoffs⟩ := segLoop_spec (splitTil t) 0 gtsPfx.length segs hparts hsl
  constructor
  · rw [hg]
    show gtsPfx ++ joinSegTexts segs = x
    unfold joinSegTexts
    rw [hmap, hflat, hxdec]
  · rw [hg]
    exact hoffs

/-- Witness for the amended C5 at a concrete chained identifier. -/
theorem c5_roundtrip_amended_witness :
    gtsPfx ++ joinSegTexts (segsOf (parseGtsID (cs "gts.a.b.c.d.v1~x.y.z.w.v2.3"))) =
      cs "gts.a.b.c.d.v1~x.y.z.w.v2.3" ∧
    offsAligned gtsPfx.length (segsOf (parseGtsID (cs "gts.a.b.c.d.v1~x.y.z.w.v2.3"))) = true := by
  cases hx : parseGtsID (cs "gts.a.b.c.d.v1~x.y.z.w.v2.3") with
  | error e =>
    have hb : (parseGtsID (cs "gts.a.b.c.d.v1~x.y.z.w.v2.3")).toBool = true := by decide
    rw [hx] at hb
    exact absurd hb (by simp [Except.toBool])
  | ok g =>
    have := c5_roundtrip_amended (cs "gts.a.b.c.d.v1~x.y.z.w.v2.3") g
      (by decide) (by decide) hx
    simpa [segsOf] using this

/-- C1 (counterexample): a document whose `$schema` is a non-qualifying
truthy string but whose `$$schema` qualifies *has* a qualifying
`$schema`/`$$schema` field, yet `extractID` classifies it as an
instance, because the source reads `content['$schema'] ||
content['$$schema']` and never falls back past a truthy `$schema`. -/
theorem c1_classification_counterexample :
    ¬ ((isJsonSchema (.obj [(cs "$schema", .str (cs "x")),
          (cs "$$schema", .str (cs "gts.test.pkg.ns.t.v1~"))]) = true) ↔
       (claimHasSchemaField (.obj [(cs "$schema", .str (cs "x")),
          (cs "$$schema", .str (cs "gts.test.pkg.ns.t.v1~"))]) = true)) := by
  decide

/-- C1 (amended): `extractID` classifies a document as a schema iff the
JS-truthy selection of `$schema` (falling back to `$$schema` only when
`$schema` is absent or falsy) is a string containing `json-schema.org` or
beginning with `gts://` or `gts.`; a document with neither field is an
instance, and the classification depends only on the two fields. -/
theorem c1_classification_amended :
    (∀ kvs : List (Str × J), jGet kvs (cs "$schema") = none →
      jGet kvs (cs "$$schema") = none → isJsonSchema (.obj kvs) = false) ∧
    (∀ kvs kvs2 : List (Str × J),
      jGet kvs (cs "$schema") = jGet kvs2 (cs "$schema") →
      jGet kvs (cs "$$schema") = jGet kvs2 (cs "$$schema") →
      isJsonSchema (.obj kvs) = isJsonSchema (.obj kvs2)) ∧
    (∀ content : J, extractIsSchema content = amendedIsSchema content) := by
  refine ⟨?_, ?_, ?_⟩
  · intro kvs h1 h2
    simp only [isJsonSchema, h1, h2]
  · intro kvs kvs2 h1 h2
    simp only [isJsonSchema, h1, h2]
  · intro content
    cases content <;> rfl

/-- Witness for the amended C1 on concrete documents. -/
theorem c1_classification_amended_witness :
    isJsonSchema (.obj [(cs "a", .str (cs "b"))]) = false ∧
    isJsonSchema (.obj [(cs "$schema", .str (cs "gts.a.b.c.d.v1~")), (cs "extra", .bool true)]) =
      isJsonSchema (.obj [(cs "$schema", .str (cs "gts.a.b.c.d.v1~"))]) ∧
    extractIsSchema (.obj [(cs "$schema",
      .str (cs "http://json-schema.org/draft-07/schema#"))]) =
      amendedIsSchema (.obj [(cs "$schema",
        .str (cs "http://json-schema.org/draft-07/schema#"))]) :=
  ⟨c1_classification_amended.1 _ rfl rfl,
   c1_classification_amended.2.1 _ _ rfl rfl,
   c1_classification_amended.2.2 _⟩

/-- C8 (counterexample): with `validateRefs` set and a reference absent
from the registry, `GtsStore.register` *throws* (`Except.error` models
the uncaught `throw new Error(...)` reaching the caller of
`GTS.register`) instead of returning an error-valued result record. -/
theorem c8_register_throws_counterexample :
    register ⟨[], ⟨true, false⟩⟩
      ⟨cs "gts.a.b.c.d.v1~a.b.c.d.v1.0", none, .obj [], false, [cs "gts.m.p.n.t.v1~"]⟩ =
      Except.error (cs "Unresolved reference: gts.m.p.n.t.v1~") := by
  rfl

/-- C8 (amended): when `validateRefs` is set and some reference is not
registered, `register` throws `Error("Unresolved reference: <ref>")` for
the first missing reference, and the exception propagates out of the
library (neither `GtsStore.register` nor `GTS.register` catches it). -/
theorem c8_register_amended : ∀ (st : GtsStore) (e : JsonEntity) (r : Str),
    st.config.validateRefs = true →
    e.references.find? (fun r2 => (storeGet st r2).isNone) = some r →
    register st e = .error (cs "Unresolved reference: " ++ r) := by
  intro st e r hv hf
  unfold register
  rw [if_pos hv, hf]

/-- Witness for the amended C8. -/
theorem c8_register_amended_witness :
    register ⟨[], ⟨true, false⟩⟩
      ⟨cs "gts.a.b.c.d.v1~a.b.c.d.v1.0", none, .obj [], false, [cs "gts.m.p.n.t.v1~"]⟩ =
      Except.error (cs "Unresolved reference: " ++ cs "gts.m.p.n.t.v1~") :=
  c8_register_amended _ _ _ rfl rfl

section AssocLemmas

variable {β : Type}

theorem jGet_setKey_self (l : List (Str × β)) (k : Str) (v : β) :
    jGet (setKey l k v) k = some v := by
  induction l with
  | nil => simp [jGet, setKey, List.lookup]
  | cons kv rest ih =>
      obtain ⟨k0, v0⟩ := kv
      by_cases h : k0 = k
      · subst h; simp [jGet, setKey, List.lookup]
      · have hb : (k0 == k) = false := by simp [h]
        have hb2 : (k == k0) = false := by simp [Ne.symm h]
        simp only [setKey, hb, if_false, jGet, List.lookup, hb2]
        exact ih

theorem jGet_setKey_ne (l : List (Str × β)) (k k2 : Str) (v : β) (h : k2 ≠ k) :
    jGet (setKey l k v) k2 = jGet l k2 := by
  induction l with
  | nil =>
      have hb : (k2 == k) = false := by simp [h]
      simp [jGet, setKey, List.lookup, hb]
  | cons kv rest ih =>
      obtain ⟨k0, v0⟩ := kv
      by_cases h0 : k0 = k
      · subst h0
        have hb2 : (k2 == k0) = false := by simp [h]
        simp [jGet, setKey, List.lookup, hb2]
      · have hb : (k0 == k) = false := by simp [h0]
        simp only [setKey, hb, if_false, jGet, List.lookup]
        cases hc : k2 == k0 with
        | true => rfl
        | false => exact ih

theorem setKey_self (l : List (Str × β)) (k : Str) (v : β) (h : jGet l k = some v) :
    setKey l k v = l := by
  induction l with
  | nil => simp [jGet, List.lookup] at h
  | cons kv rest ih =>
      obtain ⟨k0, v0⟩ := kv
      by_cases h0 : k0 = k
      · subst h0
        simp [jGet, List.lookup] at h
        simp [setKey, h]
      · have hb : (k0 == k) = false := by simp [h0]
        have hb2 : (k == k0) = false := by simp [Ne.symm h0]
        simp only [jGet, List.lookup, hb2] at h
        simp only [setKey, hb, Bool.false_eq_true, if_false]
        rw [ih h]

theorem setKey_notMem (l : List (Str × β)) (k : Str) (v : β)
    (h : ∀ kv ∈ l, kv.1 ≠ k) : setKey l k v = l ++ [(k, v)] := by
  induction l with
  | nil => rfl
  | cons kv rest ih =>
      obtain ⟨k0, v0⟩ := kv
      have h0 : k0 ≠ k := h (k0, v0) (by simp)
      have hb : (k0 == k) = false := by simp [h0]
      simp only [setKey, hb, Bool.false_eq_true, if_false, List.cons_append]
      rw [ih (fun kv hkv => h kv (by simp [hkv]))]

theorem mem_setKey (l : List (Str × β)) (k : Str) (v : β) (kv : Str × β)
    (h : kv ∈ setKey l k v) : kv ∈ l ∨ (kv.1 = k ∧ kv.2 = v) := by
  induction l with
  | nil =>
      simp [setKey] at h
      right; subst h; exact ⟨rfl, rfl⟩
  | cons kv0 rest ih =>
      obtain ⟨k0, v0⟩ := kv0
      by_cases h0 : k0 = k
      · subst h0
        simp only [setKey, beq_self_eq_true, if_true] at h
        rcases List.mem_cons.mp h with h1 | h1
        · right; subst h1; exact ⟨rfl, rfl⟩
        · left; exact List.mem_cons_of_mem _ h1
      · have hb : (k0 == k) = false := by simp [h0]
        simp only [setKey, hb, if_false] at h
        rcases List.mem_cons.mp h with h1 | h1
        · left; simp [h1]
        · rcases ih h1 with h2 | h2
          · left; exact List.mem_cons_of_mem _ h2
          · right; exact h2

theorem mem_delKey (l : List (Str × β)) (k : Str) (kv : Str × β)
    (h : kv ∈ delKey l k) : kv ∈ l := by
  induction l with
  | nil => simp [delKey] at h
  | cons kv0 rest ih =>
      obtain ⟨k0, v0⟩ := kv0
      by_cases h0 : k0 = k
      · subst h0
        simp only [delKey, beq_self_eq_true, if_true] at h
        exact List.mem_cons_of_mem _ h
      · have hb : (k0 == k) = false := by simp [h0]
        simp only [delKey, hb, if_false] at h
        rcases List.mem_cons.mp h with h1 | h1
        · simp [h1]
        · exact List.mem_cons_of_mem _ (ih h1)

theorem jGet_delKey_ne (l : List (Str × β)) (k k2 : Str) (h : k2 ≠ k) :
    jGet (delKey l k) k2 = jGet l k2 := by
  induction l with
  | nil => rfl
  | cons kv rest ih =>
      obtain ⟨k0, v0⟩ := kv
      by_cases h0 : k0 = k
      · subst h0
        have hb2 : (k2 == k0) = false := by simp [h]
        simp [jGet, delKey, List.lookup, hb2]
      · have hb : (k0 == k) = false := by simp [h0]
        simp only [delKey, hb, if_false, jGet, List.lookup]
        cases hc : k2 == k0 with
        | true => rfl
        | false => exact ih

theorem any_key_false_iff (l : List (Str × β)) (k : Str) :
    (l.any (fun kv => kv.1 == k) = false) ↔ (∀ kv ∈ l, kv.1 ≠ k) := by
  rw [List.any_eq_false]
  constructor
  · intro h kv hkv he
    have := h kv hkv
    simp [he] at this
  · intro h kv hkv
    simp [h kv hkv]

theorem nodupKeys_setKey (l : List (Str × β)) (k : Str) (v : β)
    (h : nodupKeys l = true) : nodupKeys (setKey l k v) = true := by
  induction l with
  | nil => simp [setKey, nodupKeys]
  | cons kv rest ih =>
      obtain ⟨k0, v0⟩ := kv
      simp only [nodupKeys, Bool.and_eq_true, decide_eq_true_eq] at h
      have h1 : ∀ kv ∈ rest, kv.1 ≠ k0 := by
        rw [← any_key_false_iff]
        cases hx : rest.any (fun kv => kv.1 == k0) with
        | true => exact absurd hx h.1
        | false => rfl
      by_cases h0 : k0 = k
      · subst h0
        simp only [setKey, beq_self_eq_true, if_true, nodupKeys, Bool.and_eq_true,
          decide_eq_true_eq]
        refine ⟨fun hx => ?_, h.2⟩
        have hf := (any_key_false_iff rest k0).mpr h1
        rw [hf] at hx
        exact Bool.false_ne_true hx
      · have hb : (k0 == k) = false := by simp [h0]
        simp only [setKey, hb, Bool.false_eq_true, if_false, nodupKeys, Bool.and_eq_true,
          decide_eq_true_eq]
        refine ⟨fun hx => ?_, ih h.2⟩
        have h2 : ∀ kv ∈ setKey rest k v, kv.1 ≠ k0 := by
          intro kv hkv
          rcases mem_setKey rest k v kv hkv with hm | hm
          · exact h1 kv hm
          · rw [hm.1]; exact Ne.symm h0
        have hf := (any_key_false_iff (setKey rest k v) k0).mpr h2
        rw [hf] at hx
        exact Bool.false_ne_true hx

theorem nodupKeys_delKey (l : List (Str × β)) (k : Str)
    (h : nodupKeys l = true) : nodupKeys (delKey l k) = true := by
  induction l with
  | nil => simp [delKey, nodupKeys]
  | cons kv rest ih =>
      obtain ⟨k0, v0⟩ := kv
      simp only [nodupKeys, Bool.and_eq_true, decide_eq_true_eq] at h
      have h1 : ∀ kv ∈ rest, kv.1 ≠ k0 := by
        rw [← any_key_false_iff]
        cases hx : rest.any (fun kv => kv.1 == k0) with
        | true => exact absurd hx h.1
        | false => rfl
      by_cases h0 : k0 = k
      · subst h0
        simp only [delKey, beq_self_eq_true, if_true]
        exact h.2
      · have hb : (k0 == k) = false := by simp [h0]
        simp only [delKey, hb, Bool.false_eq_true, if_false, nodupKeys, Bool.and_eq_true,
          decide_eq_true_eq]
        refine ⟨fun hx => ?_, ih h.2⟩
        have h2 : ∀ kv ∈ delKey rest k, kv.1 ≠ k0 :=
          fun kv hkv => h1 kv (mem_delKey rest k kv hkv)
        have hf := (any_key_false_iff (delKey rest k) k0).mpr h2
        rw [hf] at hx
        exact Bool.false_ne_true hx

theorem jGet_none_of_not_key (l : List (Str × β)) (k : Str)
    (h : ∀ kv ∈ l, kv.1 ≠ k) : jGet l k = none := by
  induction l with
  | nil => rfl
  | cons kv rest ih =>
      obtain ⟨k0, v0⟩ := kv
      have h0 : k0 ≠ k := h (k0, v0) (by simp)
      have hb : (k == k0) = false := by simp [Ne.symm h0]
      simp only [jGet, List.lookup, hb]
      exact ih (fun kv hkv => h kv (by simp [hkv]))

theorem jGet_delKey_self (l : List (Str × β)) (k : Str)
    (h : nodupKeys l = true) : jGet (delKey l k) k = none := by
  induction l with
  | nil => rfl
  | cons kv rest ih =>
      obtain ⟨k0, v0⟩ := kv
      simp only [nodupKeys, Bool.and_eq_true, decide_eq_true_eq] at h
      by_cases h0 : k0 = k
      · subst h0
        simp only [delKey, beq_self_eq_true, if_true]
        apply jGet_none_of_not_key
        intro kv hkv he
        exact h.1 (List.any_eq_true.mpr ⟨kv, hkv, by simp [he]⟩)
      · have hb : (k0 == k) = false := by simp [h0]
        have hb2 : (k == k0) = false := by simp [Ne.symm h0]
        simp only [delKey, hb, Bool.false_eq_true, if_false, jGet, List.lookup, hb2]
        exact ih h.2

theorem jGet_some_mem (l : List (Str × β)) (k : Str) (v : β)
    (h : jGet l k = some v) : (k, v) ∈ l := by
  induction l with
  | nil => simp [jGet, List.lookup] at h
  | cons kv rest ih =>
      obtain ⟨k0, v0⟩ := kv
      by_cases h0 : k = k0
      · subst h0
        simp only [jGet, List.lookup, beq_self_eq_true] at h
        cases h
        simp
  
      · have hb : (k == k0) = false := by simp [h0]
        simp only [jGet, List.lookup, hb] at h
        exact List.mem_cons_of_mem _ (ih h)

end AssocLemmas

section RenameLemmas

theorem renameKey_keyOk (k : Str) (h : (k == cs "x-gts-ref") = false) :
    keyOkStr (renameKey k) = true := by
  unfold renameKey
  split_ifs with h1 h2 h3 h4
  · decide
  · decide
  · decide
  · decide
  · unfold keyOkStr renameKey
    rw [if_neg h1, if_neg h2, if_neg h3, if_neg h4]
    simp [h]

theorem renameKey_to_ref (k : Str) (h : renameKey k = cs "$ref") :
    k = cs "$ref" ∨ k = cs "$$ref" := by
  unfold renameKey at h
  split_ifs at h with h1 h2 h3 h4
  · exact absurd h (by decide)
  · exact absurd h (by decide)
  · right; exact eq_of_beq h3
  · exact absurd h (by decide)
  · left; exact h

theorem renameKey_to_id (k : Str) (h : renameKey k = cs "$id") :
    k = cs "$id" ∨ k = cs "$$id" := by
  unfold renameKey at h
  split_ifs at h with h1 h2 h3 h4
  · right; exact eq_of_beq h1
  · exact absurd h (by decide)
  · exact absurd h (by decide)
  · exact absurd h (by decide)
  · left; exact h

end RenameLemmas

section NormGoLemmas

theorem keysOkKV_iff (kvs : List (Str × J)) :
    keysOkKV kvs = true ↔ ∀ kv ∈ kvs, keyOkStr kv.1 = true := by
  rw [keysOkKV, List.all_eq_true]

theorem cleanKV_iff (kvs : List (Str × J)) :
    cleanKV kvs = true ↔ ∀ kv ∈ kvs, cleanJ kv.2 = true := by
  induction kvs with
  | nil => simp [cleanKV]
  | cons kv rest ih =>
      obtain ⟨k, v⟩ := kv
      simp only [cleanKV, Bool.and_eq_true, ih, List.mem_cons]
      constructor
      · rintro ⟨h1, h2⟩ kv (h3 | h3)
        · rw [h3]; exact h1
        · exact h2 kv h3
      · intro h
        exact ⟨h (k, v) (Or.inl rfl), fun kv h3 => h kv (Or.inr h3)⟩

theorem cleanL_iff (xs : List J) :
    cleanL xs = true ↔ ∀ x ∈ xs, cleanJ x = true := by
  induction xs with
  | nil => simp [cleanL]
  | cons x rest ih =>
      simp only [cleanL, Bool.and_eq_true, ih, List.mem_cons]
      constructor
      · rintro ⟨h1, h2⟩ y (h3 | h3)
        · rw [h3]; exact h1
        · exact h2 y h3
      · intro h
        exact ⟨h x (Or.inl rfl), fun y h3 => h y (Or.inr h3)⟩

theorem ndKV_mem (kvs : List (Str × J)) (h : ndKV kvs = true) (kv : Str × J)
    (hkv : kv ∈ kvs) : ndEntry kv.1 kv.2 = true ∧ ndJ kv.2 = true := by
  induction kvs with
  | nil => cases hkv
  | cons kv0 rest ih =>
      obtain ⟨k, v⟩ := kv0
      simp only [ndKV, Bool.and_eq_true] at h
      rcases List.mem_cons.mp hkv with h1 | h1
      · rw [h1]; exact ⟨h.1.1, h.1.2⟩
      · exact ih h.2 h1

theorem ndL_mem (xs : List J) (h : ndL xs = true) (x : J) (hx : x ∈ xs) :
    ndJ x = true := by
  induction xs with
  | nil => cases hx
  | cons y rest ih =>
      simp only [ndL, Bool.and_eq_true] at h
      rcases List.mem_cons.mp hx with h1 | h1
      · rw [h1]; exact h.1
      · exact ih h.2 h1

theorem normGo_P (kvs : List (Str × J)) :
    ∀ acc : List (Str × J),
    nodupKeys acc = true →
    (∀ kv ∈ acc, keyOkStr kv.1 = true) →
    (∀ kv ∈ acc, cleanJ kv.2 = true) →
    (∀ kv ∈ kvs, cleanJ (if isObjLike kv.2 then normJ kv.2 else kv.2) = true) →
    nodupKeys (normEntriesGo acc kvs) = true ∧
    (∀ kv ∈ normEntriesGo acc kvs, keyOkStr kv.1 = true) ∧
    (∀ kv ∈ normEntriesGo acc kvs, cleanJ kv.2 = true) := by
  induction kvs with
  | nil => intro acc h1 h2 h3 _; exact ⟨h1, h2, h3⟩
  | cons kv0 rest ih =>
      obtain ⟨k, v⟩ := kv0
      intro acc h1 h2 h3 h4
      by_cases hk : (k == cs "x-gts-ref") = true
      · simp only [normEntriesGo, hk, if_true]
        exact ih acc h1 h2 h3 (fun kv hkv => h4 kv (List.mem_cons_of_mem _ hkv))
      · have hk2 : (k == cs "x-gts-ref") = false := by
          cases hx : (k == cs "x-gts-ref") with
          | true => exact absurd hx hk
          | false => rfl
        simp only [normEntriesGo, hk2, Bool.false_eq_true, if_false]
        apply ih
        · exact nodupKeys_setKey acc (renameKey k) _ h1
        · intro kv hkv
          rcases mem_setKey acc (renameKey k) _ kv hkv with hm | hm
          · exact h2 kv hm
          · rw [hm.1]; exact renameKey_keyOk k hk2
        · intro kv hkv
          rcases mem_setKey acc (renameKey k) _ kv hkv with hm | hm
          · exact h3 kv hm
          · rw [hm.2]; exact h4 (k, v) (List.mem_cons_self _ _)
        · exact fun kv hkv => h4 kv (List.mem_cons_of_mem _ hkv)

theorem normGo_lookup (kvs : List (Str × J)) :
    ∀ (acc : List (Str × J)) (k : Str) (r : J),
    jGet (normEntriesGo acc kvs) k = some r →
    jGet acc k = some r ∨
      ∃ kv ∈ kvs, renameKey kv.1 = k ∧ r = (if isObjLike kv.2 then normJ kv.2 else kv.2) := by
  induction kvs with
  | nil => intro acc k r h; exact Or.inl h
  | cons kv0 rest ih =>
      obtain ⟨k0, v0⟩ := kv0
      intro acc k r h
      by_cases hk : (k0 == cs "x-gts-ref") = true
      · simp only [normEntriesGo, hk, if_true] at h
        rcases ih acc k r h with h1 | ⟨kv, hkv, h2⟩
        · exact Or.inl h1
        · exact Or.inr ⟨kv, List.mem_cons_of_mem _ hkv, h2⟩
      · have hk2 : (k0 == cs "x-gts-ref") = false := by
          cases hx : (k0 == cs "x-gts-ref") with
          | true => exact absurd hx hk
          | false => rfl
        simp only [normEntriesGo, hk2, Bool.false_eq_true, if_false] at h
        rcases ih _ k r h with h1 | ⟨kv, hkv, h2⟩
        · by_cases he : k = renameKey k0
          · subst he
            rw [jGet_setKey_self] at h1
            cases h1
            exact Or.inr ⟨(k0, v0), List.mem_cons_self _ _, rfl, rfl⟩
          · rw [jGet_setKey_ne acc _ k _ he] at h1
            exact Or.inl h1
        · exact Or.inr ⟨kv, List.mem_cons_of_mem _ hkv, h2⟩

theorem normGo_identity (kvs : List (Str × J)) :
    ∀ acc : List (Str × J),
    nodupKeys kvs = true →
    (∀ kv ∈ kvs, keyOkStr kv.1 = true) →
    (∀ kv ∈ kvs, (if isObjLike kv.2 then normJ kv.2 else kv.2) = kv.2) →
    (∀ kv1 ∈ acc, ∀ kv2 ∈ kvs, kv1.1 ≠ kv2.1) →
    normEntriesGo acc kvs = acc ++ kvs := by
  induction kvs with
  | nil => intro acc _ _ _ _; simp [normEntriesGo]
  | cons kv0 rest ih =>
      obtain ⟨k, v⟩ := kv0
      intro acc hnd hok hval hdisj
      have hkOk : keyOkStr k = true := hok (k, v) (List.mem_cons_self _ _)
      simp only [keyOkStr, Bool.and_eq_true, decide_eq_true_eq] at hkOk
      have hk2 : (k == cs "x-gts-ref") = false := by
        cases hx : (k == cs "x-gts-ref") with
        | true => exact absurd hx hkOk.1
        | false => rfl
      have hrk : renameKey k = k := eq_of_beq hkOk.2
      simp only [normEntriesGo, hk2, Bool.false_eq_true, if_false, hrk,
        hval (k, v) (List.mem_cons_self _ _)]
      have hset : setKey acc k v = acc ++ [(k, v)] :=
        setKey_notMem acc k v (fun kv hkv => hdisj kv hkv (k, v) (List.mem_cons_self _ _))
      rw [hset]
      simp only [nodupKeys, Bool.and_eq_true, decide_eq_true_eq] at hnd
      have hrest := ih (acc ++ [(k, v)]) hnd.2
        (fun kv hkv => hok kv (List.mem_cons_of_mem _ hkv))
        (fun kv hkv => hval kv (List.mem_cons_of_mem _ hkv))
        (by
          intro kv1 hkv1 kv2 hkv2
          rcases List.mem_append.mp hkv1 with hm | hm
          · exact hdisj kv1 hm kv2 (List.mem_cons_of_mem _ hkv2)
          · have : kv1 = (k, v) := by simpa using hm
            rw [this]
            intro he
            exact hnd.1 (List.any_eq_true.mpr ⟨kv2, hkv2, by simp [he.symm]⟩))
      rw [hrest]
      simp

end NormGoLemmas

section CombLemmas

theorem filterIdx_sub (p : Nat → Bool) (ys : List J) :
    ∀ (i : Nat) (x : J), x ∈ filterIdxGo p i ys → x ∈ ys := by
  induction ys with
  | nil => intro i x h; simp [filterIdxGo] at h
  | cons y rest ih =>
      intro i x h
      simp only [filterIdxGo] at h
      by_cases hp : p i = true
      · rw [if_pos hp] at h
        rcases List.mem_cons.mp h with h1 | h1
        · rw [h1]; exact List.mem_cons_self _ _
        · exact List.mem_cons_of_mem _ (ih (i + 1) x h1)
      · rw [if_neg hp] at h
        exact List.mem_cons_of_mem _ (ih (i + 1) x h)

theorem filterIdx_noop (p : Nat → Bool) (ys : List J) :
    ∀ i : Nat, (∀ (k : Nat) (x : J), ys[k]? = some x → p (i + k) = true) →
    filterIdxGo p i ys = ys := by
  induction ys with
  | nil => intro i _; rfl
  | cons y rest ih =>
      intro i h
      have hp : p i = true := by
        have := h 0 y (by simp)
        simpa using this
      simp only [filterIdxGo, hp, if_true]
      rw [ih (i + 1)]
      intro k x hx
      have := h (k + 1) x (by simpa using hx)
      have harith : i + (k + 1) = i + 1 + k := by omega
      rw [harith] at this
      exact this

theorem refOnly_false_of_clean (x : J) (h : cleanJ x = true) :
    isRefOnly (some x) = false := by
  cases x with
  | obj kvs =>
      have h2 : cleanJ (.obj kvs) = (nodupKeys kvs && keysOkKV kvs && combOk kvs && idOk kvs && cleanKV kvs) := rfl
      rw [h2] at h
      simp only [Bool.and_eq_true] at h
      have hok := (keysOkKV_iff kvs).mp h.1.1.1.2
      have hnone : jGet kvs (cs "x-gts-ref") = none := by
        apply jGet_none_of_not_key
        intro kv hkv he
        have := hok kv hkv
        simp only [keyOkStr, Bool.and_eq_true, decide_eq_true_eq] at this
        exact this.1 (by simp [he])
      simp [isRefOnly, hnone]
  | null => rfl
  | bool b => rfl
  | num n => rfl
  | str s => rfl
  | arr xs => rfl

theorem jGet_combClean_ne (o n : List (Str × J)) (c c2 : Str) (h : c2 ≠ c) :
    jGet (combClean o n c) c2 = jGet n c2 := by
  unfold combClean
  cases hg : jGet n c with
  | none => rfl
  | some x =>
      cases x with
      | arr ys =>
          dsimp only []
          split_ifs with he
          · exact jGet_delKey_ne n c c2 h
          · exact jGet_setKey_ne n c c2 _ h
      | null => rfl
      | bool b => rfl
      | num m => rfl
      | str s => rfl
      | obj kvs => rfl

theorem combClean_nodup (o n : List (Str × J)) (c : Str)
    (h : nodupKeys n = true) : nodupKeys (combClean o n c) = true := by
  unfold combClean
  cases hg : jGet n c with
  | none => exact h
  | some x =>
      cases x with
      | arr ys =>
          dsimp only []
          split_ifs with he
          · exact nodupKeys_delKey n c h
          · exact nodupKeys_setKey n c _ h
      | null => exact h
      | bool b => exact h
      | num m => exact h
      | str s => exact h
      | obj kvs => exact h

theorem mem_combClean (o n : List (Str × J)) (c : Str) (kv : Str × J)
    (h : kv ∈ combClean o n c) :
    kv ∈ n ∨ (kv.1 = c ∧ ∃ ys, jGet n c = some (.arr ys) ∧
      kv.2 = .arr (filterIdxGo (fun i => ¬ isRefOnly (origAt o c i)) 0 ys)) := by
  unfold combClean at h
  cases hg : jGet n c with
  | none => rw [hg] at h; exact Or.inl h
  | some x =>
      cases x with
      | arr ys =>
          rw [hg] at h
          dsimp only [] at h
          split_ifs at h with he
          · exact Or.inl (mem_delKey n c kv h)
          · rcases mem_setKey n c _ kv h with h1 | h1
            · exact Or.inl h1
            · exact Or.inr ⟨h1.1, ys, rfl, h1.2⟩
      | null => rw [hg] at h; exact Or.inl h
      | bool b => rw [hg] at h; exact Or.inl h
      | num m => rw [hg] at h; exact Or.inl h
      | str s => rw [hg] at h; exact Or.inl h
      | obj kvs2 => rw [hg] at h; exact Or.inl h

theorem combClean_okAt (o n : List (Str × J)) (c : Str)
    (h : nodupKeys n = true) : combOkAt (combClean o n c) c = true := by
  unfold combClean
  cases hg : jGet n c with
  | none => simp [combOkAt, hg]
  | some x =>
      cases x with
      | arr ys =>
          dsimp only []
          split_ifs with he
          · simp [combOkAt, jGet_delKey_self n c h]
          · have hs := jGet_setKey_self n c (J.arr (filterIdxGo (fun i => ¬ isRefOnly (origAt o c i)) 0 ys))
            simp only [combOkAt, hs]
            simp only [List.isEmpty_iff] at he
            cases hx : (filterIdxGo (fun i => ¬ isRefOnly (origAt o c i)) 0 ys).isEmpty with
            | true => exact absurd (List.isEmpty_iff.mp hx) he
            | false => simp
      | null => simp [combOkAt, hg]
      | bool b => simp [combOkAt, hg]
      | num m => simp [combOkAt, hg]
      | str s => simp [combOkAt, hg]
      | obj kvs => simp [combOkAt, hg]

theorem combClean_self (n : List (Str × J)) (c : Str)
    (hok : combOkAt n c = true) (hvals : ∀ kv ∈ n, cleanJ kv.2 = true) :
    combClean n n c = n := by
  unfold combClean
  cases hg : jGet n c with
  | none => rfl
  | some x =>
      cases x with
      | arr ys =>
          dsimp only []
          have hcl : cleanJ (.arr ys) = true := hvals (c, .arr ys) (jGet_some_mem n c _ hg)
          have hclL : cleanL ys = true := hcl
          have hfil : filterIdxGo (fun i => ¬ isRefOnly (origAt n c i)) 0 ys = ys := by
            apply filterIdx_noop
            intro k x hx
            have hxm : x ∈ ys := List.getElem?_mem hx
            have hxc : cleanJ x = true := (cleanL_iff ys).mp hclL x hxm
            simp only [origAt, hg, Nat.zero_add]
            rw [hx]
            simp [refOnly_false_of_clean x hxc]
          rw [hfil]
          have hne : ys.isEmpty = false := by
            simp only [combOkAt, hg] at hok
            cases hx : ys.isEmpty with
            | true => rw [hx] at hok; exact absurd hok (by simp)
            | false => rfl
          rw [hne]
          simp only [Bool.false_eq_true, if_false]
          exact setKey_self n c _ hg
      | null => rfl
      | bool b => rfl
      | num m => rfl
      | str s => rfl
      | obj kvs => rfl

end CombLemmas

section StripLemmas

theorem doubled_prefix_drop (v : Str) (h : uriPfx.isPrefixOf v = true) :
    uriPfx.isPrefixOf (v.drop uriPfx.length) = (uriPfx ++ uriPfx).isPrefixOf v := by
  obtain ⟨w, rfl⟩ := List.isPrefixOf_iff_prefix.mp h
  rw [List.drop_left]
  cases hx : uriPfx.isPrefixOf w with
  | true =>
      have := List.isPrefixOf_iff_prefix.mp hx
      exact (List.isPrefixOf_iff_prefix.mpr ((List.prefix_append_right_inj uriPfx).mpr this)).symm
  | false =>
      cases hy : (uriPfx ++ uriPfx).isPrefixOf (uriPfx ++ w) with
      | true =>
          exfalso
          have := (List.prefix_append_right_inj uriPfx).mp (List.isPrefixOf_iff_prefix.mp hy)
          rw [List.isPrefixOf_iff_prefix.mpr this] at hx
          exact absurd hx (by simp)
      | false => rfl

theorem jGet_stripUriAt_ne (n : List (Str × J)) (k k2 : Str) (h : k2 ≠ k) :
    jGet (stripUriAt n k) k2 = jGet n k2 := by
  unfold stripUriAt
  cases hg : jGet n k with
  | none => rfl
  | some x =>
      cases x with
      | str v =>
          dsimp only []
          split_ifs with h1 h2
          · exact jGet_setKey_ne n k k2 _ h
          · rfl
          · rfl
      | null => rfl
      | bool b => rfl
      | num m => rfl
      | arr ys => rfl
      | obj kvs => rfl

theorem stripUriAt_nodup (n : List (Str × J)) (k : Str)
    (h : nodupKeys n = true) : nodupKeys (stripUriAt n k) = true := by
  unfold stripUriAt
  cases hg : jGet n k with
  | none => exact h
  | some x =>
      cases x with
      | str v =>
          dsimp only []
          split_ifs with h1 h2
          · exact nodupKeys_setKey n k _ h
          · exact h
          · exact h
      | null => exact h
      | bool b => exact h
      | num m => exact h
      | arr ys => exact h
      | obj kvs => exact h

theorem mem_stripUriAt (n : List (Str × J)) (k : Str) (kv : Str × J)
    (h : kv ∈ stripUriAt n k) :
    kv ∈ n ∨ (kv.1 = k ∧ ∃ v : Str, kv.2 = .str v) := by
  unfold stripUriAt at h
  cases hg : jGet n k with
  | none => rw [hg] at h; exact Or.inl h
  | some x =>
      cases x with
      | str v =>
          rw [hg] at h
          dsimp only [] at h
          split_ifs at h with h1 h2
          · rcases mem_setKey n k _ kv h with h3 | h3
            · exact Or.inl h3
            · exact Or.inr ⟨h3.1, _, h3.2⟩
          · exact Or.inl h
          · exact Or.inl h
      | null => rw [hg] at h; exact Or.inl h
      | bool b => rw [hg] at h; exact Or.inl h
      | num m => rw [hg] at h; exact Or.inl h
      | arr ys => rw [hg] at h; exact Or.inl h
      | obj kvs => rw [hg] at h; exact Or.inl h

theorem stripUriAt_okAt (n : List (Str × J)) (k : Str)
    (hnd : ∀ v : Str, jGet n k = some (.str v) → (uriPfx ++ uriPfx).isPrefixOf v = false) :
    idOkAt (stripUriAt n k) k = true := by
  unfold stripUriAt
  cases hg : jGet n k with
  | none => simp [idOkAt, hg]
  | some x =>
      cases x with
      | str v =>
          dsimp only []
          split_ifs with h1 h2
          · have hs := jGet_setKey_self n k (J.str (v.drop uriPfx.length))
            simp only [idOkAt, hs]
            rw [doubled_prefix_drop v h2, hnd v hg]
            simp
          · simp only [idOkAt, hg]
            cases hx : uriPfx.isPrefixOf v with
            | true => exact absurd hx (by simp [h2])
            | false => simp
          · simp only [ne_eq, Decidable.not_not] at h1
            subst h1
            simp only [idOkAt, hg]
            simp [uriPfx, List.isPrefixOf]
      | null => simp [idOkAt, hg]
      | bool b => simp [idOkAt, hg]
      | num m => simp [idOkAt, hg]
      | arr ys => simp [idOkAt, hg]
      | obj kvs => simp [idOkAt, hg]

theorem stripUriAt_self (n : List (Str × J)) (k : Str)
    (h : idOkAt n k = true) : stripUriAt n k = n := by
  unfold stripUriAt
  cases hg : jGet n k with
  | none => rfl
  | some x =>
      cases x with
      | str v =>
          dsimp only []
          simp only [idOkAt, hg] at h
          split_ifs with h1 h2
          · rw [h2] at h
            exact absurd h (by simp)
          · rfl
          · rfl
      | null => rfl
      | bool b => rfl
      | num m => rfl
      | arr ys => rfl
      | obj kvs => rfl

end StripLemmas

section WrapperLemmas

theorem cleanJ_scalar (v : J) (h : isObjLike v = false) : cleanJ v = true := by
  cases v with
  | null => rfl
  | bool b => rfl
  | num n => rfl
  | str s => rfl
  | arr xs => exact absurd h (by simp [isObjLike])
  | obj kvs => exact absurd h (by simp [isObjLike])

theorem normStr_inv (w : J) (v : Str)
    (h : (if isObjLike w then normJ w else w) = .str v) : w = .str v := by
  cases w with
  | null => simpa [isObjLike] using h
  | bool b => simpa [isObjLike] using h
  | num n => simpa [isObjLike] using h
  | str s => simpa [isObjLike] using h
  | arr xs =>
      rw [if_pos (by rfl)] at h
      exact absurd h (by
        show ¬ (J.arr (normList xs) = J.str v)
        intro hc
        exact J.noConfusion hc)
  | obj kvs =>
      rw [if_pos (by rfl)] at h
      exact absurd h (by
        show ¬ (normJ (J.obj kvs) = J.str v)
        intro hc
        have : normJ (J.obj kvs) = J.obj (stripUriAt (stripUriAt (combClean kvs (combClean kvs (combClean kvs (normEntriesGo [] kvs) (cs "oneOf")) (cs "anyOf")) (cs "allOf")) (cs "$id")) (cs "$ref")) := rfl
        rw [this] at hc
        exact J.noConfusion hc)

theorem ndEntry_uri (k : Str) (v : Str) (h : ndEntry k (.str v) = true)
    (hk : k = cs "$id" ∨ k = cs "$$id" ∨ k = cs "$ref" ∨ k = cs "$$ref") :
    (uriPfx ++ uriPfx).isPrefixOf v = false := by
  have he : ndEntry k (.str v) =
      ((¬ (k == cs "$id" || k == cs "$$id" || k == cs "$ref" || k == cs "$$ref")) ||
        (¬ (uriPfx ++ uriPfx).isPrefixOf v)) := rfl
  rw [he] at h
  have hfalse : (k == cs "$id" || k == cs "$$id" || k == cs "$ref" || k == cs "$$ref") = true := by
    rcases hk with h1 | h1 | h1 | h1 <;> subst h1 <;> simp
  rw [hfalse] at h
  simp only [Bool.not_true, Bool.false_or] at h
  cases hx : (uriPfx ++ uriPfx).isPrefixOf v with
  | true => rw [hx] at h; exact absurd h (by simp)
  | false => rfl

theorem combClean_vals (o n : List (Str × J)) (c : Str)
    (h : ∀ kv ∈ n, cleanJ kv.2 = true) :
    ∀ kv ∈ combClean o n c, cleanJ kv.2 = true := by
  intro kv hkv
  rcases mem_combClean o n c kv hkv with h1 | ⟨_, ys, hg, hv⟩
  · exact h kv h1
  · rw [hv]
    have hys : cleanJ (.arr ys) = true := h (c, .arr ys) (jGet_some_mem n c _ hg)
    have hysL : cleanL ys = true := hys
    show cleanL (filterIdxGo (fun i => ¬ isRefOnly (origAt o c i)) 0 ys) = true
    rw [cleanL_iff]
    intro x hx
    exact (cleanL_iff ys).mp hysL x (filterIdx_sub _ ys 0 x hx)

theorem combClean_keysOk (o n : List (Str × J)) (c : Str)
    (h : ∀ kv ∈ n, keyOkStr kv.1 = true) (hc : keyOkStr c = true) :
    ∀ kv ∈ combClean o n c, keyOkStr kv.1 = true := by
  intro kv hkv
  rcases mem_combClean o n c kv hkv with h1 | ⟨h1, _⟩
  · exact h kv h1
  · rw [h1]; exact hc

theorem stripUriAt_vals (n : List (Str × J)) (k : Str)
    (h : ∀ kv ∈ n, cleanJ kv.2 = true) :
    ∀ kv ∈ stripUriAt n k, cleanJ kv.2 = true := by
  intro kv hkv
  rcases mem_stripUriAt n k kv hkv with h1 | ⟨_, v, hv⟩
  · exact h kv h1
  · rw [hv]; rfl

theorem stripUriAt_keysOk (n : List (Str × J)) (k : Str)
    (h : ∀ kv ∈ n, keyOkStr kv.1 = true) (hc : keyOkStr k = true) :
    ∀ kv ∈ stripUriAt n k, keyOkStr kv.1 = true := by
  intro kv hkv
  rcases mem_stripUriAt n k kv hkv with h1 | ⟨h1, _⟩
  · exact h kv h1
  · rw [h1]; exact hc

theorem combOkAt_congr (m n : List (Str × J)) (c : Str)
    (h : jGet m c = jGet n c) : combOkAt m c = combOkAt n c := by
  unfold combOkAt
  rw [h]

theorem idOkAt_congr (m n : List (Str × J)) (k : Str)
    (h : jGet m k = jGet n k) : idOkAt m k = idOkAt n k := by
  unfold idOkAt
  rw [h]

end WrapperLemmas

section PipelineLemmas

theorem normGo_nil_lookup (kvs : List (Str × J)) (k : Str) (r : J)
    (h : jGet (normEntriesGo [] kvs) k = some r) :
    ∃ kv ∈ kvs, renameKey kv.1 = k ∧ r = (if isObjLike kv.2 then normJ kv.2 else kv.2) := by
  rcases normGo_lookup kvs [] k r h with h1 | h2
  · exact absurd h1 (by simp [jGet, List.lookup])
  · exact h2

theorem pipeline_clean (kvs n0 : List (Str × J))
    (hnod0 : nodupKeys n0 = true)
    (hkeys0 : ∀ kv ∈ n0, keyOkStr kv.1 = true)
    (hvals0 : ∀ kv ∈ n0, cleanJ kv.2 = true)
    (hid : ∀ v : Str, jGet n0 (cs "$id") = some (.str v) → (uriPfx ++ uriPfx).isPrefixOf v = false)
    (href : ∀ v : Str, jGet n0 (cs "$ref") = some (.str v) → (uriPfx ++ uriPfx).isPrefixOf v = false) :
    cleanJ (.obj (stripUriAt (stripUriAt (combClean kvs (combClean kvs (combClean kvs n0 (cs "oneOf")) (cs "anyOf")) (cs "allOf")) (cs "$id")) (cs "$ref"))) = true := by
  set n1 := combClean kvs n0 (cs "oneOf") with hn1
  set n2 := combClean kvs n1 (cs "anyOf") with hn2
  set n3 := combClean kvs n2 (cs "allOf") with hn3
  set n4 := stripUriAt n3 (cs "$id") with hn4
  set n5 := stripUriAt n4 (cs "$ref") with hn5
  have hnod1 : nodupKeys n1 = true := combClean_nodup kvs n0 _ hnod0
  have hnod2 : nodupKeys n2 = true := combClean_nodup kvs n1 _ hnod1
  have hnod3 : nodupKeys n3 = true := combClean_nodup kvs n2 _ hnod2
  have hnod4 : nodupKeys n4 = true := stripUriAt_nodup n3 _ hnod3
  have hnod5 : nodupKeys n5 = true := stripUriAt_nodup n4 _ hnod4
  have hkeys1 := combClean_keysOk kvs n0 (cs "oneOf") hkeys0 (by decide)
  have hkeys2 := combClean_keysOk kvs n1 (cs "anyOf") hkeys1 (by decide)
  have hkeys3 := combClean_keysOk kvs n2 (cs "allOf") hkeys2 (by decide)
  have hkeys4 := stripUriAt_keysOk n3 (cs "$id") hkeys3 (by decide)
  have hkeys5 := stripUriAt_keysOk n4 (cs "$ref") hkeys4 (by decide)
  have hvals1 := combClean_vals kvs n0 (cs "oneOf") hvals0
  have hvals2 := combClean_vals kvs n1 (cs "anyOf") hvals1
  have hvals3 := combClean_vals kvs n2 (cs "allOf") hvals2
  have hvals4 := stripUriAt_vals n3 (cs "$id") hvals3
  have hvals5 := stripUriAt_vals n4 (cs "$ref") hvals4
  have hj54 : ∀ c2 : Str, c2 ≠ cs "$ref" → jGet n5 c2 = jGet n4 c2 := by
    intro c2 hc; rw [hn5]; exact jGet_stripUriAt_ne n4 _ c2 hc
  have hj43 : ∀ c2 : Str, c2 ≠ cs "$id" → jGet n4 c2 = jGet n3 c2 := by
    intro c2 hc; rw [hn4]; exact jGet_stripUriAt_ne n3 _ c2 hc
  have hj32 : ∀ c2 : Str, c2 ≠ cs "allOf" → jGet n3 c2 = jGet n2 c2 := by
    intro c2 hc; rw [hn3]; exact jGet_combClean_ne kvs n2 _ c2 hc
  have hj21 : ∀ c2 : Str, c2 ≠ cs "anyOf" → jGet n2 c2 = jGet n1 c2 := by
    intro c2 hc; rw [hn2]; exact jGet_combClean_ne kvs n1 _ c2 hc
  have hj10 : ∀ c2 : Str, c2 ≠ cs "oneOf" → jGet n1 c2 = jGet n0 c2 := by
    intro c2 hc; rw [hn1]; exact jGet_combClean_ne kvs n0 _ c2 hc
  have hco1 : combOkAt n5 (cs "oneOf") = true := by
    rw [combOkAt_congr n5 n4 _ (hj54 _ (by decide)),
        combOkAt_congr n4 n3 _ (hj43 _ (by decide)),
        combOkAt_congr n3 n2 _ (hj32 _ (by decide)),
        combOkAt_congr n2 n1 _ (hj21 _ (by decide))]
    rw [hn1]
    exact combClean_okAt kvs n0 _ hnod0
  have hco2 : combOkAt n5 (cs "anyOf") = true := by
    rw [combOkAt_congr n5 n4 _ (hj54 _ (by decide)),
        combOkAt_congr n4 n3 _ (hj43 _ (by decide)),
        combOkAt_congr n3 n2 _ (hj32 _ (by decide))]
    rw [hn2]
    exact combClean_okAt kvs n1 _ hnod1
  have hco3 : combOkAt n5 (cs "allOf") = true := by
    rw [combOkAt_congr n5 n4 _ (hj54 _ (by decide)),
        combOkAt_congr n4 n3 _ (hj43 _ (by decide))]
    rw [hn3]
    exact combClean_okAt kvs n2 _ hnod2
  have hidref : idOkAt n5 (cs "$ref") = true := by
    rw [hn5]
    apply stripUriAt_okAt
    intro v hg
    rw [hj43 _ (by decide), hj32 _ (by decide), hj21 _ (by decide), hj10 _ (by decide)] at hg
    exact href v hg
  have hidid : idOkAt n5 (cs "$id") = true := by
    rw [idOkAt_congr n5 n4 _ (hj54 _ (by decide))]
    rw [hn4]
    apply stripUriAt_okAt
    intro v hg
    rw [hj32 _ (by decide), hj21 _ (by decide), hj10 _ (by decide)] at hg
    exact hid v hg
  have hcl : cleanJ (.obj n5) = (nodupKeys n5 && keysOkKV n5 && combOk n5 && idOk n5 && cleanKV n5) := rfl
  rw [hcl]
  have hcomb : combOk n5 = true := by
    have : combOk n5 = (combOkAt n5 (cs "oneOf") && combOkAt n5 (cs "anyOf") && combOkAt n5 (cs "allOf")) := rfl
    rw [this, hco1, hco2, hco3]
    rfl
  have hidok : idOk n5 = true := by
    have : idOk n5 = (idOkAt n5 (cs "$id") && idOkAt n5 (cs "$ref")) := rfl
    rw [this, hidid, hidref]
    rfl
  rw [hnod5, (keysOkKV_iff n5).mpr hkeys5, hcomb, hidok, (cleanKV_iff n5).mpr hvals5]
  rfl

end PipelineLemmas

theorem sizeOf_val_lt (kvs : List (Str × J)) (kv : Str × J) (hkv : kv ∈ kvs) :
    sizeOf kv.2 < sizeOf (J.obj kvs) := by
  have h1 : sizeOf kv < sizeOf kvs := List.sizeOf_lt_of_mem hkv
  obtain ⟨k, v⟩ := kv
  have h2 : sizeOf (k, v) = 1 + sizeOf k + sizeOf v := rfl
  have h3 : sizeOf (J.obj kvs) = 1 + sizeOf kvs := by rw [J.obj.sizeOf_spec]
  simp only [h2] at h1
  simp only [h3]
  omega

theorem sizeOf_val_lt2 (kvs : List (Str × J)) (kv : Str × J) (hkv : kv ∈ kvs) :
    sizeOf kv.2 < 1 + sizeOf kvs := by
  have h := sizeOf_val_lt kvs kv hkv
  rw [J.obj.sizeOf_spec] at h
  exact h

mutual

theorem normClean : (s : J) → ndJ s = true → cleanJ (normJ s) = true
  | .null, _ => rfl
  | .bool _, _ => rfl
  | .num _, _ => rfl
  | .str _, _ => rfl
  | .arr xs, h => normCleanL xs h
  | .obj kvs, h => by
      have hnd : ndKV kvs = true := h
      have hvals : ∀ kv ∈ kvs, cleanJ (if isObjLike kv.2 then normJ kv.2 else kv.2) = true := by
        intro kv hkv
        cases hio : isObjLike kv.2 with
        | false =>
            rw [if_neg (by simp)]
            exact cleanJ_scalar kv.2 hio
        | true =>
            rw [if_pos rfl]
            exact normClean kv.2 (ndKV_mem kvs hnd kv hkv).2
      obtain ⟨hnod0, hkeys0, hvals0⟩ := normGo_P kvs [] rfl
        (fun kv hkv => absurd hkv (List.not_mem_nil kv))
        (fun kv hkv => absurd hkv (List.not_mem_nil kv)) hvals
      have hgoal : normJ (.obj kvs) = .obj (stripUriAt (stripUriAt (combClean kvs (combClean kvs (combClean kvs (normEntriesGo [] kvs) (cs "oneOf")) (cs "anyOf")) (cs "allOf")) (cs "$id")) (cs "$ref")) := rfl
      rw [hgoal]
      apply pipeline_clean kvs (normEntriesGo [] kvs) hnod0 hkeys0 hvals0
      · intro v hg
        rcases normGo_nil_lookup kvs _ _ hg with ⟨kv, hkv, hrn, hr⟩
        have hv2 : kv.2 = .str v := normStr_inv kv.2 v hr.symm
        have hne : ndEntry kv.1 kv.2 = true := (ndKV_mem kvs hnd kv hkv).1
        rw [hv2] at hne
        exact ndEntry_uri kv.1 v hne
          (by
            rcases renameKey_to_id kv.1 hrn with h1 | h1
            · exact Or.inl h1
            · exact Or.inr (Or.inl h1))
      · intro v hg
        rcases normGo_nil_lookup kvs _ _ hg with ⟨kv, hkv, hrn, hr⟩
        have hv2 : kv.2 = .str v := normStr_inv kv.2 v hr.symm
        have hne : ndEntry kv.1 kv.2 = true := (ndKV_mem kvs hnd kv hkv).1
        rw [hv2] at hne
        exact ndEntry_uri kv.1 v hne
          (by
            rcases renameKey_to_ref kv.1 hrn with h1 | h1
            · exact Or.inr (Or.inr (Or.inl h1))
            · exact Or.inr (Or.inr (Or.inr h1)))
termination_by s _ => sizeOf s
decreasing_by
  all_goals simp_wf
  all_goals first
    | exact sizeOf_val_lt kvs kv hkv
    | exact sizeOf_val_lt2 kvs kv hkv
    | (rw [J.arr.sizeOf_spec]; omega)
    | omega

theorem normCleanL : (xs : List J) → ndL xs = true → cleanL (normList xs) = true
  | [], _ => rfl
  | x :: xs, h => by
      have h2 : (ndJ x && ndL xs) = true := h
      rw [Bool.and_eq_true] at h2
      show (cleanJ (normJ x) && cleanL (normList xs)) = true
      rw [normClean x h2.1, normCleanL xs h2.2]
      rfl
termination_by xs _ => sizeOf xs
decreasing_by
  all_goals simp_wf
  all_goals omega

end

mutual

theorem cleanFix : (s : J) → cleanJ s = true → normJ s = s
  | .null, _ => rfl
  | .bool _, _ => rfl
  | .num _, _ => rfl
  | .str _, _ => rfl
  | .arr xs, h => by
      show J.arr (normList xs) = J.arr xs
      rw [cleanFixL xs h]
  | .obj kvs, h => by
      have hc : (nodupKeys kvs && keysOkKV kvs && combOk kvs && idOk kvs && cleanKV kvs) = true := h
      simp only [Bool.and_eq_true] at hc
      obtain ⟨⟨⟨⟨hnod, hkeys⟩, hcomb⟩, hid⟩, hckv⟩ := hc
      have hvals : ∀ kv ∈ kvs, cleanJ kv.2 = true := (cleanKV_iff kvs).mp hckv
      have hvfix : ∀ kv ∈ kvs, (if isObjLike kv.2 then normJ kv.2 else kv.2) = kv.2 := by
        intro kv hkv
        cases hio : isObjLike kv.2 with
        | false => rw [if_neg (by simp)]
        | true => rw [if_pos rfl]; exact cleanFix kv.2 (hvals kv hkv)
      have h0 : normEntriesGo [] kvs = kvs := by
        have hgo := normGo_identity kvs [] hnod ((keysOkKV_iff kvs).mp hkeys) hvfix
          (fun kv1 hkv1 => absurd hkv1 (List.not_mem_nil kv1))
        simpa using hgo
      have hcoa : (combOkAt kvs (cs "oneOf") && combOkAt kvs (cs "anyOf") && combOkAt kvs (cs "allOf")) = true := hcomb
      simp only [Bool.and_eq_true] at hcoa
      have hida : (idOkAt kvs (cs "$id") && idOkAt kvs (cs "$ref")) = true := hid
      simp only [Bool.and_eq_true] at hida
      have hc1 : combClean kvs kvs (cs "oneOf") = kvs := combClean_self kvs _ hcoa.1.1 hvals
      have hc2 : combClean kvs kvs (cs "anyOf") = kvs := combClean_self kvs _ hcoa.1.2 hvals
      have hc3 : combClean kvs kvs (cs "allOf") = kvs := combClean_self kvs _ hcoa.2 hvals
      have hs4 : stripUriAt kvs (cs "$id") = kvs := stripUriAt_self kvs _ hida.1
      have hs5 : stripUriAt kvs (cs "$ref") = kvs := stripUriAt_self kvs _ hida.2
      have hgoal : normJ (.obj kvs) = .obj (stripUriAt (stripUriAt (combClean kvs (combClean kvs (combClean kvs (normEntriesGo [] kvs) (cs "oneOf")) (cs "anyOf")) (cs "allOf")) (cs "$id")) (cs "$ref")) := rfl
      rw [hgoal, h0, hc1, hc2, hc3, hs4, hs5]
termination_by s _ => sizeOf s
decreasing_by
  all_goals simp_wf
  all_goals first
    | exact sizeOf_val_lt kvs kv hkv
    | exact sizeOf_val_lt2 kvs kv hkv
    | (rw [J.arr.sizeOf_spec]; omega)
    | omega

theorem cleanFixL : (xs : List J) → cleanL xs = true → normList xs = xs
  | [], _ => rfl
  | x :: xs, h => by
      have h2 : (cleanJ x && cleanL xs) = true := h
      rw [Bool.and_eq_true] at h2
      show normJ x :: normList xs = x :: xs
      rw [cleanFix x h2.1, cleanFixL xs h2.2]
termination_by xs _ => sizeOf xs
decreasing_by
  all_goals simp_wf
  all_goals omega

end

/-- C9: the normalization-idempotence claim as stated is false: the code
strips exactly one `gts://` prefix from `$id`/`$ref` per pass, so a value
whose `$id` begins with the doubled prefix `gts://gts://` normalizes to a
different value on the second pass. -/
theorem c9_idempotence_counterexample :
    normJ (normJ (.obj [(cs "$id", .str (cs "gts://gts://gts.x"))])) ≠
      normJ (.obj [(cs "$id", .str (cs "gts://gts://gts.x"))]) := by
  intro h
  have h2 := congrArg idStrOf h
  rw [show idStrOf (normJ (normJ (.obj [(cs "$id", .str (cs "gts://gts://gts.x"))]))) = cs "gts.x" from rfl,
      show idStrOf (normJ (.obj [(cs "$id", .str (cs "gts://gts://gts.x"))])) = cs "gts://gts.x" from rfl] at h2
  exact absurd h2 (by decide)

/-- C9 (amended): for every value none of whose `$id`/`$$id`/`$ref`/`$$ref`
string entries begins with the doubled prefix `gts://gts://`,
`normalizeSchemaRecursive` is idempotent:
`normalize(normalize(s)) = normalize(s)`. -/
theorem c9_idempotence_amended (s : J) (h : ndJ s = true) :
    normJ (normJ s) = normJ s :=
  cleanFix (normJ s) (normClean s h)

/-- C9 amended witness: a concrete schema-like object satisfying the
hypothesis, on which idempotence holds. -/
theorem c9_idempotence_amended_witness :
    ndJ (.obj [(cs "$$id", .str (cs "gts://gts.a.b.c.d.v1~")), (cs "type", .str (cs "object")), (cs "oneOf", .arr [.obj [(cs "x-gts-ref", .str (cs "gts.x.*"))], .obj [(cs "type", .str (cs "number"))]])]) = true ∧
    normJ (normJ (.obj [(cs "$$id", .str (cs "gts://gts.a.b.c.d.v1~")), (cs "type", .str (cs "object")), (cs "oneOf", .arr [.obj [(cs "x-gts-ref", .str (cs "gts.x.*"))], .obj [(cs "type", .str (cs "number"))]])])) =
      normJ (.obj [(cs "$$id", .str (cs "gts://gts.a.b.c.d.v1~")), (cs "type", .str (cs "object")), (cs "oneOf", .arr [.obj [(cs "x-gts-ref", .str (cs "gts.x.*"))], .obj [(cs "type", .str (cs "number"))]])]) :=
  ⟨by decide, c9_idempotence_amended _ (by decide)⟩

section JeqLemmas

mutual

theorem jeq_eq : (a b : J) → jeq a b = true → a = b
  | .null, .null, _ => rfl
  | .null, .bool _, h => absurd h (by simp [jeq])
  | .null, .num _, h => absurd h (by simp [jeq])
  | .null, .str _, h => absurd h (by simp [jeq])
  | .null, .arr _, h => absurd h (by simp [jeq])
  | .null, .obj _, h => absurd h (by simp [jeq])
  | .bool a, .null, h => absurd h (by simp [jeq])
  | .bool a, .bool b, h => by rw [show a = b from by simpa [jeq] using h]
  | .bool a, .num _, h => absurd h (by simp [jeq])
  | .bool a, .str _, h => absurd h (by simp [jeq])
  | .bool a, .arr _, h => absurd h (by simp [jeq])
  | .bool a, .obj _, h => absurd h (by simp [jeq])
  | .num a, .null, h => absurd h (by simp [jeq])
  | .num a, .bool _, h => absurd h (by simp [jeq])
  | .num a, .num b, h => by rw [show a = b from by simpa [jeq] using h]
  | .num a, .str _, h => absurd h (by simp [jeq])
  | .num a, .arr _, h => absurd h (by simp [jeq])
  | .num a, .obj _, h => absurd h (by simp [jeq])
  | .str a, .null, h => absurd h (by simp [jeq])
  | .str a, .bool _, h => absurd h (by simp [jeq])
  | .str a, .num _, h => absurd h (by simp [jeq])
  | .str a, .str b, h => by rw [show a = b from by simpa [jeq] using h]
  | .str a, .arr _, h => absurd h (by simp [jeq])
  | .str a, .obj _, h => absurd h (by simp [jeq])
  | .arr a, .null, h => absurd h (by simp [jeq])
  | .arr a, .bool _, h => absurd h (by simp [jeq])
  | .arr a, .num _, h => absurd h (by simp [jeq])
  | .arr a, .str _, h => absurd h (by simp [jeq])
  | .arr a, .arr b, h => by rw [jeqL_eq a b h]
  | .arr a, .obj _, h => absurd h (by simp [jeq])
  | .obj a, .null, h => absurd h (by simp [jeq])
  | .obj a, .bool _, h => absurd h (by simp [jeq])
  | .obj a, .num _, h => absurd h (by simp [jeq])
  | .obj a, .str _, h => absurd h (by simp [jeq])
  | .obj a, .arr _, h => absurd h (by simp [jeq])
  | .obj a, .obj b, h => by rw [jeqKV_eq a b h]
termination_by a _ _ => sizeOf a
decreasing_by
  all_goals simp_wf
  all_goals omega

theorem jeqL_eq : (a b : List J) → jeqL a b = true → a = b
  | [], [], _ => rfl
  | [], _ :: _, h => absurd h (by simp [jeqL])
  | _ :: _, [], h => absurd h (by simp [jeqL])
  | x :: xs, y :: ys, h => by
      have h2 : (jeq x y && jeqL xs ys) = true := h
      rw [Bool.and_eq_true] at h2
      rw [jeq_eq x y h2.1, jeqL_eq xs ys h2.2]
termination_by a _ _ => sizeOf a
decreasing_by
  all_goals simp_wf
  all_goals omega

theorem jeqKV_eq : (a b : List (Str × J)) → jeqKV a b = true → a = b
  | [], [], _ => rfl
  | [], _ :: _, h => absurd h (by simp [jeqKV])
  | _ :: _, [], h => absurd h (by simp [jeqKV])
  | (k1, v1) :: xs, (k2, v2) :: ys, h => by
      have h2 : ((k1 == k2 && jeq v1 v2) && jeqKV xs ys) = true := h
      rw [Bool.and_eq_true, Bool.and_eq_true] at h2
      rw [eq_of_beq h2.1.1, jeq_eq v1 v2 h2.1.2, jeqKV_eq xs ys h2.2]
termination_by a _ _ => sizeOf a
decreasing_by
  all_goals simp_wf
  all_goals omega

end

mutual

theorem jeq_refl : (a : J) → jeq a a = true
  | .null => rfl
  | .bool b => by simp [jeq]
  | .num n => by simp [jeq]
  | .str s => by simp [jeq]
  | .arr xs => jeqL_refl xs
  | .obj kvs => jeqKV_refl kvs
termination_by a => sizeOf a
decreasing_by
  all_goals simp_wf
  all_goals omega

theorem jeqL_refl : (a : List J) → jeqL a a = true
  | [] => rfl
  | x :: xs => by
      show (jeq x x && jeqL xs xs) = true
      rw [jeq_refl x, jeqL_refl xs]
      rfl
termination_by a => sizeOf a
decreasing_by
  all_goals simp_wf
  all_goals omega

theorem jeqKV_refl : (a : List (Str × J)) → jeqKV a a = true
  | [] => rfl
  | (k, v) :: xs => by
      show ((k == k && jeq v v) && jeqKV xs xs) = true
      rw [beq_self_eq_true, jeq_refl v, jeqKV_refl xs]
      rfl
termination_by a => sizeOf a
decreasing_by
  all_goals simp_wf
  all_goals omega

end

theorem jeq_false_of_ne (a b : J) (h : a ≠ b) : jeq a b = false := by
  cases hx : jeq a b with
  | true => exact absurd (jeq_eq a b hx) h
  | false => rfl

theorem jmem_iff (x : J) (l : List J) : jmem x l = true ↔ x ∈ l := by
  simp only [jmem, List.any_eq_true]
  constructor
  · rintro ⟨y, hy, he⟩
    rw [← jeq_eq y x he]
    exact hy
  · intro h
    exact ⟨x, h, jeq_refl x⟩

end JeqLemmas

section DedupLemmas

theorem jmem_filter_ne (x y : J) (h : x ≠ y) :
    ∀ rest : List J, jmem x (rest.filter (fun z => ¬ jeq z y)) = jmem x rest := by
  intro rest
  induction rest with
  | nil => rfl
  | cons z t ih =>
      cases hzy : jeq z y with
      | true =>
          have hz : z = y := jeq_eq z y hzy
          have hdrop : List.filter (fun z => ¬ jeq z y) (z :: t) = List.filter (fun z => ¬ jeq z y) t := by
            rw [List.filter_cons]
            simp [hzy]
          rw [hdrop, ih]
          have hzx : jeq z x = false := jeq_false_of_ne z x (by rw [hz]; exact fun he => h he.symm)
          simp [jmem, hzx]
      | false =>
          have hkeep : List.filter (fun z => ¬ jeq z y) (z :: t) = z :: List.filter (fun z => ¬ jeq z y) t := by
            rw [List.filter_cons]
            simp [hzy]
          rw [hkeep]
          simp only [jmem, List.any_cons]
          rw [show (List.filter (fun z => ¬ jeq z y) t).any (fun z => jeq z x) = jmem x (List.filter (fun z => ¬ jeq z y) t) from rfl, ih]
          rfl

theorem jmem_dedupJ : ∀ (l : List J) (x : J), jmem x (dedupJ l) = jmem x l
  | [], _ => by rw [dedupJ]
  | y :: rest, x => by
      have hd : dedupJ (y :: rest) = y :: dedupJ (rest.filter (fun z => ¬ jeq z y)) := by
        rw [dedupJ]
      rw [hd]
      simp only [jmem, List.any_cons]
      rw [show (dedupJ (rest.filter (fun z => ¬ jeq z y))).any (fun z => jeq z x) = jmem x (dedupJ (rest.filter (fun z => ¬ jeq z y))) from rfl,
          jmem_dedupJ (rest.filter (fun z => ¬ jeq z y)) x]
      cases hyx : jeq y x with
      | true => rfl
      | false =>
          have hne : x ≠ y := by
            intro he
            rw [he] at hyx
            rw [jeq_refl y] at hyx
            exact Bool.noConfusion hyx
          rw [jmem_filter_ne x y hne rest]
          rfl
termination_by l _ => l.length
decreasing_by
  simp only [List.length_cons]
  exact Nat.lt_succ_of_le (List.length_filter_le _ _)

theorem joinSep_mem_infix (sep s : Str) (l : List Str) (h : s ∈ l) :
    s <:+: joinSep sep l := by
  induction l with
  | nil => cases h
  | cons x xs ih =>
      cases xs with
      | nil =>
          have : s = x := by simpa using h
          rw [this]
          exact List.infix_refl x
      | cons y ys =>
          rcases List.mem_cons.mp h with h1 | h1
          · rw [h1]
            show x <:+: x ++ sep ++ joinSep sep (y :: ys)
            exact ⟨[], sep ++ joinSep sep (y :: ys), by simp⟩
          · have hin := ih h1
            show s <:+: x ++ sep ++ joinSep sep (y :: ys)
            have : joinSep sep (y :: ys) <:+: x ++ sep ++ joinSep sep (y :: ys) :=
              ⟨x ++ sep, [], by simp⟩
            exact hin.trans this

end DedupLemmas

section ReqErrLemmas

theorem reqErrsFn_added (fuel : Nat) (oldS newS : J) (p : Str)
    (hmem : jmem (.str p) (flatRequired fuel newS) = true)
    (hnot : jmem (.str p) (flatRequired fuel oldS) = false) :
    ∃ rest : List Str,
      reqErrsFn fuel oldS newS true =
        [cs "Added required properties: " ++ joinSep (cs ", ") rest] ∧ p ∈ rest := by
  unfold reqErrsFn
  dsimp only []
  have hmemD : (.str p) ∈ dedupJ (flatRequired fuel newS) := by
    rw [← jmem_iff, jmem_dedupJ]
    exact hmem
  have hmemF : (.str p) ∈ (dedupJ (flatRequired fuel newS)).filter
      (fun q => ¬ jmem q (flatRequired fuel oldS)) := by
    rw [List.mem_filter]
    exact ⟨hmemD, by simp [hnot]⟩
  have hne : ((dedupJ (flatRequired fuel newS)).filter
      (fun q => ¬ jmem q (flatRequired fuel oldS))).isEmpty = false := by
    cases hx : ((dedupJ (flatRequired fuel newS)).filter
        (fun q => ¬ jmem q (flatRequired fuel oldS))).isEmpty with
    | true =>
        rw [List.isEmpty_iff] at hx
        rw [hx] at hmemF
        cases hmemF
    | false => rfl
  rw [if_pos rfl, hne]
  refine ⟨((dedupJ (flatRequired fuel newS)).filter
      (fun q => ¬ jmem q (flatRequired fuel oldS))).map jToStr, by simp, ?_⟩
  have : jToStr (.str p) = p := rfl
  rw [← this]
  exact List.mem_map_of_mem jToStr hmemF

theorem checkSchemaCompat_split (fuel : Nat) (oldS newS : J) (cb : Bool) :
    ∃ tail : List Str,
      checkSchemaCompat (fuel + 1) oldS newS cb =
        ((reqErrsFn (fuel + 1) oldS newS cb ++ tail).isEmpty,
          reqErrsFn (fuel + 1) oldS newS cb ++ tail) := by
  exact ⟨_, rfl⟩

end ReqErrLemmas

/-- C3: when the new schema's flattened `required` list contains a
property that the old schema's flattened `required` list lacks,
`GtsStore.checkCompatibility` reports `is_backward_compatible = false`
and a backward error of the form `Added required properties: ...` naming
the property. -/
theorem c3_added_required (st : GtsStore) (oldId newId : Str) (fuel : Nat)
    (oldE newE : JsonEntity) (p : Str)
    (hold : storeGet st oldId = some oldE)
    (hnew : storeGet st newId = some newE)
    (htr1 : jTruthy oldE.content = true)
    (htr2 : jTruthy newE.content = true)
    (hmem : jmem (.str p) (flatRequired (fuel + 1) newE.content) = true)
    (hnot : jmem (.str p) (flatRequired (fuel + 1) oldE.content) = false) :
    (checkCompatibility st oldId newId (fuel + 1)).is_backward_compatible = false ∧
    ∃ e ∈ (checkCompatibility st oldId newId (fuel + 1)).backward_errors,
      (cs "Added required properties: ").isPrefixOf e = true ∧ hasSub p e = true := by
  have h1 : (checkCompatibility st oldId newId (fuel + 1)).is_backward_compatible =
      (checkSchemaCompat (fuel + 1) oldE.content newE.content true).1 := by
    unfold checkCompatibility
    rw [hold, hnew]
    dsimp only []
    rw [htr1, htr2]
    rw [if_neg (by simp)]
  have h2 : (checkCompatibility st oldId newId (fuel + 1)).backward_errors =
      (checkSchemaCompat (fuel + 1) oldE.content newE.content true).2 := by
    unfold checkCompatibility
    rw [hold, hnew]
    dsimp only []
    rw [htr1, htr2]
    rw [if_neg (by simp)]
  obtain ⟨tail, hb⟩ := checkSchemaCompat_split fuel oldE.content newE.content true
  obtain ⟨rest, hreq, hp⟩ := reqErrsFn_added (fuel + 1) oldE.content newE.content p hmem hnot
  constructor
  · rw [h1, hb, hreq]
    rfl
  · refine ⟨cs "Added required properties: " ++ joinSep (cs ", ") rest, ?_, ?_, ?_⟩
    · rw [h2, hb, hreq]
      exact List.mem_cons_self _ _
    · exact List.isPrefixOf_iff_prefix.mpr ⟨joinSep (cs ", ") rest, rfl⟩
    · rw [hasSub_infix_iff]
      have hj : p <:+: joinSep (cs ", ") rest := joinSep_mem_infix (cs ", ") p rest hp
      have ha : joinSep (cs ", ") rest <:+:
          cs "Added required properties: " ++ joinSep (cs ", ") rest :=
        ⟨cs "Added required properties: ", [], by simp⟩
      exact hj.trans ha

/-- C3 witness: a concrete two-schema store where the new schema adds
`email` to `required`; the hypotheses hold by evaluation and the theorem
applies. -/
theorem c3_added_required_witness :
    (storeGet (GtsStore.mk [(cs "gts.a.b.c.d.v1~", (JsonEntity.mk (cs "gts.a.b.c.d.v1~") none (.obj [(cs "type", .str (cs "object")), (cs "required", .arr [.str (cs "name")])]) true [])), (cs "gts.a.b.c.d.v2~", (JsonEntity.mk (cs "gts.a.b.c.d.v2~") none (.obj [(cs "type", .str (cs "object")), (cs "required", .arr [.str (cs "name"), .str (cs "email")])]) true []))] (GtsConfig.mk false false)) (cs "gts.a.b.c.d.v1~") = some (JsonEntity.mk (cs "gts.a.b.c.d.v1~") none (.obj [(cs "type", .str (cs "object")), (cs "required", .arr [.str (cs "name")])]) true []) ∧
     storeGet (GtsStore.mk [(cs "gts.a.b.c.d.v1~", (JsonEntity.mk (cs "gts.a.b.c.d.v1~") none (.obj [(cs "type", .str (cs "object")), (cs "required", .arr [.str (cs "name")])]) true [])), (cs "gts.a.b.c.d.v2~", (JsonEntity.mk (cs "gts.a.b.c.d.v2~") none (.obj [(cs "type", .str (cs "object")), (cs "required", .arr [.str (cs "name"), .str (cs "email")])]) true []))] (GtsConfig.mk false false)) (cs "gts.a.b.c.d.v2~") = some (JsonEntity.mk (cs "gts.a.b.c.d.v2~") none (.obj [(cs "type", .str (cs "object")), (cs "required", .arr [.str (cs "name"), .str (cs "email")])]) true []) ∧
     jTruthy (JsonEntity.content (JsonEntity.mk (cs "gts.a.b.c.d.v1~") none (.obj [(cs "type", .str (cs "object")), (cs "required", .arr [.str (cs "name")])]) true [])) = true ∧
     jTruthy (JsonEntity.content (JsonEntity.mk (cs "gts.a.b.c.d.v2~") none (.obj [(cs "type", .str (cs "object")), (cs "required", .arr [.str (cs "name"), .str (cs "email")])]) true [])) = true ∧
     jmem (.str (cs "email")) (flatRequired 1 (JsonEntity.content (JsonEntity.mk (cs "gts.a.b.c.d.v2~") none (.obj [(cs "type", .str (cs "object")), (cs "required", .arr [.str (cs "name"), .str (cs "email")])]) true []))) = true ∧
     jmem (.str (cs "email")) (flatRequired 1 (JsonEntity.content (JsonEntity.mk (cs "gts.a.b.c.d.v1~") none (.obj [(cs "type", .str (cs "object")), (cs "required", .arr [.str (cs "name")])]) true []))) = false) ∧
    ((checkCompatibility (GtsStore.mk [(cs "gts.a.b.c.d.v1~", (JsonEntity.mk (cs "gts.a.b.c.d.v1~") none (.obj [(cs "type", .str (cs "object")), (cs "required", .arr [.str (cs "name")])]) true [])), (cs "gts.a.b.c.d.v2~", (JsonEntity.mk (cs "gts.a.b.c.d.v2~") none (.obj [(cs "type", .str (cs "object")), (cs "required", .arr [.str (cs "name"), .str (cs "email")])]) true []))] (GtsConfig.mk false false)) (cs "gts.a.b.c.d.v1~") (cs "gts.a.b.c.d.v2~") 1).is_backward_compatible = false ∧
     ∃ e ∈ (checkCompatibility (GtsStore.mk [(cs "gts.a.b.c.d.v1~", (JsonEntity.mk (cs "gts.a.b.c.d.v1~") none (.obj [(cs "type", .str (cs "object")), (cs "required", .arr [.str (cs "name")])]) true [])), (cs "gts.a.b.c.d.v2~", (JsonEntity.mk (cs "gts.a.b.c.d.v2~") none (.obj [(cs "type", .str (cs "object")), (cs "required", .arr [.str (cs "name"), .str (cs "email")])]) true []))] (GtsConfig.mk false false)) (cs "gts.a.b.c.d.v1~") (cs "gts.a.b.c.d.v2~") 1).backward_errors,
       (cs "Added required properties: ").isPrefixOf e = true ∧ hasSub (cs "email") e = true) :=
  ⟨⟨rfl, rfl, rfl, rfl, by decide, by decide⟩,
    c3_added_required (GtsStore.mk [(cs "gts.a.b.c.d.v1~", (JsonEntity.mk (cs "gts.a.b.c.d.v1~") none (.obj [(cs "type", .str (cs "object")), (cs "required", .arr [.str (cs "name")])]) true [])), (cs "gts.a.b.c.d.v2~", (JsonEntity.mk (cs "gts.a.b.c.d.v2~") none (.obj [(cs "type", .str (cs "object")), (cs "required", .arr [.str (cs "name"), .str (cs "email")])]) true []))] (GtsConfig.mk false false)) (cs "gts.a.b.c.d.v1~") (cs "gts.a.b.c.d.v2~") 0 (JsonEntity.mk (cs "gts.a.b.c.d.v1~") none (.obj [(cs "type", .str (cs "object")), (cs "required", .arr [.str (cs "name")])]) true []) (JsonEntity.mk (cs "gts.a.b.c.d.v2~") none (.obj [(cs "type", .str (cs "object")), (cs "required", .arr [.str (cs "name"), .str (cs "email")])]) true []) (cs "email")
      rfl rfl rfl rfl (by decide) (by decide)⟩

section FoldLemmas

theorem foldl_pres {α β : Type} (f : α → β → α) (P : α → Prop) :
    ∀ (l : List β), (∀ a : α, ∀ x ∈ l, P a → P (f a x)) → ∀ a : α, P a → P (l.foldl f a) := by
  intro l
  induction l with
  | nil => intro _ a ha; exact ha
  | cons x xs ih =>
      intro hf a ha
      exact ih (fun a2 y hy => hf a2 y (List.mem_cons_of_mem _ hy)) (f a x)
        (hf a x (List.mem_cons_self _ _) ha)

theorem foldl_mono {α β : Type} (f : α → β → α) (g : α → List Str) :
    ∀ (l : List β), (∀ a : α, ∀ x ∈ l, ∃ t, g (f a x) = g a ++ t) →
    ∀ a : α, ∃ t, g (l.foldl f a) = g a ++ t := by
  intro l
  induction l with
  | nil => intro _ a; exact ⟨[], by simp⟩
  | cons x xs ih =>
      intro hf a
      obtain ⟨t1, ht1⟩ := hf a x (List.mem_cons_self _ _)
      obtain ⟨t2, ht2⟩ := ih (fun a2 y hy => hf a2 y (List.mem_cons_of_mem _ hy)) (f a x)
      exact ⟨t1 ++ t2, by rw [List.foldl_cons, ht2, ht1, List.append_assoc]⟩

theorem mem_nodup_lookup {β : Type} (l : List (Str × β)) (k : Str) (v : β)
    (hnd : nodupKeys l = true) (hm : (k, v) ∈ l) : jGet l k = some v := by
  induction l with
  | nil => cases hm
  | cons kv rest ih =>
      obtain ⟨k0, v0⟩ := kv
      simp only [nodupKeys, Bool.and_eq_true, decide_eq_true_eq] at hnd
      rcases List.mem_cons.mp hm with h1 | h1
      · cases h1
        simp [jGet, List.lookup]
      · by_cases hk : k = k0
        · exfalso
          subst hk
          exact hnd.1 (List.any_eq_true.mpr ⟨(k, v), h1, by simp⟩)
        · have hb : (k == k0) = false := by simp [hk]
          simp only [jGet, List.lookup, hb]
          exact ih hnd.2 h1

theorem dedup_sub : ∀ (l : List J) (x : J), x ∈ dedupJ l → x ∈ l
  | [], x, h => by rw [dedupJ] at h; cases h
  | y :: rest, x, h => by
      rw [dedupJ] at h
      rcases List.mem_cons.mp h with h1 | h1
      · rw [h1]; exact List.mem_cons_self _ _
      · have := dedup_sub (rest.filter (fun z => ¬ jeq z y)) x h1
        exact List.mem_cons_of_mem _ (List.mem_of_mem_filter this)
termination_by l _ => l.length
decreasing_by
  simp only [List.length_cons]
  exact Nat.lt_succ_of_le (List.length_filter_le _ _)

theorem dedup_pairwise : ∀ l : List J, (dedupJ l).Pairwise (fun a b => jeq b a = false)
  | [] => by rw [dedupJ]; exact List.Pairwise.nil
  | y :: rest => by
      rw [dedupJ]
      refine List.Pairwise.cons ?_ (dedup_pairwise (rest.filter (fun z => ¬ jeq z y)))
      intro z hz
      have hzf := dedup_sub _ z hz
      have := List.mem_filter.mp hzf
      simpa using this.2
termination_by l => l.length
decreasing_by
  simp only [List.length_cons]
  exact Nat.lt_succ_of_le (List.length_filter_le _ _)

end FoldLemmas

section CastStepLemmas

theorem castReqStep_pres_ne (tps : List (Str × J)) (bp : Str)
    (acc : List (Str × J) × List Str × List Str) (p q : Str) (hq : q ≠ p) :
    jGet ((castReqStep tps bp acc (.str q)).1) p = jGet acc.1 p := by
  unfold castReqStep
  dsimp only []
  have hkey : jToStr (.str q) = q := rfl
  rw [hkey]
  split_ifs with h1
  · rfl
  · cases hg : jGet tps q with
    | none => rfl
    | some ps =>
        dsimp only []
        split_ifs with h2
        · cases hd : getJv ps (cs "default") with
          | none => rfl
          | some d => exact jGet_setKey_ne acc.1 q p _ (fun he => hq he.symm)
        · rfl

theorem castReqStep_reasons_mono (tps : List (Str × J)) (bp : Str)
    (acc : List (Str × J) × List Str × List Str) (x : J) :
    ∃ t, (castReqStep tps bp acc x).2.2 = acc.2.2 ++ t := by
  unfold castReqStep
  dsimp only []
  split_ifs with h1
  · exact ⟨[], by simp⟩
  · cases hg : jGet tps (jToStr x) with
    | none => exact ⟨_, rfl⟩
    | some ps =>
        dsimp only []
        split_ifs with h2
        · cases hd : getJv ps (cs "default") with
          | none => exact ⟨_, rfl⟩
          | some d => exact ⟨[], by simp⟩
        · exact ⟨_, rfl⟩

theorem castReqStep_added_mono (tps : List (Str × J)) (bp : Str)
    (acc : List (Str × J) × List Str × List Str) (x : J) :
    ∃ t, (castReqStep tps bp acc x).2.1 = acc.2.1 ++ t := by
  unfold castReqStep
  dsimp only []
  split_ifs with h1
  · exact ⟨[], by simp⟩
  · cases hg : jGet tps (jToStr x) with
    | none => exact ⟨[], by simp⟩
    | some ps =>
        dsimp only []
        split_ifs with h2
        · cases hd : getJv ps (cs "default") with
          | none => exact ⟨[], by simp⟩
          | some d => exact ⟨_, rfl⟩
        · exact ⟨[], by simp⟩

theorem castReqStep_hit_default (tps : List (Str × J)) (bp : Str)
    (acc : List (Str × J) × List Str × List Str) (p : Str) (ps d : J)
    (hacc : jGet acc.1 p = none) (htp : jGet tps p = some ps)
    (htru : jTruthy ps = true) (hd : getJv ps (cs "default") = some d) :
    castReqStep tps bp acc (.str p) =
      (setKey acc.1 p d, acc.2.1 ++ [buildPath bp p], acc.2.2) := by
  unfold castReqStep
  dsimp only []
  have hkey : jToStr (.str p) = p := rfl
  rw [hkey, hacc]
  rw [if_neg (by simp)]
  rw [htp]
  dsimp only []
  rw [if_pos htru, hd]
  rfl

theorem castReqStep_hit_nodefault (tps : List (Str × J)) (bp : Str)
    (acc : List (Str × J) × List Str × List Str) (p : Str) (ps : J)
    (hacc : jGet acc.1 p = none) (htp : jGet tps p = some ps)
    (htru : jTruthy ps = true) (hd : getJv ps (cs "default") = none) :
    castReqStep tps bp acc (.str p) =
      (acc.1, acc.2.1, acc.2.2 ++ [cs "Missing required property " ++ qs ++ buildPath bp p ++ qs ++
        cs " and no default is defined"]) := by
  unfold castReqStep
  dsimp only []
  have hkey : jToStr (.str p) = p := rfl
  rw [hkey, hacc]
  rw [if_neg (by simp)]
  rw [htp]
  dsimp only []
  rw [if_pos htru, hd]

theorem castOptStep_pres (req : List J) (bp : Str)
    (acc : List (Str × J) × List Str) (e : Str × J) (p : Str)
    (hsome : (jGet acc.1 p).isSome = true) :
    jGet ((castOptStep req bp acc e).1) p = jGet acc.1 p := by
  unfold castOptStep
  dsimp only []
  split_ifs with h1 h2
  · rfl
  · rfl
  · cases hd : getJv e.2 (cs "default") with
    | none => rfl
    | some d =>
        dsimp only []
        by_cases he : e.1 = p
        · exfalso
          apply h2
          rw [he]
          rw [Option.isSome_iff_exists] at hsome
          obtain ⟨v, hv⟩ := hsome
          rw [hv]
          rfl
        · exact jGet_setKey_ne acc.1 e.1 p _ (fun hx => he hx.symm)

theorem castOptStep_added_mono (req : List J) (bp : Str)
    (acc : List (Str × J) × List Str) (e : Str × J) :
    ∃ t, (castOptStep req bp acc e).2 = acc.2 ++ t := by
  unfold castOptStep
  dsimp only []
  split_ifs with h1 h2
  · exact ⟨[], by simp⟩
  · exact ⟨[], by simp⟩
  · cases hd : getJv e.2 (cs "default") with
    | none => exact ⟨[], by simp⟩
    | some d => exact ⟨_, rfl⟩

theorem castConstStep_pres (tps : List (Str × J)) (acc : List (Str × J))
    (e : Str × J) (p : Str) (ps : J)
    (he : e ∈ tps) (hnd : nodupKeys tps = true)
    (htp : jGet tps p = some ps) (hconst : getJv ps (cs "const") = none) :
    jGet (castConstStep acc e) p = jGet acc p := by
  unfold castConstStep
  by_cases hep : e.1 = p
  · have hv : e.2 = ps := by
      have := mem_nodup_lookup tps e.1 e.2 hnd (by
        have : e = (e.1, e.2) := rfl
        rw [← this]; exact he)
      rw [hep, htp] at this
      exact (Option.some.inj this).symm
    rw [hv, hconst]
  · cases hc : getJv e.2 (cs "const") with
    | none => rfl
    | some cv =>
        cases cv with
        | str constVal =>
            dsimp only []
            cases hg : jGet acc e.1 with
            | none => rfl
            | some ev =>
                cases ev with
                | str existingVal =>
                    dsimp only []
                    split_ifs with h1 h2
                    · exact jGet_setKey_ne acc e.1 p _ (fun hx => hep hx.symm)
                    · rfl
                    · rfl
                | null => rfl
                | bool b => rfl
                | num n => rfl
                | arr xs => rfl
                | obj kvs => rfl
        | null => rfl
        | bool b => rfl
        | num n => rfl
        | arr xs => rfl
        | obj kvs => rfl

end CastStepLemmas

section CastStep34Lemmas

theorem castDropStep_pres (tps : List (Str × J)) (bp : Str)
    (acc : List (Str × J) × List Str) (prop p : Str)
    (hps : (jGet tps p).isSome = true) :
    jGet ((castDropStep tps bp acc prop).1) p = jGet acc.1 p := by
  unfold castDropStep
  split_ifs with h1
  · rfl
  · by_cases he : prop = p
    · exfalso
      rw [he] at h1
      exact h1 hps
    · exact jGet_delKey_ne acc.1 prop p (fun hx => he hx.symm)

theorem castRecStep_pres (fuel : Nat) (bp : Str) (tps : List (Str × J))
    (acc : List (Str × J) × List Str × List Str × List Str) (e : Str × J) (p : Str) (ps : J)
    (he : e ∈ tps) (hnd : nodupKeys tps = true)
    (htp : jGet tps p = some ps)
    (hto : typeIs (getJv ps (cs "type")) "object" = false)
    (hta : typeIs (getJv ps (cs "type")) "array" = false) :
    jGet ((castRecStep fuel bp acc e).1) p = jGet acc.1 p := by
  unfold castRecStep
  dsimp only []
  by_cases hep : e.1 = p
  · have hv : e.2 = ps := by
      have hlk := mem_nodup_lookup tps e.1 e.2 hnd (by
        have hpair : e = (e.1, e.2) := rfl
        rw [← hpair]; exact he)
      rw [hep, htp] at hlk
      exact (Option.some.inj hlk).symm
    cases hg : jGet acc.1 e.1 with
    | none => rfl
    | some val =>
        dsimp only []
        rw [hv, hto, hta]
        simp
  · have hne : e.1 ≠ p := hep
    have hsetne : ∀ (l : List (Str × J)) (w : J), jGet (setKey l e.1 w) p = jGet l p :=
      fun l w => jGet_setKey_ne l e.1 p w (fun hx => hne hx.symm)
    cases hg : jGet acc.1 e.1 with
    | none => rfl
    | some val =>
        dsimp only []
        by_cases h1 : typeIs (getJv e.2 (cs "type")) "object" = true
        · rw [if_pos h1]
          by_cases h2 : typeIs (getJv e.2 (cs "type")) "array" = true
          · rw [if_pos h2]
            cases val with
            | obj okvs =>
                dsimp only []
                rw [jGet_setKey_self]
                cases hW : (castInstanceToSchema fuel (J.obj okvs) (effectiveObjectSchema e.2) (buildPath bp e.1)).casted with
                | arr items =>
                    dsimp only []
                    cases hg3 : getJv e.2 (cs "items") with
                    | none => exact hsetne acc.1 _
                    | some itemsSchema =>
                        dsimp only []
                        split_ifs with h3
                        · rw [hsetne, hsetne]
                        · exact hsetne acc.1 _
                | null => exact hsetne acc.1 _
                | bool b => exact hsetne acc.1 _
                | num n => exact hsetne acc.1 _
                | str s2 => exact hsetne acc.1 _
                | obj okvs2 => exact hsetne acc.1 _
            | arr items =>
                dsimp only []
                rw [hg]
                cases hg3 : getJv e.2 (cs "items") with
                | none => rfl
                | some itemsSchema =>
                    dsimp only []
                    split_ifs with h3
                    · exact hsetne acc.1 _
                    · rfl
            | null => dsimp only []; rw [hg]
            | bool b => dsimp only []; rw [hg]
            | num n => dsimp only []; rw [hg]
            | str s2 => dsimp only []; rw [hg]
          · rw [if_neg h2]
            cases val with
            | obj okvs => exact hsetne acc.1 _
            | arr items => rfl
            | null => rfl
            | bool b => rfl
            | num n => rfl
            | str s2 => rfl
        · rw [if_neg h1]
          by_cases h2 : typeIs (getJv e.2 (cs "type")) "array" = true
          · rw [if_pos h2]
            rw [hg]
            cases val with
            | arr items =>
                dsimp only []
                cases hg3 : getJv e.2 (cs "items") with
                | none => rfl
                | some itemsSchema =>
                    dsimp only []
                    split_ifs with h3
                    · exact hsetne acc.1 _
                    · rfl
            | obj okvs => rfl
            | null => rfl
            | bool b => rfl
            | num n => rfl
            | str s2 => rfl
          · rw [if_neg h2]

end CastStep34Lemmas

theorem castRecStep_mono (fuel : Nat) (bp : Str)
    (acc : List (Str × J) × List Str × List Str × List Str) (e : Str × J) :
    (∃ t, (castRecStep fuel bp acc e).2.1 = acc.2.1 ++ t) ∧
    (∃ t, (castRecStep fuel bp acc e).2.2.2 = acc.2.2.2 ++ t) := by
  unfold castRecStep
  dsimp only []
  cases hg : jGet acc.1 e.1 with
  | none => exact ⟨⟨[], by simp⟩, ⟨[], by simp⟩⟩
  | some val =>
      dsimp only []
      by_cases h1 : typeIs (getJv e.2 (cs "type")) "object" = true
      · rw [if_pos h1]
        by_cases h2 : typeIs (getJv e.2 (cs "type")) "array" = true
        · rw [if_pos h2]
          cases val with
          | obj okvs =>
              dsimp only []
              rw [jGet_setKey_self]
              cases hW : (castInstanceToSchema fuel (J.obj okvs) (effectiveObjectSchema e.2) (buildPath bp e.1)).casted with
              | arr items =>
                  dsimp only []
                  cases hg3 : getJv e.2 (cs "items") with
                  | none => exact ⟨⟨_, rfl⟩, ⟨_, rfl⟩⟩
                  | some itemsSchema =>
                      dsimp only []
                      split_ifs with h3
                      · exact ⟨⟨_, by dsimp only []; rw [List.append_assoc]⟩, ⟨_, by dsimp only []; rw [List.append_assoc]⟩⟩
                      · exact ⟨⟨_, rfl⟩, ⟨_, rfl⟩⟩
              | null => exact ⟨⟨_, rfl⟩, ⟨_, rfl⟩⟩
              | bool b => exact ⟨⟨_, rfl⟩, ⟨_, rfl⟩⟩
              | num n => exact ⟨⟨_, rfl⟩, ⟨_, rfl⟩⟩
              | str s2 => exact ⟨⟨_, rfl⟩, ⟨_, rfl⟩⟩
              | obj okvs2 => exact ⟨⟨_, rfl⟩, ⟨_, rfl⟩⟩
          | arr items =>
              dsimp only []
              rw [hg]
              cases hg3 : getJv e.2 (cs "items") with
              | none => exact ⟨⟨[], by simp⟩, ⟨[], by simp⟩⟩
              | some itemsSchema =>
                  dsimp only []
                  split_ifs with h3
                  · exact ⟨⟨_, rfl⟩, ⟨_, rfl⟩⟩
                  · exact ⟨⟨[], by simp⟩, ⟨[], by simp⟩⟩
          | null => dsimp only []; rw [hg]; exact ⟨⟨[], by simp⟩, ⟨[], by simp⟩⟩
          | bool b => dsimp only []; rw [hg]; exact ⟨⟨[], by simp⟩, ⟨[], by simp⟩⟩
          | num n => dsimp only []; rw [hg]; exact ⟨⟨[], by simp⟩, ⟨[], by simp⟩⟩
          | str s2 => dsimp only []; rw [hg]; exact ⟨⟨[], by simp⟩, ⟨[], by simp⟩⟩
        · rw [if_neg h2]
          cases val with
          | obj okvs => exact ⟨⟨_, rfl⟩, ⟨_, rfl⟩⟩
          | arr items => exact ⟨⟨[], by simp⟩, ⟨[], by simp⟩⟩
          | null => exact ⟨⟨[], by simp⟩, ⟨[], by simp⟩⟩
          | bool b => exact ⟨⟨[], by simp⟩, ⟨[], by simp⟩⟩
          | num n => exact ⟨⟨[], by simp⟩, ⟨[], by simp⟩⟩
          | str s2 => exact ⟨⟨[], by simp⟩, ⟨[], by simp⟩⟩
      · rw [if_neg h1]
        by_cases h2 : typeIs (getJv e.2 (cs "type")) "array" = true
        · rw [if_pos h2]
          rw [hg]
          cases val with
          | arr items =>
              dsimp only []
              cases hg3 : getJv e.2 (cs "items") with
              | none => exact ⟨⟨[], by simp⟩, ⟨[], by simp⟩⟩
              | some itemsSchema =>
                  dsimp only []
                  split_ifs with h3
                  · exact ⟨⟨_, rfl⟩, ⟨_, rfl⟩⟩
                  · exact ⟨⟨[], by simp⟩, ⟨[], by simp⟩⟩
          | obj okvs => exact ⟨⟨[], by simp⟩, ⟨[], by simp⟩⟩
          | null => exact ⟨⟨[], by simp⟩, ⟨[], by simp⟩⟩
          | bool b => exact ⟨⟨[], by simp⟩, ⟨[], by simp⟩⟩
          | num n => exact ⟨⟨[], by simp⟩, ⟨[], by simp⟩⟩
          | str s2 => exact ⟨⟨[], by simp⟩, ⟨[], by simp⟩⟩
        · rw [if_neg h2]
          exact ⟨⟨[], by simp⟩, ⟨[], by simp⟩⟩

theorem cast_split (fuel : Nat) (ikvs : List (Str × J)) (schema : J) (bp : Str)
    (tps : List (Str × J)) (reqs : List J)
    (hprops : getJv schema (cs "properties") = some (.obj tps))
    (hreq : getJv schema (cs "required") = some (.arr reqs)) :
    ∃ addl : Bool,
      castInstanceToSchema (fuel + 1) (.obj ikvs) schema bp =
        (let s1 := (dedupJ reqs).foldl (castReqStep tps bp) (ikvs, [], []);
         let s2 := tps.foldl (castOptStep reqs bp) (s1.1, s1.2.1);
         let result25 := tps.foldl castConstStep s2.1;
         let s3 := if ¬ addl then (result25.map Prod.fst).foldl (castDropStep tps bp) (result25, []) else (result25, []);
         let s4 := tps.foldl (castRecStep fuel bp) (s3.1, s2.2, s3.2, s1.2.2);
         ⟨.obj s4.1, s4.2.1, s4.2.2.1, s4.2.2.2⟩) := by
  refine ⟨(match getJv schema (cs "additionalProperties") with
    | some (.bool false) => false
    | _ => true), ?_⟩
  unfold castInstanceToSchema
  dsimp only []
  rw [hprops, hreq]

/-- C4: in `GtsStore.castInstanceToSchema`, a required target property
missing from the instance is filled with a copy of the target property
default and recorded as an addition at its path; when the target property
declares no default, the cast instead records the
missing-required-no-default incompatibility reason. -/
theorem c4_cast_required_defaults
    (fuel : Nat) (ikvs : List (Str × J)) (schema : J) (bp : Str)
    (tps : List (Str × J)) (reqs : List J) (p : Str) (ps : J)
    (hprops : getJv schema (cs "properties") = some (.obj tps))
    (hreq : getJv schema (cs "required") = some (.arr reqs))
    (hstr : ∀ x ∈ reqs, ∃ q : Str, x = .str q)
    (hp : (.str p) ∈ reqs)
    (hmissing : jGet ikvs p = none)
    (htp : jGet tps p = some ps)
    (htru : jTruthy ps = true)
    (hnd : nodupKeys tps = true) :
    (∀ d : J, getJv ps (cs "default") = some d →
        getJv ps (cs "const") = none →
        typeIs (getJv ps (cs "type")) "object" = false →
        typeIs (getJv ps (cs "type")) "array" = false →
        getJv (castInstanceToSchema (fuel + 1) (.obj ikvs) schema bp).casted p = some d ∧
        buildPath bp p ∈ (castInstanceToSchema (fuel + 1) (.obj ikvs) schema bp).added) ∧
    (getJv ps (cs "default") = none →
        (cs "Missing required property " ++ qs ++ buildPath bp p ++ qs ++
          cs " and no default is defined") ∈
          (castInstanceToSchema (fuel + 1) (.obj ikvs) schema bp).incompatibilityReasons) := by
  obtain ⟨addl, hsplit⟩ := cast_split fuel ikvs schema bp tps reqs hprops hreq
  -- decompose the deduplicated required list around the missing property
  have hmemD : (.str p) ∈ dedupJ reqs := by
    rw [← jmem_iff, jmem_dedupJ, jmem_iff]
    exact hp
  obtain ⟨L1, L2, hdec⟩ := List.append_of_mem hmemD
  have hpw := dedup_pairwise reqs
  rw [hdec, List.pairwise_append] at hpw
  have hL1 : ∀ x ∈ L1, ∃ q : Str, x = .str q ∧ q ≠ p := by
    intro x hx
    have hxr : x ∈ reqs := dedup_sub reqs x (by rw [hdec]; exact List.mem_append_left _ hx)
    obtain ⟨q, hq⟩ := hstr x hxr
    refine ⟨q, hq, ?_⟩
    intro hqp
    have hR := hpw.2.2 x hx (.str p) (List.mem_cons_self _ _)
    rw [hq, hqp, jeq_refl] at hR
    exact Bool.noConfusion hR
  have hL2 : ∀ x ∈ L2, ∃ q : Str, x = .str q ∧ q ≠ p := by
    intro x hx
    have hxr : x ∈ reqs := dedup_sub reqs x (by
      rw [hdec]
      exact List.mem_append_right _ (List.mem_cons_of_mem _ hx))
    obtain ⟨q, hq⟩ := hstr x hxr
    refine ⟨q, hq, ?_⟩
    intro hqp
    have hR := (List.pairwise_cons.mp hpw.2.1).1 x hx
    rw [hq, hqp, jeq_refl] at hR
    exact Bool.noConfusion hR
  have hA1 : jGet (List.foldl (castReqStep tps bp) (ikvs, ([] : List Str), ([] : List Str)) L1).1 p = none :=
    foldl_pres (castReqStep tps bp) (fun a => jGet a.1 p = none) L1
      (fun a x hx hPa => by
        show jGet (castReqStep tps bp a x).1 p = none
        obtain ⟨q, hq, hqp⟩ := hL1 x hx
        rw [hq, castReqStep_pres_ne tps bp a p q hqp]
        exact hPa) _ hmissing
  constructor
  · -- default present: value filled and addition recorded
    intro d hd hconst hto hta
    have hS1val : jGet ((dedupJ reqs).foldl (castReqStep tps bp) (ikvs, [], [])).1 p = some d := by
      rw [hdec, List.foldl_append, List.foldl_cons]
      rw [castReqStep_hit_default tps bp _ p ps d hA1 htp htru hd]
      exact foldl_pres (castReqStep tps bp) (fun a => jGet a.1 p = some d) L2
        (fun a x hx hPa => by
          show jGet (castReqStep tps bp a x).1 p = some d
          obtain ⟨q, hq, hqp⟩ := hL2 x hx
          rw [hq, castReqStep_pres_ne tps bp a p q hqp]
          exact hPa) _ (by dsimp only []; exact jGet_setKey_self _ p d)
    have hS1add : buildPath bp p ∈ ((dedupJ reqs).foldl (castReqStep tps bp) (ikvs, [], [])).2.1 := by
      rw [hdec, List.foldl_append, List.foldl_cons]
      rw [castReqStep_hit_default tps bp _ p ps d hA1 htp htru hd]
      obtain ⟨t, ht⟩ := foldl_mono (castReqStep tps bp) (fun a => a.2.1) L2
        (fun a x _ => castReqStep_added_mono tps bp a x) _
      rw [ht]
      dsimp only []
      exact List.mem_append_left _ (List.mem_append_right _ (List.mem_singleton.mpr rfl))
    have hS2val : jGet (tps.foldl (castOptStep reqs bp)
        (((dedupJ reqs).foldl (castReqStep tps bp) (ikvs, [], [])).1,
         ((dedupJ reqs).foldl (castReqStep tps bp) (ikvs, [], [])).2.1)).1 p = some d :=
      foldl_pres (castOptStep reqs bp) (fun a => jGet a.1 p = some d) tps
        (fun a x _ hPa => by
          show jGet (castOptStep reqs bp a x).1 p = some d
          rw [castOptStep_pres reqs bp a x p (by rw [show jGet a.1 p = some d from hPa]; rfl)]
          exact hPa) _ hS1val
    have hS2add : buildPath bp p ∈ (tps.foldl (castOptStep reqs bp)
        (((dedupJ reqs).foldl (castReqStep tps bp) (ikvs, [], [])).1,
         ((dedupJ reqs).foldl (castReqStep tps bp) (ikvs, [], [])).2.1)).2 := by
      obtain ⟨t, ht⟩ := foldl_mono (castOptStep reqs bp) (fun a => a.2) tps
        (fun a x _ => castOptStep_added_mono reqs bp a x) _
      rw [ht]
      exact List.mem_append_left _ hS1add
    have hR25val : jGet (tps.foldl castConstStep (tps.foldl (castOptStep reqs bp)
        (((dedupJ reqs).foldl (castReqStep tps bp) (ikvs, [], [])).1,
         ((dedupJ reqs).foldl (castReqStep tps bp) (ikvs, [], [])).2.1)).1) p = some d :=
      foldl_pres castConstStep (fun a => jGet a p = some d) tps
        (fun a x hx hPa => by
          show jGet (castConstStep a x) p = some d
          rw [castConstStep_pres tps a x p ps hx hnd htp hconst]
          exact hPa) _ hS2val
    rw [hsplit]
    dsimp only []
    constructor
    · -- the casted value carries the default
      apply foldl_pres (castRecStep fuel bp) (fun a => jGet a.1 p = some d) tps
        (fun a x hx hPa => by
          show jGet ((castRecStep fuel bp a x)).1 p = some d
          rw [castRecStep_pres fuel bp tps a x p ps hx hnd htp hto hta]
          exact hPa)
      dsimp only []
      cases addl with
      | true =>
          rw [if_neg (by simp)]
          exact hR25val
      | false =>
          rw [if_pos (by simp)]
          apply foldl_pres (castDropStep tps bp) (fun a => jGet a.1 p = some d) _
            (fun a x _ hPa => by
              show jGet ((castDropStep tps bp a x)).1 p = some d
              rw [castDropStep_pres tps bp a x p (by rw [htp]; rfl)]
              exact hPa)
          exact hR25val
    · -- the addition is recorded
      obtain ⟨t, ht⟩ := foldl_mono (castRecStep fuel bp) (fun a => a.2.1) tps
        (fun a x _ => (castRecStep_mono fuel bp a x).1) _
      rw [ht]
      dsimp only []
      exact List.mem_append_left _ hS2add
  · -- no default: incompatibility reason recorded
    intro hd
    have hS1r : (cs "Missing required property " ++ qs ++ buildPath bp p ++ qs ++
        cs " and no default is defined") ∈
        ((dedupJ reqs).foldl (castReqStep tps bp) (ikvs, [], [])).2.2 := by
      rw [hdec, List.foldl_append, List.foldl_cons]
      rw [castReqStep_hit_nodefault tps bp _ p ps hA1 htp htru hd]
      obtain ⟨t, ht⟩ := foldl_mono (castReqStep tps bp) (fun a => a.2.2) L2
        (fun a x _ => castReqStep_reasons_mono tps bp a x) _
      rw [ht]
      dsimp only []
      exact List.mem_append_left _ (List.mem_append_right _ (List.mem_singleton.mpr rfl))
    rw [hsplit]
    dsimp only []
    obtain ⟨t, ht⟩ := foldl_mono (castRecStep fuel bp) (fun a => a.2.2.2) tps
      (fun a x _ => (castRecStep_mono fuel bp a x).2) _
    rw [ht]
    exact List.mem_append_left _ hS1r

/-- C4 witness: a concrete instance missing the required `email` property
whose target schema declares a default; the cast fills the default and
records the addition. -/
theorem c4_cast_required_defaults_witness :
    (jGet [(cs "name", J.str (cs "Bob"))] (cs "email") = none ∧
     jGet [(cs "name", J.obj [(cs "type", J.str (cs "string"))]), (cs "email", (J.obj [(cs "type", J.str (cs "string")), (cs "default", J.str (cs "x"))]))] (cs "email") = some (J.obj [(cs "type", J.str (cs "string")), (cs "default", J.str (cs "x"))]) ∧
     jTruthy (J.obj [(cs "type", J.str (cs "string")), (cs "default", J.str (cs "x"))]) = true ∧
     nodupKeys [(cs "name", J.obj [(cs "type", J.str (cs "string"))]), (cs "email", (J.obj [(cs "type", J.str (cs "string")), (cs "default", J.str (cs "x"))]))] = true ∧
     getJv (J.obj [(cs "type", J.str (cs "string")), (cs "default", J.str (cs "x"))]) (cs "default") = some (J.str (cs "x"))) ∧
    (getJv (castInstanceToSchema 1 (.obj [(cs "name", J.str (cs "Bob"))]) (J.obj [(cs "properties", J.obj [(cs "name", J.obj [(cs "type", J.str (cs "string"))]), (cs "email", (J.obj [(cs "type", J.str (cs "string")), (cs "default", J.str (cs "x"))]))]), (cs "required", J.arr [J.str (cs "name"), J.str (cs "email")])]) []).casted (cs "email") = some (J.str (cs "x")) ∧
     buildPath [] (cs "email") ∈ (castInstanceToSchema 1 (.obj [(cs "name", J.str (cs "Bob"))]) (J.obj [(cs "properties", J.obj [(cs "name", J.obj [(cs "type", J.str (cs "string"))]), (cs "email", (J.obj [(cs "type", J.str (cs "string")), (cs "default", J.str (cs "x"))]))]), (cs "required", J.arr [J.str (cs "name"), J.str (cs "email")])]) []).added) :=
  ⟨⟨rfl, rfl, rfl, by decide, rfl⟩,
    (c4_cast_required_defaults 0 [(cs "name", J.str (cs "Bob"))] (J.obj [(cs "properties", J.obj [(cs "name", J.obj [(cs "type", J.str (cs "string"))]), (cs "email", (J.obj [(cs "type", J.str (cs "string")), (cs "default", J.str (cs "x"))]))]), (cs "required", J.arr [J.str (cs "name"), J.str (cs "email")])]) [] [(cs "name", J.obj [(cs "type", J.str (cs "string"))]), (cs "email", (J.obj [(cs "type", J.str (cs "string")), (cs "default", J.str (cs "x"))]))] [J.str (cs "name"), J.str (cs "email")] (cs "email") (J.obj [(cs "type", J.str (cs "string")), (cs "default", J.str (cs "x"))])
      rfl rfl
      (fun x hx => by
        rcases List.mem_cons.mp hx with h | h
        · exact ⟨cs "name", h⟩
        · exact ⟨cs "email", by simpa using h⟩)
      (List.mem_cons_of_mem _ (List.mem_cons_self _ _))
      rfl rfl rfl (by decide)).1 (J.str (cs "x")) rfl rfl rfl rfl⟩

section OneOfLemmas

theorem visit_oneof_reduce (st : GtsStore) (fuel : Nat) (inst : J) (path : Str)
    (rootSchema : J) (branches : List J)
    (hne : branches ≠ [])
    (hall : ∀ b ∈ branches, containsXGtsRef b = true) :
    visitInstance st (fuel + 1) inst (.obj [(cs "oneOf", J.arr branches)]) path rootSchema =
      (if ((branches.map (fun sub => visitInstance st fuel inst sub path rootSchema)).filter
            (fun errs => errs.isEmpty)).length = 0 then
        (branches.map (fun sub => visitInstance st fuel inst sub path rootSchema)).flatten
      else if ((branches.map (fun sub => visitInstance st fuel inst sub path rootSchema)).filter
            (fun errs => errs.isEmpty)).length > 1 then
        [⟨(if path = [] then cs "/" else path), inst, [],
          cs "Value matches " ++
            cs (toString ((branches.map (fun sub => visitInstance st fuel inst sub path rootSchema)).filter
              (fun errs => errs.isEmpty)).length) ++
            cs " oneOf branches but must match exactly one"⟩]
      else []) := by
  have hstep : visitInstance st (fuel + 1) inst (.obj [(cs "oneOf", J.arr branches)]) path rootSchema =
      (if ¬ (branches.filter containsXGtsRef).isEmpty ∧
          (branches.filter containsXGtsRef).length = branches.length then
        (if (((branches.filter containsXGtsRef).map
              (fun sub => visitInstance st fuel inst sub path rootSchema)).filter
            (fun errs => errs.isEmpty)).length = 0 then
          ((branches.filter containsXGtsRef).map
            (fun sub => visitInstance st fuel inst sub path rootSchema)).flatten
        else if (((branches.filter containsXGtsRef).map
              (fun sub => visitInstance st fuel inst sub path rootSchema)).filter
            (fun errs => errs.isEmpty)).length > 1 then
          [⟨(if path = [] then cs "/" else path), inst, [],
            cs "Value matches " ++
              cs (toString (((branches.filter containsXGtsRef).map
                (fun sub => visitInstance st fuel inst sub path rootSchema)).filter
                (fun errs => errs.isEmpty)).length) ++
              cs " oneOf branches but must match exactly one"⟩]
        else [])
      else []) := rfl
  rw [hstep, List.filter_eq_self.mpr hall]
  rw [if_pos ⟨fun h => hne (List.isEmpty_iff.mp h), rfl⟩]

end OneOfLemmas

/-- C7: against a schema whose `oneOf` branches all carry `x-gts-ref`,
`visitInstance` requires exactly one passing branch: one pass validates
cleanly, zero passes report the union (flatten) of all branch errors, and
two or more passes produce a single distinguished error whose message
contains `oneOf`. -/
theorem c7_oneof_exactly_one (st : GtsStore) (fuel : Nat) (inst : J) (path : Str)
    (rootSchema : J) (branches : List J)
    (hne : branches ≠ [])
    (hall : ∀ b ∈ branches, containsXGtsRef b = true) :
    (((branches.map (fun sub => visitInstance st fuel inst sub path rootSchema)).filter
        (fun errs => errs.isEmpty)).length = 1 →
      visitInstance st (fuel + 1) inst (.obj [(cs "oneOf", J.arr branches)]) path rootSchema = []) ∧
    (((branches.map (fun sub => visitInstance st fuel inst sub path rootSchema)).filter
        (fun errs => errs.isEmpty)).length = 0 →
      visitInstance st (fuel + 1) inst (.obj [(cs "oneOf", J.arr branches)]) path rootSchema =
        (branches.map (fun sub => visitInstance st fuel inst sub path rootSchema)).flatten) ∧
    (2 ≤ ((branches.map (fun sub => visitInstance st fuel inst sub path rootSchema)).filter
        (fun errs => errs.isEmpty)).length →
      ∃ e : XErr,
        visitInstance st (fuel + 1) inst (.obj [(cs "oneOf", J.arr branches)]) path rootSchema = [e] ∧
        hasSub (cs "oneOf") e.reason = true) := by
  rw [visit_oneof_reduce st fuel inst path rootSchema branches hne hall]
  refine ⟨?_, ?_, ?_⟩
  · intro h1
    rw [if_neg (by omega), if_neg (by omega)]
  · intro h0
    rw [if_pos h0]
  · intro h2
    rw [if_neg (by omega), if_pos (by omega)]
    refine ⟨_, rfl, ?_⟩
    rw [hasSub_infix_iff]
    have hsub : cs "oneOf" <:+: cs " oneOf branches but must match exactly one" := by
      rw [← hasSub_infix_iff]
      decide
    exact hsub.trans ⟨cs "Value matches " ++
      cs (toString ((List.map (fun sub => visitInstance st fuel inst sub path rootSchema) branches).filter
        (fun errs => errs.isEmpty)).length), [], by simp⟩

/-- C7 witness: the spec example with two overlapping `x-gts-ref` `oneOf`
branches; the hypotheses hold by evaluation and the theorem applies. -/
theorem c7_oneof_exactly_one_witness :
    (([(J.obj [(cs "x-gts-ref", J.str (cs "gts.test.pkg.ns.*"))]), (J.obj [(cs "x-gts-ref", J.str (cs "gts.test.pkg.ns.target_a.*"))])] : List J) ≠ [] ∧
     containsXGtsRef (J.obj [(cs "x-gts-ref", J.str (cs "gts.test.pkg.ns.*"))]) = true ∧
     containsXGtsRef (J.obj [(cs "x-gts-ref", J.str (cs "gts.test.pkg.ns.target_a.*"))]) = true) ∧
    (((([(J.obj [(cs "x-gts-ref", J.str (cs "gts.test.pkg.ns.*"))]), (J.obj [(cs "x-gts-ref", J.str (cs "gts.test.pkg.ns.target_a.*"))])] : List J).map
        (fun sub => visitInstance (GtsStore.mk [] (GtsConfig.mk false false)) 0 (J.str (cs "gts.test.pkg.ns.target_a.v1~")) sub [] (J.obj []))).filter
        (fun errs => errs.isEmpty)).length = 1 →
      visitInstance (GtsStore.mk [] (GtsConfig.mk false false)) 1 (J.str (cs "gts.test.pkg.ns.target_a.v1~")) (.obj [(cs "oneOf", J.arr [(J.obj [(cs "x-gts-ref", J.str (cs "gts.test.pkg.ns.*"))]), (J.obj [(cs "x-gts-ref", J.str (cs "gts.test.pkg.ns.target_a.*"))])])]) [] (J.obj []) = []) ∧
    (((([(J.obj [(cs "x-gts-ref", J.str (cs "gts.test.pkg.ns.*"))]), (J.obj [(cs "x-gts-ref", J.str (cs "gts.test.pkg.ns.target_a.*"))])] : List J).map
        (fun sub => visitInstance (GtsStore.mk [] (GtsConfig.mk false false)) 0 (J.str (cs "gts.test.pkg.ns.target_a.v1~")) sub [] (J.obj []))).filter
        (fun errs => errs.isEmpty)).length = 0 →
      visitInstance (GtsStore.mk [] (GtsConfig.mk false false)) 1 (J.str (cs "gts.test.pkg.ns.target_a.v1~")) (.obj [(cs "oneOf", J.arr [(J.obj [(cs "x-gts-ref", J.str (cs "gts.test.pkg.ns.*"))]), (J.obj [(cs "x-gts-ref", J.str (cs "gts.test.pkg.ns.target_a.*"))])])]) [] (J.obj []) =
        (([(J.obj [(cs "x-gts-ref", J.str (cs "gts.test.pkg.ns.*"))]), (J.obj [(cs "x-gts-ref", J.str (cs "gts.test.pkg.ns.target_a.*"))])] : List J).map
          (fun sub => visitInstance (GtsStore.mk [] (GtsConfig.mk false false)) 0 (J.str (cs "gts.test.pkg.ns.target_a.v1~")) sub [] (J.obj []))).flatten) ∧
    (2 ≤ ((([(J.obj [(cs "x-gts-ref", J.str (cs "gts.test.pkg.ns.*"))]), (J.obj [(cs "x-gts-ref", J.str (cs "gts.test.pkg.ns.target_a.*"))])] : List J).map
        (fun sub => visitInstance (GtsStore.mk [] (GtsConfig.mk false false)) 0 (J.str (cs "gts.test.pkg.ns.target_a.v1~")) sub [] (J.obj []))).filter
        (fun errs => errs.isEmpty)).length →
      ∃ e : XErr,
        visitInstance (GtsStore.mk [] (GtsConfig.mk false false)) 1 (J.str (cs "gts.test.pkg.ns.target_a.v1~")) (.obj [(cs "oneOf", J.arr [(J.obj [(cs "x-gts-ref", J.str (cs "gts.test.pkg.ns.*"))]), (J.obj [(cs "x-gts-ref", J.str (cs "gts.test.pkg.ns.target_a.*"))])])]) [] (J.obj []) = [e] ∧
        hasSub (cs "oneOf") e.reason = true) :=
  ⟨⟨List.cons_ne_nil _ _, rfl, rfl⟩,
    c7_oneof_exactly_one (GtsStore.mk [] (GtsConfig.mk false false)) 0 (J.str (cs "gts.test.pkg.ns.target_a.v1~")) [] (J.obj []) [(J.obj [(cs "x-gts-ref", J.str (cs "gts.test.pkg.ns.*"))]), (J.obj [(cs "x-gts-ref", J.str (cs "gts.test.pkg.ns.target_a.*"))])]
      (List.cons_ne_nil _ _)
      (fun b hb => by
        rcases List.mem_cons.mp hb with h | h
        · rw [h]; decide
        · have h2 : b = (J.obj [(cs "x-gts-ref", J.str (cs "gts.test.pkg.ns.target_a.*"))]) := by simpa using h
          rw [h2]; decide)⟩
